import Mathlib

/-!
MiniSTL deque: a shallow embedding of `stl_deque.h`.

The deque of `src/Sequence containers/Deque/stl_deque.h` is embedded as pure
state-passing functions over an explicit memory model.

* The template constant `buffer_size()` is the parameter `bs` of every function.
* A block is addressed by a handle (a natural number); the heap maps a handle to
  the cells of the block, or to `none` when the block is not allocated.
  A cell is `none` while it is raw storage and `some v` while it holds a live
  element.
* The map is a function from slot index to the block pointer stored in the slot;
  a slot that was never written holds `none`.
* An iterator is the triple (`node`, `first`, `off`): the map slot, the block
  pointer cached by `set_node`, and `cur - first`.  `last` is `first + bs`.

Accesses that are undefined behaviour in C++ (through a pointer that was never
written, or into a released block) read nothing and have no effect.
-/

set_option autoImplicit false

namespace MiniSTL

/-! ## Memory model -/

/-- Pointwise update of a finite-map-like function. -/
def upd {κ β : Type} [DecidableEq κ] (m : κ → β) (k : κ) (v : β) : κ → β :=
  fun x => if x = k then v else m x

/-- Conversion of a signed difference to `size_type` (64-bit unsigned). -/
def to_size_t (x : Int) : Nat := (x % (2 ^ 64 : Int)).toNat

/-- The heap of blocks: handle to cells. -/
abbrev Heap (α : Type) := Nat → Option (Int → Option α)

/-- Read the cell at offset `o` of the block `p` points to. -/
def rd {α : Type} (heap : Heap α) (p : Option Nat) (o : Int) : Option α :=
  match p with
  | none => none
  | some h =>
    match heap h with
    | none => none
    | some blk => blk o

/-- Overwrite the cell at offset `o` of the block `p` points to. -/
def wr {α : Type} (heap : Heap α) (p : Option Nat) (o : Int) (c : Option α) : Heap α :=
  match p with
  | none => heap
  | some h =>
    match heap h with
    | none => heap
    | some blk => upd heap h (some (upd blk o c))

/-! ## Iterator (`deque_iterator.h`) -/

/-- The deque iterator: `node` is the map slot, `first` the block pointer cached
from that slot, `off` is `cur - first`. -/
structure Iter where
  node : Int
  first : Option Nat
  off : Int
deriving DecidableEq, Repr

/-- Modelled from the spec: `deque_iterator.h` is not among the sources.
`set_node(new_node)` re-derives the block bounds from the map slot; `cur` is not
touched, callers reposition it. -/
def Iter.set_node (map : Int → Option Nat) (it : Iter) (new_node : Int) : Iter :=
  { node := new_node, first := map new_node, off := it.off }

/-- Modelled from the spec: `deque_iterator.h` is not among the sources.
`++it`: pointer increment inside a block, crossing to slot + 1 at the block end. -/
def Iter.inc (bs : Nat) (map : Int → Option Nat) (it : Iter) : Iter :=
  if it.off + 1 = (bs : Int) then
    { Iter.set_node map it (it.node + 1) with off := 0 }
  else { it with off := it.off + 1 }

/-- Modelled from the spec: `deque_iterator.h` is not among the sources.
`--it`: pointer decrement inside a block, crossing to slot - 1 at the block start. -/
def Iter.dec (bs : Nat) (map : Int → Option Nat) (it : Iter) : Iter :=
  if it.off = 0 then
    { Iter.set_node map it (it.node - 1) with off := (bs : Int) - 1 }
  else { it with off := it.off - 1 }

/-- Modelled from the spec: `deque_iterator.h` is not among the sources.
`it + n`: stay in the block when `off + n` is inside `[0, bs)`, otherwise jump
by the floor quotient and take the remainder as the new in-block offset. -/
def Iter.add (bs : Nat) (map : Int → Option Nat) (it : Iter) (n : Int) : Iter :=
  let offset := n + it.off
  if 0 ≤ offset ∧ offset < (bs : Int) then { it with off := offset }
  else
    let node_offset := offset / (bs : Int)
    { Iter.set_node map it (it.node + node_offset) with off := offset - node_offset * (bs : Int) }

/-- Modelled from the spec: `deque_iterator.h` is not among the sources.
`it - n` is `it + (-n)`. -/
def Iter.sub (bs : Nat) (map : Int → Option Nat) (it : Iter) (n : Int) : Iter :=
  Iter.add bs map it (-n)

/-- Modelled from the spec: `deque_iterator.h` is not among the sources.
`a - b`: (slot difference) * buffer_size + (offset difference). -/
def Iter.diff (bs : Nat) (a b : Iter) : Int :=
  (a.node - b.node) * (bs : Int) + (a.off - b.off)

/-- Modelled from the spec: `deque_iterator.h` is not among the sources.
`a == b` compares the element pointers `cur`. -/
def Iter.eq (a b : Iter) : Bool :=
  decide (a.first = b.first) && decide (a.off = b.off)

/-! ## The deque -/

/-- The data members of `deque` together with the memory they point into. -/
structure Deque (α : Type) where
  start : Iter
  finish : Iter
  map : Int → Option Nat
  map_size : Nat
  heap : Heap α
  next : Nat

/-- Whether a call returned normally or left with an exception. -/
inductive Outcome where
  | returned
  | propagated
deriving DecidableEq, Repr

/-- Members as initialised by the constructors before `fill_initialized` runs:
`start()`, `finish()`, `map(nullptr)`, `map_size(0)`. -/
def Deque.init (α : Type) : Deque α :=
  { start := ⟨0, none, 0⟩, finish := ⟨0, none, 0⟩, map := fun _ => none, map_size := 0,
    heap := fun _ => none, next := 0 }

/-- Source: `initial_map_size()`. -/
def initial_map_size : Nat := 8

/-- Source: `*it`. -/
def deref {α : Type} (d : Deque α) (it : Iter) : Option α := rd d.heap it.first it.off

/-- Modelled from the spec: the header that defines it is not among the sources.
`construct(p, v)` makes the cell at `p` a live element equal to `v`. -/
def construct {α : Type} (d : Deque α) (p : Option Nat) (o : Int) (v : α) : Deque α :=
  { d with heap := wr d.heap p o (some v) }

/-- Modelled from the spec: the header that defines it is not among the sources.
`destroy(p)` ends the lifetime of the element at `p`. -/
def destroy {α : Type} (d : Deque α) (p : Option Nat) (o : Int) : Deque α :=
  { d with heap := wr d.heap p o none }

/-- Assignment through a pointer, `*p = c`. -/
def assign {α : Type} (d : Deque α) (p : Option Nat) (o : Int) (c : Option α) : Deque α :=
  { d with heap := wr d.heap p o c }

/-- Source: `allocate_node()`: a fresh block of raw cells. -/
def allocate_node {α : Type} (d : Deque α) : Deque α × Nat :=
  ({ d with heap := upd d.heap d.next (some (fun _ => none)), next := d.next + 1 }, d.next)

/-- Source: the statement `*slot = allocate_node();`. -/
def store_new_node {α : Type} (d : Deque α) (slot : Int) : Deque α :=
  { (allocate_node d).1 with map := upd d.map slot (some (allocate_node d).2) }

/-- Source: `deallocate_node(p)` and `data_allocator::deallocate(p)`. -/
def deallocate {α : Type} (d : Deque α) (p : Option Nat) : Deque α :=
  match p with
  | none => d
  | some h => { d with heap := upd d.heap h none }

/-- Modelled from the spec: the header that defines it is not among the sources.
`destroy(first, last)` over raw pointers, `n = last - first` cells from offset `o`. -/
def destroy_ptr {α : Type} : Nat → Deque α → Option Nat → Int → Deque α
  | 0, d, _, _ => d
  | n + 1, d, p, o => destroy_ptr n (destroy d p o) p (o + 1)

/-- Modelled from the spec: the header that defines it is not among the sources.
`destroy(first, last)` over deque iterators, `n = last - first` steps. -/
def destroy_iter {α : Type} (bs : Nat) : Nat → Deque α → Iter → Deque α
  | 0, d, _ => d
  | n + 1, d, it => destroy_iter bs n (destroy d it.first it.off) (Iter.inc bs d.map it)

/-- Modelled from the spec: the header `uninitialized.h` is not among the sources.
`uninitialized_fill(first, last, v)` over raw pointers, `n = last - first`. -/
def uninitialized_fill {α : Type} : Nat → Deque α → Option Nat → Int → α → Deque α
  | 0, d, _, _, _ => d
  | n + 1, d, p, o, v => uninitialized_fill n (construct d p o v) p (o + 1) v

/-- Modelled from the spec: the header `stl_algobase.h` is not among the sources.
Forward element copy `*result++ = *first++`, `n` times. -/
def copy_loop {α : Type} (bs : Nat) : Nat → Deque α → Iter → Iter → Deque α
  | 0, d, _, _ => d
  | n + 1, d, first, result =>
    copy_loop bs n (assign d result.first result.off (deref d first))
      (Iter.inc bs d.map first) (Iter.inc bs d.map result)

/-- Modelled from the spec: the header `stl_algobase.h` is not among the sources.
`copy(first, last, result)` over deque iterators. -/
def copy {α : Type} (bs : Nat) (d : Deque α) (first last result : Iter) : Deque α :=
  copy_loop bs (Iter.diff bs last first).toNat d first result

/-- Modelled from the spec: the header `stl_algobase.h` is not among the sources.
Backward element copy `*--result = *--last`, `n` times. -/
def copy_backward_loop {α : Type} (bs : Nat) : Nat → Deque α → Iter → Iter → Deque α
  | 0, d, _, _ => d
  | n + 1, d, last, result =>
    copy_backward_loop bs n
      (assign d (Iter.dec bs d.map result).first (Iter.dec bs d.map result).off
        (deref d (Iter.dec bs d.map last)))
      (Iter.dec bs d.map last) (Iter.dec bs d.map result)

/-- Modelled from the spec: the header `stl_algobase.h` is not among the sources.
`copy_backward(first, last, result)` over deque iterators. -/
def copy_backward {α : Type} (bs : Nat) (d : Deque α) (first last result : Iter) : Deque α :=
  copy_backward_loop bs (Iter.diff bs last first).toNat d last result

/-- Modelled from the spec: the header `stl_algobase.h` is not among the sources.
Forward copy of `n` map slots inside one map array. -/
def copy_map : Nat → (Int → Option Nat) → Int → Int → (Int → Option Nat)
  | 0, m, _, _ => m
  | n + 1, m, first, result => copy_map n (upd m result (m first)) (first + 1) (result + 1)

/-- Modelled from the spec: the header `stl_algobase.h` is not among the sources.
Backward copy of `n` map slots inside one map array. -/
def copy_backward_map : Nat → (Int → Option Nat) → Int → Int → (Int → Option Nat)
  | 0, m, _, _ => m
  | n + 1, m, last, result =>
    copy_backward_map n (upd m (result - 1) (m (last - 1))) (last - 1) (result - 1)

/-- Modelled from the spec: the header `stl_algobase.h` is not among the sources.
Forward copy of `n` map slots from the array `src` into another array `dst`. -/
def copy_map_into (src : Int → Option Nat) : Nat → Int → (Int → Option Nat) → Int → (Int → Option Nat)
  | 0, _, dst, _ => dst
  | n + 1, first, dst, result => copy_map_into src n (first + 1) (upd dst result (src first)) (result + 1)

/-- Source: the loop `for (cur = nstart; cur <= nfinish; ++cur) *cur = allocate_node();`. -/
def alloc_nodes {α : Type} : Nat → Deque α → Int → Deque α
  | 0, d, _ => d
  | k + 1, d, cur =>
    alloc_nodes k (store_new_node d cur) (cur + 1)

/-- Source: `create_map_and_nodes(n)`. -/
def create_map_and_nodes {α : Type} (bs : Nat) (d : Deque α) (n : Nat) : Deque α :=
  let num_nodes := n / bs + 1
  let map_size := max initial_map_size (num_nodes + 2)
  let d1 : Deque α := { d with map := fun _ => none, map_size := map_size }
  let nstart : Int := (((map_size - num_nodes) / 2 : Nat) : Int)
  let nfinish : Int := nstart + (num_nodes : Int) - 1
  let d2 := alloc_nodes num_nodes d1 nstart
  { d2 with
    start := { Iter.set_node d2.map d2.start nstart with off := 0 },
    finish := { Iter.set_node d2.map d2.finish nfinish with off := ((n % bs : Nat) : Int) } }

/-- Source: the loop of `fill_initialized` over the full blocks,
`for (cur = start.node; cur < finish.node; ++cur) uninitialized_fill(*cur, *cur + bs, value)`. -/
def fill_nodes {α : Type} (bs : Nat) : Nat → Deque α → Int → α → Deque α
  | 0, d, _, _ => d
  | k + 1, d, cur, v => fill_nodes bs k (uninitialized_fill bs d (d.map cur) 0 v) (cur + 1) v

/-- Source: `fill_initialized(n, value)`. -/
def fill_initialized {α : Type} (bs : Nat) (d : Deque α) (n : Nat) (value : α) : Deque α :=
  let d1 := create_map_and_nodes bs d n
  let d2 := fill_nodes bs (d1.finish.node - d1.start.node).toNat d1 d1.start.node value
  uninitialized_fill d2.finish.off.toNat d2 d2.finish.first 0 value

/-- Source: `deque()`. -/
def Deque.new (α : Type) [Inhabited α] (bs : Nat) : Deque α :=
  fill_initialized bs (Deque.init α) 0 default

/-- Source: `deque(size_type n, const value_type& value)`. -/
def Deque.fill {α : Type} (bs : Nat) (n : Nat) (value : α) : Deque α :=
  fill_initialized bs (Deque.init α) n value

/-- Source: `reallocate_map(nodes_to_add, add_at_front)`. -/
def reallocate_map {α : Type} (d : Deque α) (nodes_to_add : Nat) (add_at_front : Bool) : Deque α :=
  let old_num_nodes : Int := d.finish.node - d.start.node + 1
  let new_num_nodes : Int := old_num_nodes + nodes_to_add
  if (d.map_size : Int) > 2 * new_num_nodes then
    let new_nstart : Int :=
      ((d.map_size : Int) - new_num_nodes) / 2 + (if add_at_front then (nodes_to_add : Int) else 0)
    let m :=
      if new_nstart < d.start.node then
        copy_map old_num_nodes.toNat d.map d.start.node new_nstart
      else
        copy_backward_map old_num_nodes.toNat d.map (d.finish.node + 1) (new_nstart + old_num_nodes)
    { d with
      map := m,
      start := Iter.set_node m d.start new_nstart,
      finish := Iter.set_node m d.finish (new_nstart + old_num_nodes - 1) }
  else
    let new_map_size : Nat := d.map_size + max d.map_size nodes_to_add + 2
    let new_nstart : Int :=
      ((new_map_size : Int) - new_num_nodes) / 2 + (if add_at_front then (nodes_to_add : Int) else 0)
    let m := copy_map_into d.map old_num_nodes.toNat d.start.node (fun _ => none) new_nstart
    { d with
      map := m,
      map_size := new_map_size,
      start := Iter.set_node m d.start new_nstart,
      finish := Iter.set_node m d.finish (new_nstart + old_num_nodes - 1) }

/-- Source: `reverse_map_at_back(nodes_to_add)`. -/
def reverse_map_at_back {α : Type} (d : Deque α) (nodes_to_add : Nat) : Deque α :=
  if (nodes_to_add : Int) > (d.map_size : Int) - (d.finish.node + 1) then
    reallocate_map d nodes_to_add false
  else d

/-- Source: `reverse_map_at_front(nodes_to_add)`. -/
def reverse_map_at_front {α : Type} (d : Deque α) (nodes_to_add : Nat) : Deque α :=
  if (nodes_to_add : Int) > d.start.node then
    reallocate_map d nodes_to_add true
  else d

/-- Placement construction inside a `try` block: with `ctor_throws` the element
constructor throws a `std::exception` and the state at the throw is handed to
the handler. -/
def try_construct {α : Type} (ctor_throws : Bool) (d : Deque α) (p : Option Nat) (o : Int) (v : α) :
    Except (Deque α) (Deque α) :=
  if ctor_throws then Except.error d else Except.ok (construct d p o v)

/-- Source: `push_back_aux(value)`.  `copy_throws` makes the copy
`value_type value_copy = value` (outside the `try`) throw, `ctor_throws` makes
`construct(finish.cur, value_copy)` (inside the `try`) throw. -/
def push_back_aux_try {α : Type} (copy_throws ctor_throws : Bool) (d : Deque α) (value : α) :
    Deque α × Outcome :=
  if copy_throws then (d, Outcome.propagated)
  else
    let value_copy := value
    let d1 := reverse_map_at_back d 1
    let d2 := store_new_node d1 (d1.finish.node + 1)
    match try_construct ctor_throws d2 d2.finish.first d2.finish.off value_copy with
    | Except.ok d3 =>
      ({ d3 with finish := { Iter.set_node d3.map d3.finish (d3.finish.node + 1) with off := 0 } },
        Outcome.returned)
    | Except.error d3 =>
      (deallocate d3 (d3.map (d3.finish.node + 1)), Outcome.returned)

/-- Source: `push_back_aux(value)` when nothing throws. -/
def push_back_aux {α : Type} (d : Deque α) (value : α) : Deque α :=
  (push_back_aux_try false false d value).1

/-- Source: `push_front_aux(value)`, with the same two throw points as
`push_back_aux_try`; the handler restores `start` and releases the block. -/
def push_front_aux_try {α : Type} (bs : Nat) (copy_throws ctor_throws : Bool) (d : Deque α) (value : α) :
    Deque α × Outcome :=
  if copy_throws then (d, Outcome.propagated)
  else
    let d1 := reverse_map_at_front d 1
    let d2 := store_new_node d1 (d1.start.node - 1)
    let d3 : Deque α :=
      { d2 with start := { Iter.set_node d2.map d2.start (d2.start.node - 1) with off := (bs : Int) - 1 } }
    match try_construct ctor_throws d3 d3.start.first d3.start.off value with
    | Except.ok d4 => (d4, Outcome.returned)
    | Except.error d4 =>
      let d5 : Deque α :=
        { d4 with start := { Iter.set_node d4.map d4.start (d4.start.node + 1) with off := 0 } }
      (deallocate d5 (d5.map (d5.start.node - 1)), Outcome.returned)

/-- Source: `push_front_aux(value)` when nothing throws. -/
def push_front_aux {α : Type} (bs : Nat) (d : Deque α) (value : α) : Deque α :=
  (push_front_aux_try bs false false d value).1

/-- Source: `pop_back_aux()`. -/
def pop_back_aux {α : Type} (bs : Nat) (d : Deque α) : Deque α :=
  let d1 := deallocate d d.finish.first
  let d2 : Deque α :=
    { d1 with finish := { Iter.set_node d1.map d1.finish (d1.finish.node - 1) with off := (bs : Int) - 1 } }
  destroy d2 d2.finish.first d2.finish.off

/-- Source: `pop_front_aux()`; note `start.set_node(finish.node + 1)`. -/
def pop_front_aux {α : Type} (d : Deque α) : Deque α :=
  let d1 := destroy d d.start.first d.start.off
  let d2 := deallocate d1 d1.start.first
  { d2 with start := { Iter.set_node d2.map d2.start (d2.finish.node + 1) with off := 0 } }

/-- Source: `push_back(value)`. -/
def push_back {α : Type} (bs : Nat) (d : Deque α) (value : α) : Deque α :=
  if d.finish.off ≠ (bs : Int) - 1 then
    let d1 := construct d d.finish.first d.finish.off value
    { d1 with finish := { d1.finish with off := d1.finish.off + 1 } }
  else push_back_aux d value

/-- Source: `push_front(value)`. -/
def push_front {α : Type} (bs : Nat) (d : Deque α) (value : α) : Deque α :=
  if d.start.off ≠ 0 then
    let d1 := construct d d.start.first (d.start.off - 1) value
    { d1 with start := { d1.start with off := d1.start.off - 1 } }
  else push_front_aux bs d value

/-- Source: `pop_back()`. -/
def pop_back {α : Type} (bs : Nat) (d : Deque α) : Deque α :=
  if d.finish.off ≠ 0 then
    let d1 : Deque α := { d with finish := { d.finish with off := d.finish.off - 1 } }
    destroy d1 d1.finish.first d1.finish.off
  else pop_back_aux bs d

/-- Source: `pop_front()`. -/
def pop_front {α : Type} (bs : Nat) (d : Deque α) : Deque α :=
  if d.start.off ≠ (bs : Int) - 1 then
    let d1 := destroy d d.start.first d.start.off
    { d1 with start := { d1.start with off := d1.start.off + 1 } }
  else pop_front_aux d

/-- Source: `size()`, the iterator difference converted to `size_type`. -/
def size {α : Type} (bs : Nat) (d : Deque α) : Nat := to_size_t (Iter.diff bs d.finish d.start)

/-- Source: `empty()`. -/
def empty {α : Type} (d : Deque α) : Bool := Iter.eq d.finish d.start

/-- Source: `front()`. -/
def front {α : Type} (d : Deque α) : Option α := deref d d.start

/-- Source: `back()`, that is `*(finish - 1)`. -/
def back {α : Type} (bs : Nat) (d : Deque α) : Option α := deref d (Iter.sub bs d.map d.finish 1)

/-- Source: `operator[](n)`, that is `start[n]`, which is `*(start + n)`. -/
def index {α : Type} (bs : Nat) (d : Deque α) (n : Nat) : Option α :=
  deref d (Iter.add bs d.map d.start (n : Int))

/-- Source: the first loop of `clear()`, over the blocks strictly between
`start.node` and `finish.node`. -/
def clear_nodes {α : Type} (bs : Nat) : Nat → Deque α → Int → Deque α
  | 0, d, _ => d
  | k + 1, d, node =>
    clear_nodes bs k (deallocate (destroy_ptr bs d (d.map node) 0) (d.map node)) (node + 1)

/-- Source: `clear()`. -/
def clear {α : Type} (bs : Nat) (d : Deque α) : Deque α :=
  let d1 := clear_nodes bs (d.finish.node - (d.start.node + 1)).toNat d (d.start.node + 1)
  let d2 :=
    if d1.start.node ≠ d1.finish.node then
      let e1 := destroy_ptr ((bs : Int) - d1.start.off).toNat d1 d1.start.first d1.start.off
      let e2 := destroy_ptr e1.finish.off.toNat e1 e1.finish.first 0
      deallocate e2 e2.finish.first
    else
      destroy_ptr (d1.finish.off - d1.start.off).toNat d1 d1.start.first d1.start.off
  { d2 with finish := d2.start }

/-- Source: `erase(pos)`. -/
def erase {α : Type} (bs : Nat) (d : Deque α) (pos : Iter) : Deque α × Iter :=
  let next := Iter.add bs d.map pos 1
  let index := Iter.diff bs pos d.start
  if to_size_t index < size bs d / 2 then
    let d1 := copy_backward bs d d.start pos pos
    let d2 := pop_front bs d1
    (d2, Iter.add bs d2.map d2.start index)
  else
    let d1 := copy bs d next d.finish pos
    let d2 := pop_back bs d1
    (d2, Iter.add bs d2.map d2.start index)

/-- Source: a block-release loop of `erase(first, last)`,
`for (...; ++cur) deallocate(*cur, buffer_size())`, `k` slots from `cur`. -/
def dealloc_nodes {α : Type} : Nat → Deque α → Int → Deque α
  | 0, d, _ => d
  | k + 1, d, cur => dealloc_nodes k (deallocate d (d.map cur)) (cur + 1)

/-- Source: the branch of `erase(first, last)` that shifts the elements before
`first` towards the back (`elems_before < (size() - n) / 2`). -/
def erase_shift_front {α : Type} (bs : Nat) (d : Deque α) (first last : Iter) : Deque α × Iter :=
  let n := Iter.diff bs last first
  let elems_before := Iter.diff bs first d.start
  let d1 := copy_backward bs d d.start first last
  let new_start := Iter.add bs d1.map d1.start n
  let d2 := destroy_iter bs (Iter.diff bs new_start d1.start).toNat d1 d1.start
  let d3 := dealloc_nodes (new_start.node - d2.start.node).toNat d2 d2.start.node
  let d4 : Deque α := { d3 with start := new_start }
  (d4, Iter.add bs d4.map d4.start elems_before)

/-- Source: the branch of `erase(first, last)` that shifts the elements from
`last` on towards the front. -/
def erase_shift_back {α : Type} (bs : Nat) (d : Deque α) (first last : Iter) : Deque α × Iter :=
  let n := Iter.diff bs last first
  let elems_before := Iter.diff bs first d.start
  let d1 := copy bs d last d.finish first
  let new_finish := Iter.sub bs d1.map d1.finish n
  let d2 := destroy_iter bs (Iter.diff bs d1.finish new_finish).toNat d1 new_finish
  let d3 := dealloc_nodes (d2.finish.node - new_finish.node).toNat d2 (new_finish.node + 1)
  let d4 : Deque α := { d3 with finish := new_finish }
  (d4, Iter.add bs d4.map d4.start elems_before)

/-- Source: `erase(first, last)`.  The guard is written `last == end` in the
source; `end` is read as the value `end()` returns, which is `finish`. -/
def erase_range {α : Type} (bs : Nat) (d : Deque α) (first last : Iter) : Deque α × Iter :=
  if Iter.eq first d.start && Iter.eq last d.finish then
    let d1 := clear bs d
    (d1, d1.finish)
  else
    let n := Iter.diff bs last first
    let elems_before := Iter.diff bs first d.start
    if to_size_t elems_before < to_size_t ((size bs d : Int) - n) / 2 then
      erase_shift_front bs d first last
    else
      erase_shift_back bs d first last

/-- Source: `insert_aux(pos, value)`.  In the front branch the source assigns
`pos1 = start + index + 1` (read as a local iterator) and leaves `pos` as it was
passed in.  `front()` and `back()` read a live element in every well-formed
non-empty state; on a raw cell nothing is pushed. -/
def insert_aux {α : Type} (bs : Nat) (d : Deque α) (pos : Iter) (value : α) : Deque α × Iter :=
  let index := Iter.diff bs pos d.start
  let value_copy := value
  if to_size_t index < size bs d / 2 then
    let d1 := match front d with
      | some x => push_front bs d x
      | none => d
    let front1 := Iter.add bs d1.map d1.start 1
    let front2 := Iter.add bs d1.map front1 1
    let pos1 := Iter.add bs d1.map (Iter.add bs d1.map d1.start index) 1
    let d2 := copy bs d1 front2 pos1 front1
    (assign d2 pos.first pos.off (some value_copy), pos)
  else
    let d1 := match back bs d with
      | some x => push_back bs d x
      | none => d
    let back1 := Iter.sub bs d1.map d1.finish 1
    let back2 := Iter.sub bs d1.map back1 1
    let pos := Iter.add bs d1.map d1.start index
    let d2 := copy_backward bs d1 pos back2 back1
    (assign d2 pos.first pos.off (some value_copy), pos)

/-- Source: `insert(pos, value)`; the last branch, written `returninsert_aux(pos, value)`
in the source, returns the result of `insert_aux`. -/
def insert {α : Type} (bs : Nat) (d : Deque α) (pos : Iter) (value : α) : Deque α × Iter :=
  if pos.first = d.start.first ∧ pos.off = d.start.off then
    let d1 := push_front bs d value
    (d1, d1.start)
  else if pos.first = d.finish.first ∧ pos.off = d.finish.off then
    let d1 := push_back bs d value
    (d1, Iter.sub bs d1.map d1.finish 1)
  else insert_aux bs d pos value

/-- Source: `begin() + n`. -/
def begin_add {α : Type} (bs : Nat) (d : Deque α) (n : Nat) : Iter :=
  Iter.add bs d.map d.start (n : Int)

/-- The deque obtained from `deque()` by one `push_back` per list element. -/
def pushed_back (bs : Nat) (l : List Nat) : Deque Nat :=
  l.foldl (push_back bs) (Deque.new Nat bs)

/-! ## Observation and well-formedness -/

/-- The cells met walking `n` steps from `it` with `++`. -/
def walk {α : Type} (bs : Nat) (d : Deque α) : Nat → Iter → List (Option α)
  | 0, _ => []
  | n + 1, it => deref d it :: walk bs d n (Iter.inc bs d.map it)

/-- The elements read from `begin()` to `end()`. -/
def content {α : Type} (bs : Nat) (d : Deque α) : List (Option α) :=
  walk bs d (Iter.diff bs d.finish d.start).toNat d.start

/-- A run of `n` assignments of the cell value `c` through a raw pointer, from
offset `o` upwards: the common shape of `uninitialized_fill` and `destroy`. -/
def assign_cells {α : Type} : Nat → Deque α → Option Nat → Int → Option α → Deque α
  | 0, d, _, _, _ => d
  | n + 1, d, p, o, c => assign_cells n (assign d p o c) p (o + 1) c

/-- Flat position of an iterator: slot index times block size plus offset. -/
def Iter.pos (bs : Nat) (it : Iter) : Int := it.node * (bs : Int) + it.off

/-- The iterator standing at flat position `p` of the map `map`. -/
def Iter.mk_at (bs : Nat) (map : Int → Option Nat) (p : Int) : Iter :=
  { node := p / (bs : Int), first := map (p / (bs : Int)), off := p % (bs : Int) }

/-- An iterator is coherent with a map: its cached block pointer is the one in
its slot and its offset is inside the block. -/
def Iter.ok (bs : Nat) (map : Int → Option Nat) (it : Iter) : Prop :=
  it.first = map it.node ∧ 0 ≤ it.off ∧ it.off < (bs : Int)

/-- The cell at flat position `p`, read through the map. -/
def flat {α : Type} (bs : Nat) (d : Deque α) (p : Int) : Option α :=
  rd d.heap (d.map (p / (bs : Int))) (p % (bs : Int))

/-- Flat position `p` lies in a slot of the live slot range. -/
def InR {α : Type} (bs : Nat) (d : Deque α) (p : Int) : Prop :=
  d.start.node ≤ p / (bs : Int) ∧ p / (bs : Int) ≤ d.finish.node

/-- The part of the invariant that makes flat positions of the live slot range
address pairwise distinct cells of allocated blocks. -/
structure Core {α : Type} (bs : Nat) (d : Deque α) : Prop where
  bs_pos : 0 < bs
  live : ∀ i, d.start.node ≤ i → i ≤ d.finish.node → ∃ h, d.map i = some h ∧ (d.heap h).isSome = true
  inj : ∀ i j h, d.start.node ≤ i → i ≤ d.finish.node → d.start.node ≤ j → j ≤ d.finish.node →
    d.map i = some h → d.map j = some h → i = j

/-- Well-formed deque states: the representation invariant of `deque`. -/
structure WF {α : Type} (bs : Nat) (d : Deque α) : Prop where
  bs_pos : 0 < bs
  start_lo : 0 ≤ d.start.node
  finish_hi : d.finish.node < (d.map_size : Int)
  start_ok : Iter.ok bs d.map d.start
  finish_ok : Iter.ok bs d.map d.finish
  ordered : Iter.pos bs d.start ≤ Iter.pos bs d.finish
  live : ∀ i, d.start.node ≤ i → i ≤ d.finish.node → ∃ h, d.map i = some h ∧ (d.heap h).isSome = true
  inj : ∀ i j h, d.start.node ≤ i → i ≤ d.finish.node → d.start.node ≤ j → j ≤ d.finish.node →
    d.map i = some h → d.map j = some h → i = j
  fresh : ∀ h, d.next ≤ h → d.heap h = none
  owned : ∀ h, (d.heap h).isSome = true →
    ∃ i, d.start.node ≤ i ∧ i ≤ d.finish.node ∧ d.map i = some h

/-- State `e` is state `d` with the live map slots moved by `δ` slots; blocks,
cursors inside the blocks and the allocator are untouched. -/
def Shifted {α : Type} (δ : Int) (d e : Deque α) : Prop :=
  e.heap = d.heap ∧ e.next = d.next ∧
  e.start.node = d.start.node + δ ∧ e.start.off = d.start.off ∧ e.start.first = e.map e.start.node ∧
  e.finish.node = d.finish.node + δ ∧ e.finish.off = d.finish.off ∧
  e.finish.first = e.map e.finish.node ∧
  ∀ i, d.start.node ≤ i → i ≤ d.finish.node → e.map (i + δ) = d.map i

/-- Two states differ at most in the contents of cells of allocated blocks. -/
def SameShape {α : Type} (d e : Deque α) : Prop :=
  e.map = d.map ∧ e.start = d.start ∧ e.finish = d.finish ∧ e.map_size = d.map_size ∧
    e.next = d.next ∧ ∀ h, (e.heap h).isSome = (d.heap h).isSome

/-! ## The stack adapter (`stl_stack.h`) -/

/-- Source: `stack`, whose only data member is the underlying sequence `c`. -/
structure Stack (α : Type) where
  c : Deque α

/-- Source: `stack::push(value)`, which is `c.push_back(value)`. -/
def Stack.push {α : Type} (bs : Nat) (s : Stack α) (value : α) : Stack α :=
  { c := push_back bs s.c value }

/-- Source: `stack::pop()`, which is `c.pop_back()`. -/
def Stack.pop {α : Type} (bs : Nat) (s : Stack α) : Stack α :=
  { c := pop_back bs s.c }

/-- Source: `stack::top()`, which is `c.back()`. -/
def Stack.top {α : Type} (bs : Nat) (s : Stack α) : Option α := MiniSTL.back bs s.c

/-- Source: `stack::empty()`, which is `c.empty()`. -/
def Stack.empty {α : Type} (s : Stack α) : Bool := MiniSTL.empty s.c

/-- Source: `stack::size()`, which is `c.size()`. -/
def Stack.size {α : Type} (bs : Nat) (s : Stack α) : Nat := MiniSTL.size bs s.c

/-! ## Reachable states -/

/-- The states reachable from the constructors `deque()` and `deque(n, value)`
through calls, within their preconditions, of `push_back`, `push_front`,
`pop_back` (on a non-empty deque), `clear` and `erase(first, last)` (on a range
`begin() + i`, `begin() + j` with `i <= j <= size()`). -/
inductive Reachable {α : Type} (bs : Nat) : Deque α → Prop where
  | ctor (n : Nat) (value : α) : Reachable bs (Deque.fill bs n value)
  | push_back (d : Deque α) (value : α) : Reachable bs d → Reachable bs (push_back bs d value)
  | push_front (d : Deque α) (value : α) : Reachable bs d → Reachable bs (push_front bs d value)
  | pop_back (d : Deque α) : Reachable bs d → 0 < Iter.diff bs d.finish d.start →
      Reachable bs (pop_back bs d)
  | clear (d : Deque α) : Reachable bs d → Reachable bs (clear bs d)
  | erase_range (d : Deque α) (i j : Nat) : Reachable bs d → i ≤ j →
      (j : Int) ≤ Iter.diff bs d.finish d.start →
      Reachable bs (erase_range bs d (begin_add bs d i) (begin_add bs d j)).1

/-! ## Basic facts about memory and iterators -/

theorem upd_same {κ β : Type} [DecidableEq κ] (m : κ → β) (k : κ) (v : β) : upd m k v k = v := by
  simp [upd]

theorem upd_ne {κ β : Type} [DecidableEq κ] (m : κ → β) (k x : κ) (v : β) (h : x ≠ k) :
    upd m k v x = m x := by
  simp [upd, h]

theorem wr_isSome {α : Type} (heap : Heap α) (p : Option Nat) (o : Int) (c : Option α) (h : Nat) :
    (wr heap p o c h).isSome = (heap h).isSome := by
  cases p with
  | none => rfl
  | some k =>
    cases hk : heap k with
    | none => simp [wr, hk]
    | some blk =>
      by_cases hh : h = k
      · subst hh; simp [wr, upd, hk]
      · simp [wr, upd, hh, hk]

theorem rd_wr_same {α : Type} (heap : Heap α) (k : Nat) (o : Int) (c : Option α)
    (hk : (heap k).isSome = true) : rd (wr heap (some k) o c) (some k) o = c := by
  cases hb : heap k with
  | none => simp [hb] at hk
  | some blk => simp [rd, wr, upd, hb]

theorem rd_wr_off {α : Type} (heap : Heap α) (p : Option Nat) (o o2 : Int) (c : Option α)
    (ho : o2 ≠ o) : rd (wr heap p o c) p o2 = rd heap p o2 := by
  cases p with
  | none => rfl
  | some k =>
    cases hb : heap k with
    | none => simp [rd, wr, hb]
    | some blk => simp [rd, wr, upd, ho, hb]

theorem rd_wr_ptr {α : Type} (heap : Heap α) (p q : Option Nat) (o o2 : Int) (c : Option α)
    (hq : q ≠ p) : rd (wr heap p o c) q o2 = rd heap q o2 := by
  cases p with
  | none => rfl
  | some k =>
    cases hb : heap k with
    | none => simp [rd, wr, hb]
    | some blk =>
      cases q with
      | none => rfl
      | some j =>
        have hj : j ≠ k := fun e => hq (by rw [e])
        simp [rd, wr, upd, hj, hb]

theorem ediv_emod_of_parts (b : Int) (hb : 0 < b) (n o : Int) (h0 : 0 ≤ o) (h1 : o < b) :
    (n * b + o) / b = n ∧ (n * b + o) % b = o := by
  rw [Int.ediv_emod_unique hb]
  refine ⟨by ring, h0, h1⟩

theorem parts_of_pos (b : Int) (hb : 0 < b) (p : Int) :
    p / b * b + p % b = p ∧ 0 ≤ p % b ∧ p % b < b := by
  refine ⟨?_, Int.emod_nonneg _ (ne_of_gt hb), Int.emod_lt_of_pos _ hb⟩
  have := Int.ediv_add_emod p b
  linarith [mul_comm b (p / b)]

theorem ediv_mono_pos (b : Int) (hb : 0 < b) (p q : Int) (h : p ≤ q) : p / b ≤ q / b :=
  Int.ediv_le_ediv hb h

theorem Iter.ok_mk_at (bs : Nat) (hbs : 0 < bs) (map : Int → Option Nat) (p : Int) :
    Iter.ok bs map (Iter.mk_at bs map p) := by
  have hb : (0 : Int) < bs := by exact_mod_cast hbs
  exact ⟨rfl, (parts_of_pos bs hb p).2.1, (parts_of_pos bs hb p).2.2⟩

theorem Iter.pos_mk_at (bs : Nat) (hbs : 0 < bs) (map : Int → Option Nat) (p : Int) :
    Iter.pos bs (Iter.mk_at bs map p) = p := by
  have hb : (0 : Int) < bs := by exact_mod_cast hbs
  exact (parts_of_pos bs hb p).1

theorem Iter.eq_mk_at (bs : Nat) (hbs : 0 < bs) (map : Int → Option Nat) (it : Iter)
    (h : Iter.ok bs map it) : it = Iter.mk_at bs map (Iter.pos bs it) := by
  have hb : (0 : Int) < bs := by exact_mod_cast hbs
  obtain ⟨h1, h2, h3⟩ := h
  have := ediv_emod_of_parts bs hb it.node it.off h2 h3
  cases it with
  | mk node first off =>
    simp only [Iter.mk_at, Iter.pos] at *
    rw [this.1, this.2, h1]

theorem Iter.inc_mk_at (bs : Nat) (hbs : 0 < bs) (map : Int → Option Nat) (p : Int) :
    Iter.inc bs map (Iter.mk_at bs map p) = Iter.mk_at bs map (p + 1) := by
  have hb : (0 : Int) < bs := by exact_mod_cast hbs
  obtain ⟨e, h0, h1⟩ := parts_of_pos bs hb p
  unfold Iter.inc
  by_cases hc : (Iter.mk_at bs map p).off + 1 = (bs : Int)
  · rw [if_pos hc]
    simp only [Iter.mk_at, Iter.set_node] at hc ⊢
    have := ediv_emod_of_parts bs hb (p / bs + 1) 0 (le_refl 0) hb
    have e2 : (p / (bs : Int) + 1) * bs + 0 = p + 1 := by linarith
    rw [e2] at this
    rw [this.1, this.2]
  · rw [if_neg hc]
    simp only [Iter.mk_at] at hc ⊢
    have hlt : p % (bs : Int) + 1 < bs := by omega
    have := ediv_emod_of_parts bs hb (p / bs) (p % bs + 1) (by omega) hlt
    have e2 : p / (bs : Int) * bs + (p % bs + 1) = p + 1 := by linarith
    rw [e2] at this
    rw [this.1, this.2]

theorem Iter.dec_mk_at (bs : Nat) (hbs : 0 < bs) (map : Int → Option Nat) (p : Int) :
    Iter.dec bs map (Iter.mk_at bs map p) = Iter.mk_at bs map (p - 1) := by
  have hb : (0 : Int) < bs := by exact_mod_cast hbs
  obtain ⟨e, h0, h1⟩ := parts_of_pos bs hb p
  unfold Iter.dec
  by_cases hc : (Iter.mk_at bs map p).off = 0
  · rw [if_pos hc]
    simp only [Iter.mk_at, Iter.set_node] at hc ⊢
    have := ediv_emod_of_parts bs hb (p / bs - 1) (bs - 1) (by omega) (by omega)
    have e2 : (p / (bs : Int) - 1) * bs + (bs - 1) = p - 1 := by linarith
    rw [e2] at this
    rw [this.1, this.2]
  · rw [if_neg hc]
    simp only [Iter.mk_at] at hc ⊢
    have := ediv_emod_of_parts bs hb (p / bs) (p % bs - 1) (by omega) (by omega)
    have e2 : p / (bs : Int) * bs + (p % bs - 1) = p - 1 := by linarith
    rw [e2] at this
    rw [this.1, this.2]

theorem Iter.add_mk_at (bs : Nat) (hbs : 0 < bs) (map : Int → Option Nat) (p n : Int) :
    Iter.add bs map (Iter.mk_at bs map p) n = Iter.mk_at bs map (p + n) := by
  have hb : (0 : Int) < bs := by exact_mod_cast hbs
  obtain ⟨e, h0, h1⟩ := parts_of_pos bs hb p
  unfold Iter.add
  simp only [Iter.mk_at, Iter.set_node]
  by_cases hc : 0 ≤ n + p % (bs : Int) ∧ n + p % (bs : Int) < bs
  · rw [if_pos hc]
    have := ediv_emod_of_parts bs hb (p / bs) (n + p % bs) hc.1 hc.2
    have e2 : p / (bs : Int) * bs + (n + p % bs) = p + n := by linarith
    rw [e2] at this
    rw [this.1, this.2]
  · rw [if_neg hc]
    obtain ⟨e3, h3, h4⟩ := parts_of_pos bs hb (n + p % bs)
    have := ediv_emod_of_parts bs hb (p / bs + (n + p % bs) / bs) ((n + p % bs) % bs) h3 h4
    have e2 : (p / (bs : Int) + (n + p % bs) / bs) * bs + (n + p % bs) % bs = p + n := by linarith
    rw [e2] at this
    rw [this.1, this.2]
    have e4 : n + p % (bs : Int) - (n + p % bs) / bs * bs = (n + p % bs) % bs := by linarith
    rw [e4]

theorem Iter.sub_mk_at (bs : Nat) (hbs : 0 < bs) (map : Int → Option Nat) (p n : Int) :
    Iter.sub bs map (Iter.mk_at bs map p) n = Iter.mk_at bs map (p - n) := by
  unfold Iter.sub
  rw [Iter.add_mk_at bs hbs, sub_eq_add_neg]

theorem Iter.diff_eq_pos (bs : Nat) (a b : Iter) :
    Iter.diff bs a b = Iter.pos bs a - Iter.pos bs b := by
  unfold Iter.diff Iter.pos
  ring

theorem deref_mk_at {α : Type} (bs : Nat) (d : Deque α) (p : Int) :
    deref d (Iter.mk_at bs d.map p) = flat bs d p := rfl

theorem walk_mk_at {α : Type} (bs : Nat) (hbs : 0 < bs) (d : Deque α) (n : Nat) (p : Int) :
    walk bs d n (Iter.mk_at bs d.map p) = (List.range n).map (fun (k : Nat) => flat bs d (p + (k : Int))) := by
  induction n generalizing p with
  | zero => rfl
  | succ n ih =>
    rw [walk, Iter.inc_mk_at bs hbs, ih, List.range_succ_eq_map, List.map_cons, List.map_map]
    simp only [deref_mk_at, Nat.cast_zero, add_zero, List.cons.injEq, true_and]
    apply List.map_congr_left
    intro k _
    simp only [Function.comp, Nat.cast_succ]
    congr 1
    ring

theorem content_eq_flat {α : Type} (bs : Nat) (hbs : 0 < bs) (d : Deque α)
    (hs : Iter.ok bs d.map d.start) :
    content bs d = (List.range (Iter.pos bs d.finish - Iter.pos bs d.start).toNat).map
      (fun (k : Nat) => flat bs d (Iter.pos bs d.start + (k : Int))) := by
  unfold content
  rw [Iter.diff_eq_pos]
  conv_lhs => rw [Iter.eq_mk_at bs hbs d.map d.start hs]
  rw [walk_mk_at bs hbs, Iter.pos_mk_at bs hbs]

theorem node_le_ediv (b : Int) (hb : 0 < b) (n p : Int) (h : n * b ≤ p) : n ≤ p / b :=
  Int.le_ediv_of_mul_le hb h

theorem ediv_le_node (b : Int) (hb : 0 < b) (m p : Int) (h : p < (m + 1) * b) : p / b ≤ m := by
  have := Int.ediv_lt_of_lt_mul hb h
  omega

theorem inR_of_between {α : Type} (bs : Nat) (d : Deque α) (hw : WF bs d) (p : Int)
    (h1 : Iter.pos bs d.start ≤ p) (h2 : p ≤ Iter.pos bs d.finish) : InR bs d p := by
  have hb : (0 : Int) < bs := by exact_mod_cast hw.bs_pos
  obtain ⟨_, s0, s1⟩ := hw.start_ok
  obtain ⟨_, f0, f1⟩ := hw.finish_ok
  unfold Iter.pos at h1 h2
  constructor
  · apply node_le_ediv _ hb
    linarith
  · apply ediv_le_node _ hb
    linarith

theorem pos_eq_iff (b : Int) (hb : 0 < b) (p q : Int) : p = q ↔ p / b = q / b ∧ p % b = q % b := by
  constructor
  · intro h; subst h; exact ⟨rfl, rfl⟩
  · intro ⟨h1, h2⟩
    have e1 := (parts_of_pos b hb p).1
    have e2 := (parts_of_pos b hb q).1
    rw [h1, h2] at e1
    linarith

theorem WF.core {α : Type} {bs : Nat} {d : Deque α} (hw : WF bs d) : Core bs d :=
  ⟨hw.bs_pos, hw.live, hw.inj⟩

theorem flat_wr {α : Type} (bs : Nat) (d e : Deque α) (hw : Core bs d) (q p : Int) (c : Option α)
    (hq : InR bs d q) (hp : InR bs d p) (hm : e.map = d.map)
    (hh : e.heap = wr d.heap (d.map (q / (bs : Int))) (q % (bs : Int)) c) :
    flat bs e p = if p = q then c else flat bs d p := by
  have hb : (0 : Int) < bs := by exact_mod_cast hw.bs_pos
  unfold flat
  rw [hm, hh]
  obtain ⟨hq1, hq2⟩ := hq
  obtain ⟨hp1, hp2⟩ := hp
  obtain ⟨k, hk, hks⟩ := hw.live _ hq1 hq2
  by_cases hn : p / (bs : Int) = q / (bs : Int)
  · rw [hn]
    by_cases ho : p % (bs : Int) = q % (bs : Int)
    · rw [ho, hk, rd_wr_same _ _ _ _ hks, if_pos ((pos_eq_iff bs hb p q).2 ⟨hn, ho⟩)]
    · rw [rd_wr_off _ _ _ _ _ ho, if_neg]
      intro h
      exact ho ((pos_eq_iff bs hb p q).1 h).2
  · have hne : d.map (p / (bs : Int)) ≠ d.map (q / (bs : Int)) := by
      intro h
      rw [hk] at h
      exact hn (hw.inj _ _ k hp1 hp2 hq1 hq2 h hk)
    rw [rd_wr_ptr _ _ _ _ _ _ hne, if_neg]
    intro h
    exact hn ((pos_eq_iff bs hb p q).1 h).1

theorem sameShape_refl {α : Type} (d : Deque α) : SameShape d d :=
  ⟨Eq.refl _, Eq.refl _, Eq.refl _, Eq.refl _, Eq.refl _, fun _ => Eq.refl _⟩

theorem SameShape.trans {α : Type} {d e f : Deque α} (h1 : SameShape d e) (h2 : SameShape e f) :
    SameShape d f :=
  ⟨h2.1.trans h1.1, h2.2.1.trans h1.2.1, h2.2.2.1.trans h1.2.2.1,
    h2.2.2.2.1.trans h1.2.2.2.1, h2.2.2.2.2.1.trans h1.2.2.2.2.1,
    fun k => (h2.2.2.2.2.2 k).trans (h1.2.2.2.2.2 k)⟩

theorem SameShape.assign {α : Type} (d : Deque α) (p : Option Nat) (o : Int) (c : Option α) :
    SameShape d (assign d p o c) :=
  ⟨Eq.refl _, Eq.refl _, Eq.refl _, Eq.refl _, Eq.refl _, fun h => wr_isSome _ _ _ _ h⟩

theorem SameShape.construct {α : Type} (d : Deque α) (p : Option Nat) (o : Int) (v : α) :
    SameShape d (construct d p o v) :=
  ⟨Eq.refl _, Eq.refl _, Eq.refl _, Eq.refl _, Eq.refl _, fun h => wr_isSome _ _ _ _ h⟩

theorem SameShape.destroy {α : Type} (d : Deque α) (p : Option Nat) (o : Int) :
    SameShape d (destroy d p o) :=
  ⟨Eq.refl _, Eq.refl _, Eq.refl _, Eq.refl _, Eq.refl _, fun h => wr_isSome _ _ _ _ h⟩

theorem WF.of_sameShape {α : Type} {bs : Nat} {d e : Deque α} (hw : WF bs d) (h : SameShape d e) :
    WF bs e := by
  obtain ⟨a1, a2, a3, a4, a5, a6⟩ := h
  constructor
  · exact hw.bs_pos
  · rw [a2]; exact hw.start_lo
  · rw [a3, a4]; exact hw.finish_hi
  · rw [a1, a2]; exact hw.start_ok
  · rw [a1, a3]; exact hw.finish_ok
  · rw [a2, a3]; exact hw.ordered
  · intro i h1 h2
    rw [a2] at h1
    rw [a3] at h2
    obtain ⟨k, hk, hks⟩ := hw.live i h1 h2
    exact ⟨k, by rw [a1]; exact hk, by rw [a6]; exact hks⟩
  · intro i j k h1 h2 h3 h4 h5 h6
    rw [a2] at h1 h3
    rw [a3] at h2 h4
    rw [a1] at h5 h6
    exact hw.inj i j k h1 h2 h3 h4 h5 h6
  · intro k hk
    rw [a5] at hk
    have := hw.fresh k hk
    have e2 := a6 k
    rw [this] at e2
    cases he : e.heap k with
    | none => rfl
    | some b => rw [he] at e2; simp at e2
  · intro k hk
    rw [a6] at hk
    obtain ⟨i, h1, h2, h3⟩ := hw.owned k hk
    exact ⟨i, by rw [a2]; exact h1, by rw [a3]; exact h2, by rw [a1]; exact h3⟩

theorem inR_of_sameShape {α : Type} {bs : Nat} {d e : Deque α} (h : SameShape d e) (p : Int)
    (hp : InR bs d p) : InR bs e p := by
  obtain ⟨_, a2, a3, _⟩ := h
  unfold InR
  rw [a2, a3]
  exact hp

theorem content_shift {α : Type} (bs : Nat) (hbs : 0 < bs) (d e : Deque α) (s : Int)
    (hs : Iter.ok bs d.map d.start) (hs2 : Iter.ok bs e.map e.start)
    (e1 : Iter.pos bs e.start = Iter.pos bs d.start + s)
    (e2 : Iter.pos bs e.finish = Iter.pos bs d.finish + s)
    (hf : ∀ p, Iter.pos bs d.start ≤ p → p < Iter.pos bs d.finish → flat bs e (p + s) = flat bs d p) :
    content bs e = content bs d := by
  rw [content_eq_flat bs hbs e hs2, content_eq_flat bs hbs d hs, e1, e2]
  have el : Iter.pos bs d.finish + s - (Iter.pos bs d.start + s)
      = Iter.pos bs d.finish - Iter.pos bs d.start := by ring
  rw [el]
  apply List.map_congr_left
  intro k hk
  rw [List.mem_range] at hk
  have := hf (Iter.pos bs d.start + (k : Int)) (by omega) (by omega)
  rw [← this]
  congr 1
  ring

theorem content_snoc {α : Type} (bs : Nat) (hbs : 0 < bs) (d e : Deque α) (c : Option α)
    (hs : Iter.ok bs d.map d.start) (hs2 : Iter.ok bs e.map e.start)
    (e1 : Iter.pos bs e.start = Iter.pos bs d.start)
    (e2 : Iter.pos bs e.finish = Iter.pos bs d.finish + 1)
    (hord : Iter.pos bs d.start ≤ Iter.pos bs d.finish)
    (hf : ∀ p, Iter.pos bs d.start ≤ p → p < Iter.pos bs d.finish → flat bs e p = flat bs d p)
    (hc : flat bs e (Iter.pos bs d.finish) = c) :
    content bs e = content bs d ++ [c] := by
  rw [content_eq_flat bs hbs e hs2, content_eq_flat bs hbs d hs, e1, e2]
  have el : (Iter.pos bs d.finish + 1 - Iter.pos bs d.start).toNat
      = (Iter.pos bs d.finish - Iter.pos bs d.start).toNat + 1 := by omega
  rw [el, List.range_succ, List.map_append, List.map_singleton]
  congr 1
  · apply List.map_congr_left
    intro k hk
    rw [List.mem_range] at hk
    exact hf _ (by omega) (by omega)
  · have ep : Iter.pos bs d.start + (((Iter.pos bs d.finish - Iter.pos bs d.start).toNat : Nat) : Int)
        = Iter.pos bs d.finish := by omega
    rw [ep, hc]

theorem content_cons {α : Type} (bs : Nat) (hbs : 0 < bs) (d e : Deque α) (c : Option α)
    (hs : Iter.ok bs d.map d.start) (hs2 : Iter.ok bs e.map e.start)
    (e1 : Iter.pos bs e.start = Iter.pos bs d.start - 1)
    (e2 : Iter.pos bs e.finish = Iter.pos bs d.finish)
    (hord : Iter.pos bs d.start ≤ Iter.pos bs d.finish)
    (hf : ∀ p, Iter.pos bs d.start ≤ p → p < Iter.pos bs d.finish → flat bs e p = flat bs d p)
    (hc : flat bs e (Iter.pos bs d.start - 1) = c) :
    content bs e = c :: content bs d := by
  rw [content_eq_flat bs hbs e hs2, content_eq_flat bs hbs d hs, e1, e2]
  have el : (Iter.pos bs d.finish - (Iter.pos bs d.start - 1)).toNat
      = (Iter.pos bs d.finish - Iter.pos bs d.start).toNat + 1 := by omega
  rw [el, List.range_succ_eq_map, List.map_cons, List.map_map]
  congr 1
  · simp only [Nat.cast_zero, add_zero]
    exact hc
  · apply List.map_congr_left
    intro k hk
    rw [List.mem_range] at hk
    simp only [Function.comp, Nat.cast_succ]
    have := hf (Iter.pos bs d.start + (k : Int)) (by omega) (by omega)
    rw [← this]
    congr 1
    ring

theorem copy_map_spec (n : Nat) (m : Int → Option Nat) (first result : Int) (h : result ≤ first)
    (i : Int) :
    copy_map n m first result i
      = if result ≤ i ∧ i < result + n then m (i - result + first) else m i := by
  induction n generalizing m first result with
  | zero =>
    have : ¬ (result ≤ i ∧ i < result + ((0 : Nat) : Int)) := by omega
    rw [if_neg this]
    rfl
  | succ n ih =>
    rw [copy_map, ih _ _ _ (by omega)]
    by_cases h1 : result + 1 ≤ i ∧ i < result + 1 + n
    · rw [if_pos h1, if_pos (by push_cast; omega), upd_ne _ _ _ _ (by omega)]
      congr 1
      ring
    · rw [if_neg h1]
      by_cases h2 : i = result
      · subst h2
        rw [upd_same, if_pos (by push_cast; omega)]
        congr 1
        ring
      · rw [upd_ne _ _ _ _ h2, if_neg (by push_cast; omega)]

theorem copy_backward_map_spec (n : Nat) (m : Int → Option Nat) (last result : Int)
    (h : last ≤ result) (i : Int) :
    copy_backward_map n m last result i
      = if result - n ≤ i ∧ i < result then m (i - result + last) else m i := by
  induction n generalizing m last result with
  | zero =>
    have : ¬ (result - ((0 : Nat) : Int) ≤ i ∧ i < result) := by omega
    rw [if_neg this]
    rfl
  | succ n ih =>
    rw [copy_backward_map, ih _ _ _ (by omega)]
    by_cases h1 : result - 1 - n ≤ i ∧ i < result - 1
    · rw [if_pos h1, if_pos (by push_cast; omega), upd_ne _ _ _ _ (by omega)]
      congr 1
      ring
    · rw [if_neg h1]
      by_cases h2 : i = result - 1
      · subst h2
        rw [upd_same, if_pos (by push_cast; omega)]
        congr 1
        ring
      · rw [upd_ne _ _ _ _ h2, if_neg (by push_cast; omega)]

theorem copy_map_into_spec (src : Int → Option Nat) (n : Nat) (first : Int) (dst : Int → Option Nat)
    (result : Int) (i : Int) :
    copy_map_into src n first dst result i
      = if result ≤ i ∧ i < result + n then src (i - result + first) else dst i := by
  induction n generalizing dst first result with
  | zero =>
    have : ¬ (result ≤ i ∧ i < result + ((0 : Nat) : Int)) := by omega
    rw [if_neg this]
    rfl
  | succ n ih =>
    rw [copy_map_into, ih]
    by_cases h1 : result + 1 ≤ i ∧ i < result + 1 + n
    · rw [if_pos h1, if_pos (by push_cast; omega)]
      congr 1
      ring
    · rw [if_neg h1]
      by_cases h2 : i = result
      · subst h2
        rw [upd_same, if_pos (by push_cast; omega)]
        congr 1
        ring
      · rw [upd_ne _ _ _ _ h2, if_neg (by push_cast; omega)]

theorem shifted_refl {α : Type} (bs : Nat) (d : Deque α) (hw : WF bs d) : Shifted 0 d d := by
  refine ⟨Eq.refl _, Eq.refl _, by omega, Eq.refl _, hw.start_ok.1, by omega, Eq.refl _,
    hw.finish_ok.1, ?_⟩
  intro i _ _
  rw [add_zero]

theorem WF.of_shifted {α : Type} {bs : Nat} {d e : Deque α} {δ : Int} (hw : WF bs d)
    (h : Shifted δ d e) (h0 : 0 ≤ e.start.node) (h1 : e.finish.node < (e.map_size : Int)) :
    WF bs e := by
  obtain ⟨a1, a2, a3, a4, a5, a6, a7, a8, a9⟩ := h
  have hb : (0 : Int) < bs := by exact_mod_cast hw.bs_pos
  obtain ⟨_, s0, s1⟩ := hw.start_ok
  obtain ⟨_, f0, f1⟩ := hw.finish_ok
  have hord := hw.ordered
  constructor
  · exact hw.bs_pos
  · exact h0
  · exact h1
  · exact ⟨a5, by rw [a4]; exact s0, by rw [a4]; exact s1⟩
  · exact ⟨a8, by rw [a7]; exact f0, by rw [a7]; exact f1⟩
  · unfold Iter.pos at hord ⊢
    rw [a3, a4, a6, a7]
    linarith
  · intro i h1 h2
    obtain ⟨k, hk, hks⟩ := hw.live (i - δ) (by omega) (by omega)
    have := a9 (i - δ) (by omega) (by omega)
    rw [sub_add_cancel] at this
    exact ⟨k, by rw [this]; exact hk, by rw [a1]; exact hks⟩
  · intro i j k h1 h2 h3 h4 h5 h6
    have e1 := a9 (i - δ) (by omega) (by omega)
    have e2 := a9 (j - δ) (by omega) (by omega)
    rw [sub_add_cancel] at e1 e2
    rw [e1] at h5
    rw [e2] at h6
    have := hw.inj (i - δ) (j - δ) k (by omega) (by omega) (by omega) (by omega) h5 h6
    omega
  · intro k hk
    rw [a1]
    rw [a2] at hk
    exact hw.fresh k hk
  · intro k hk
    rw [a1] at hk
    obtain ⟨i, h1, h2, h3⟩ := hw.owned k hk
    exact ⟨i + δ, by omega, by omega, by rw [a9 i h1 h2]; exact h3⟩

theorem flat_of_shifted {α : Type} {bs : Nat} {d e : Deque α} {δ : Int} (hbs : 0 < bs)
    (h : Shifted δ d e) (p : Int) (hp : InR bs d p) :
    flat bs e (p + δ * (bs : Int)) = flat bs d p := by
  obtain ⟨a1, a2, a3, a4, a5, a6, a7, a8, a9⟩ := h
  have hb : (0 : Int) < bs := by exact_mod_cast hbs
  unfold flat
  rw [Int.add_mul_ediv_right _ _ (ne_of_gt hb), Int.add_mul_emod_self, a9 _ hp.1 hp.2, a1]

theorem content_of_shifted {α : Type} {bs : Nat} {d e : Deque α} {δ : Int} (hw : WF bs d)
    (h : Shifted δ d e) : content bs e = content bs d := by
  have h2 := h
  obtain ⟨a1, a2, a3, a4, a5, a6, a7, a8, a9⟩ := h
  obtain ⟨_, s0, s1⟩ := hw.start_ok
  apply content_shift bs hw.bs_pos d e (δ * (bs : Int)) hw.start_ok
  · exact ⟨a5, by rw [a4]; exact s0, by rw [a4]; exact s1⟩
  · unfold Iter.pos
    rw [a3, a4]
    ring
  · unfold Iter.pos
    rw [a6, a7]
    ring
  · intro p h1 h2'
    exact flat_of_shifted hw.bs_pos h2 p (inR_of_between bs d hw p h1 (le_of_lt h2'))

theorem shifted_of_map {α : Type} (bs : Nat) (d : Deque α) (hw : WF bs d) (m : Int → Option Nat)
    (ns : Int) (ms : Nat)
    (hm : ∀ j, ns ≤ j → j < ns + (d.finish.node - d.start.node + 1) →
      m j = d.map (j - ns + d.start.node)) :
    Shifted (ns - d.start.node) d
      { d with map := m, map_size := ms, start := Iter.set_node m d.start ns,
               finish := Iter.set_node m d.finish (ns + (d.finish.node - d.start.node + 1) - 1) } := by
  have hle : d.start.node ≤ d.finish.node := by
    have hb : (0 : Int) < bs := by exact_mod_cast hw.bs_pos
    obtain ⟨_, s0, s1⟩ := hw.start_ok
    obtain ⟨_, f0, f1⟩ := hw.finish_ok
    have hord := hw.ordered
    unfold Iter.pos at hord
    by_contra hlt
    push_neg at hlt
    have : (d.finish.node + 1) * (bs : Int) ≤ d.start.node * bs :=
      mul_le_mul_of_nonneg_right (by omega) (le_of_lt hb)
    linarith
  refine ⟨Eq.refl _, Eq.refl _, ?_, Eq.refl _, Eq.refl _, ?_, Eq.refl _, Eq.refl _, ?_⟩
  · simp only [Iter.set_node]
    ring
  · simp only [Iter.set_node]
    ring
  · intro i h1 h2
    simp only []
    rw [hm _ (by omega) (by omega)]
    congr 1
    ring

theorem WF.node_le {α : Type} {bs : Nat} {d : Deque α} (hw : WF bs d) :
    d.start.node ≤ d.finish.node := by
  have hb : (0 : Int) < bs := by exact_mod_cast hw.bs_pos
  obtain ⟨_, s0, s1⟩ := hw.start_ok
  obtain ⟨_, f0, f1⟩ := hw.finish_ok
  have hord := hw.ordered
  unfold Iter.pos at hord
  by_contra hlt
  push_neg at hlt
  have : (d.finish.node + 1) * (bs : Int) ≤ d.start.node * bs :=
    mul_le_mul_of_nonneg_right (by omega) (le_of_lt hb)
  linarith

theorem reallocate_map_shifted {α : Type} (bs : Nat) (d : Deque α) (hw : WF bs d) (k : Nat)
    (front : Bool) :
    ∃ δ, Shifted δ d (reallocate_map d k front) ∧
      0 ≤ (reallocate_map d k front).start.node ∧
      (reallocate_map d k front).finish.node < ((reallocate_map d k front).map_size : Int) ∧
      (front = true → (k : Int) ≤ (reallocate_map d k front).start.node) ∧
      (front = false →
        (reallocate_map d k front).finish.node + k < ((reallocate_map d k front).map_size : Int)) := by
  have hle := hw.node_le
  have h0 := hw.start_lo
  have h1 := hw.finish_hi
  unfold reallocate_map
  dsimp only
  by_cases hc : (d.map_size : Int) > 2 * (d.finish.node - d.start.node + 1 + (k : Int))
  · rw [if_pos hc]
    have hm : ∀ j, ((d.map_size : Int) - (d.finish.node - d.start.node + 1 + k)) / 2
          + (if front = true then (k : Int) else 0) ≤ j →
        j < ((d.map_size : Int) - (d.finish.node - d.start.node + 1 + k)) / 2
          + (if front = true then (k : Int) else 0) + (d.finish.node - d.start.node + 1) →
        (if ((d.map_size : Int) - (d.finish.node - d.start.node + 1 + k)) / 2
            + (if front = true then (k : Int) else 0) < d.start.node then
          copy_map (d.finish.node - d.start.node + 1).toNat d.map d.start.node
            (((d.map_size : Int) - (d.finish.node - d.start.node + 1 + k)) / 2
              + (if front = true then (k : Int) else 0))
        else
          copy_backward_map (d.finish.node - d.start.node + 1).toNat d.map (d.finish.node + 1)
            (((d.map_size : Int) - (d.finish.node - d.start.node + 1 + k)) / 2
              + (if front = true then (k : Int) else 0) + (d.finish.node - d.start.node + 1))) j
          = d.map (j - (((d.map_size : Int) - (d.finish.node - d.start.node + 1 + k)) / 2
              + (if front = true then (k : Int) else 0)) + d.start.node) := by
      intro j hj1 hj2
      by_cases hd : ((d.map_size : Int) - (d.finish.node - d.start.node + 1 + k)) / 2
            + (if front = true then (k : Int) else 0) < d.start.node
      · rw [if_pos hd, copy_map_spec _ _ _ _ (le_of_lt hd), if_pos (by omega)]
      · rw [if_neg hd, copy_backward_map_spec _ _ _ _ (by omega), if_pos (by omega)]
        congr 1
        ring
    refine ⟨_, shifted_of_map bs d hw _ _ d.map_size hm, ?_, ?_, ?_, ?_⟩
    · simp only [Iter.set_node]
      split <;> omega
    · simp only [Iter.set_node]
      split <;> omega
    · intro hf
      simp only [Iter.set_node, hf, if_true]
      omega
    · intro hf
      simp only [Iter.set_node, hf]
      simp only [Bool.false_eq_true, if_false]
      omega
  · rw [if_neg hc]
    have hmax1 : d.map_size ≤ max d.map_size k := le_max_left _ _
    have hmax2 : k ≤ max d.map_size k := le_max_right _ _
    have hm : ∀ j, (((d.map_size + max d.map_size k + 2 : Nat) : Int)
            - (d.finish.node - d.start.node + 1 + k)) / 2
          + (if front = true then (k : Int) else 0) ≤ j →
        j < (((d.map_size + max d.map_size k + 2 : Nat) : Int)
            - (d.finish.node - d.start.node + 1 + k)) / 2
          + (if front = true then (k : Int) else 0) + (d.finish.node - d.start.node + 1) →
        copy_map_into d.map (d.finish.node - d.start.node + 1).toNat d.start.node (fun _ => none)
            ((((d.map_size + max d.map_size k + 2 : Nat) : Int)
              - (d.finish.node - d.start.node + 1 + k)) / 2
              + (if front = true then (k : Int) else 0)) j
          = d.map (j - ((((d.map_size + max d.map_size k + 2 : Nat) : Int)
              - (d.finish.node - d.start.node + 1 + k)) / 2
              + (if front = true then (k : Int) else 0)) + d.start.node) := by
      intro j hj1 hj2
      rw [copy_map_into_spec, if_pos (by omega)]
    refine ⟨_, shifted_of_map bs d hw _ _ (d.map_size + max d.map_size k + 2) hm, ?_, ?_, ?_, ?_⟩
    · simp only [Iter.set_node]
      split <;> omega
    · simp only [Iter.set_node]
      split <;> push_cast <;> omega
    · intro hf
      simp only [Iter.set_node, hf, if_true]
      omega
    · intro hf
      simp only [Iter.set_node, hf]
      simp only [Bool.false_eq_true, if_false]
      push_cast
      omega

theorem reverse_map_at_back_spec {α : Type} (bs : Nat) (d : Deque α) (hw : WF bs d) (k : Nat) :
    ∃ δ, Shifted δ d (reverse_map_at_back d k) ∧ WF bs (reverse_map_at_back d k) ∧
      (reverse_map_at_back d k).finish.node + k < ((reverse_map_at_back d k).map_size : Int) ∧
      ((reverse_map_at_back d k).map_size = d.map_size ∨
        (reverse_map_at_back d k).map_size = d.map_size + max d.map_size k + 2) := by
  unfold reverse_map_at_back
  by_cases hc : (k : Int) > (d.map_size : Int) - (d.finish.node + 1)
  · rw [if_pos hc]
    obtain ⟨δ, h1, h2, h3, _, h5⟩ := reallocate_map_shifted bs d hw k false
    refine ⟨δ, h1, hw.of_shifted h1 h2 h3, h5 (Eq.refl _), ?_⟩
    unfold reallocate_map
    dsimp only
    split
    · left; rfl
    · right; rfl
  · rw [if_neg hc]
    exact ⟨0, shifted_refl bs d hw, hw, by omega, Or.inl (Eq.refl _)⟩

theorem reverse_map_at_front_spec {α : Type} (bs : Nat) (d : Deque α) (hw : WF bs d) (k : Nat) :
    ∃ δ, Shifted δ d (reverse_map_at_front d k) ∧ WF bs (reverse_map_at_front d k) ∧
      (k : Int) ≤ (reverse_map_at_front d k).start.node ∧
      ((reverse_map_at_front d k).map_size = d.map_size ∨
        (reverse_map_at_front d k).map_size = d.map_size + max d.map_size k + 2) := by
  unfold reverse_map_at_front
  by_cases hc : (k : Int) > d.start.node
  · rw [if_pos hc]
    obtain ⟨δ, h1, h2, h3, h4, _⟩ := reallocate_map_shifted bs d hw k true
    refine ⟨δ, h1, hw.of_shifted h1 h2 h3, h4 (Eq.refl _), ?_⟩
    unfold reallocate_map
    dsimp only
    split
    · left; rfl
    · right; rfl
  · rw [if_neg hc]
    exact ⟨0, shifted_refl bs d hw, hw, by omega, Or.inl (Eq.refl _)⟩

theorem WF.handle_lt {α : Type} {bs : Nat} {d : Deque α} (hw : WF bs d) (h : Nat)
    (hs : (d.heap h).isSome = true) : h < d.next := by
  by_contra hc
  push_neg at hc
  rw [hw.fresh h hc] at hs
  simp at hs

theorem rd_upd_ne {α : Type} (heap : Heap α) (k h : Nat) (b : Option (Int → Option α)) (o : Int)
    (hne : h ≠ k) : rd (upd heap k b) (some h) o = rd heap (some h) o := by
  simp [rd, upd, hne]

theorem flat_store_new_node {α : Type} (bs : Nat) (d : Deque α) (hw : WF bs d) (slot : Int)
    (hslot : slot < d.start.node ∨ d.finish.node < slot) (p : Int) (hp : InR bs d p) :
    flat bs (store_new_node d slot) p = flat bs d p := by
  unfold flat store_new_node allocate_node
  dsimp only
  obtain ⟨k, hk, hks⟩ := hw.live _ hp.1 hp.2
  have hlt := hw.handle_lt k hks
  rw [upd_ne _ _ _ _ (by rcases hslot with h | h <;> [skip; skip] <;> have := hp.1 <;> have := hp.2 <;> omega), hk,
    rd_upd_ne _ _ _ _ _ (by omega)]

theorem WF.extend_back {α : Type} {bs : Nat} {d : Deque α} (hw : WF bs d)
    (hroom : d.finish.node + 1 < (d.map_size : Int)) (o : Int) (ho : 0 ≤ o ∧ o < (bs : Int)) :
    WF bs { store_new_node d (d.finish.node + 1) with
            finish := ⟨d.finish.node + 1, some d.next, o⟩ } := by
  have hb : (0 : Int) < bs := by exact_mod_cast hw.bs_pos
  have hle := hw.node_le
  obtain ⟨sf, s0, s1⟩ := hw.start_ok
  obtain ⟨ff, f0, f1⟩ := hw.finish_ok
  have hord := hw.ordered
  constructor
  · exact hw.bs_pos
  · exact hw.start_lo
  · exact hroom
  · refine ⟨?_, s0, s1⟩
    show d.start.first = upd d.map (d.finish.node + 1) (some d.next) d.start.node
    rw [upd_ne _ _ _ _ (by omega)]
    exact sf
  · refine ⟨?_, ho.1, ho.2⟩
    show some d.next = upd d.map (d.finish.node + 1) (some d.next) (d.finish.node + 1)
    rw [upd_same]
  · show Iter.pos bs d.start ≤ (d.finish.node + 1) * (bs : Int) + o
    unfold Iter.pos at hord ⊢
    nlinarith [ho.1]
  · intro i h1 h2
    show ∃ h, upd d.map (d.finish.node + 1) (some d.next) i = some h ∧
      (upd d.heap d.next (some (fun _ => none)) h).isSome = true
    have h2 : i ≤ d.finish.node + 1 := h2
    have h1 : d.start.node ≤ i := h1
    by_cases hi : i = d.finish.node + 1
    · subst hi
      exact ⟨d.next, upd_same _ _ _, by rw [upd_same]; rfl⟩
    · obtain ⟨k, hk, hks⟩ := hw.live i h1 (by omega)
      have := hw.handle_lt k hks
      exact ⟨k, by rw [upd_ne _ _ _ _ hi]; exact hk, by rw [upd_ne _ _ _ _ (by omega)]; exact hks⟩
  · intro i j k h1 h2 h3 h4 h5 h6
    have h1 : d.start.node ≤ i := h1
    have h2 : i ≤ d.finish.node + 1 := h2
    have h3 : d.start.node ≤ j := h3
    have h4 : j ≤ d.finish.node + 1 := h4
    have h5 : upd d.map (d.finish.node + 1) (some d.next) i = some k := h5
    have h6 : upd d.map (d.finish.node + 1) (some d.next) j = some k := h6
    by_cases hi : i = d.finish.node + 1
    · by_cases hj : j = d.finish.node + 1
      · omega
      · exfalso
        rw [hi, upd_same] at h5
        rw [upd_ne _ _ _ _ hj] at h6
        obtain ⟨k2, hk, hks⟩ := hw.live j h3 (by omega)
        have := hw.handle_lt k2 hks
        rw [hk] at h6
        simp only [Option.some.injEq] at h5 h6
        omega
    · by_cases hj : j = d.finish.node + 1
      · exfalso
        rw [hj, upd_same] at h6
        rw [upd_ne _ _ _ _ hi] at h5
        obtain ⟨k2, hk, hks⟩ := hw.live i h1 (by omega)
        have := hw.handle_lt k2 hks
        rw [hk] at h5
        simp only [Option.some.injEq] at h5 h6
        omega
      · rw [upd_ne _ _ _ _ hi] at h5
        rw [upd_ne _ _ _ _ hj] at h6
        exact hw.inj i j k h1 (by omega) h3 (by omega) h5 h6
  · intro k hk
    have hk : d.next + 1 ≤ k := hk
    show upd d.heap d.next (some (fun _ => none)) k = none
    rw [upd_ne _ _ _ _ (by omega)]
    exact hw.fresh k (by omega)
  · intro k hk
    have hk : (upd d.heap d.next (some (fun _ => none)) k).isSome = true := hk
    show ∃ i, d.start.node ≤ i ∧ i ≤ d.finish.node + 1 ∧
      upd d.map (d.finish.node + 1) (some d.next) i = some k
    by_cases hkn : k = d.next
    · subst hkn
      exact ⟨d.finish.node + 1, by omega, le_refl _, upd_same _ _ _⟩
    · rw [upd_ne _ _ _ _ hkn] at hk
      obtain ⟨i, h1, h2, h3⟩ := hw.owned k hk
      exact ⟨i, h1, by omega, by rw [upd_ne _ _ _ _ (by omega)]; exact h3⟩

theorem WF.extend_front {α : Type} {bs : Nat} {d : Deque α} (hw : WF bs d)
    (hroom : 1 ≤ d.start.node) (o : Int) (ho : 0 ≤ o ∧ o < (bs : Int)) :
    WF bs { store_new_node d (d.start.node - 1) with
            start := ⟨d.start.node - 1, some d.next, o⟩ } := by
  have hb : (0 : Int) < bs := by exact_mod_cast hw.bs_pos
  have hle := hw.node_le
  obtain ⟨sf, s0, s1⟩ := hw.start_ok
  obtain ⟨ff, f0, f1⟩ := hw.finish_ok
  have hord := hw.ordered
  constructor
  · exact hw.bs_pos
  · show 0 ≤ d.start.node - 1
    omega
  · exact hw.finish_hi
  · refine ⟨?_, ho.1, ho.2⟩
    show some d.next = upd d.map (d.start.node - 1) (some d.next) (d.start.node - 1)
    rw [upd_same]
  · refine ⟨?_, f0, f1⟩
    show d.finish.first = upd d.map (d.start.node - 1) (some d.next) d.finish.node
    rw [upd_ne _ _ _ _ (by omega)]
    exact ff
  · show (d.start.node - 1) * (bs : Int) + o ≤ Iter.pos bs d.finish
    unfold Iter.pos at hord ⊢
    nlinarith [ho.2]
  · intro i h1 h2
    show ∃ h, upd d.map (d.start.node - 1) (some d.next) i = some h ∧
      (upd d.heap d.next (some (fun _ => none)) h).isSome = true
    have h1 : d.start.node - 1 ≤ i := h1
    have h2 : i ≤ d.finish.node := h2
    by_cases hi : i = d.start.node - 1
    · subst hi
      exact ⟨d.next, upd_same _ _ _, by rw [upd_same]; rfl⟩
    · obtain ⟨k, hk, hks⟩ := hw.live i (by omega) h2
      have := hw.handle_lt k hks
      exact ⟨k, by rw [upd_ne _ _ _ _ hi]; exact hk, by rw [upd_ne _ _ _ _ (by omega)]; exact hks⟩
  · intro i j k h1 h2 h3 h4 h5 h6
    have h1 : d.start.node - 1 ≤ i := h1
    have h2 : i ≤ d.finish.node := h2
    have h3 : d.start.node - 1 ≤ j := h3
    have h4 : j ≤ d.finish.node := h4
    have h5 : upd d.map (d.start.node - 1) (some d.next) i = some k := h5
    have h6 : upd d.map (d.start.node - 1) (some d.next) j = some k := h6
    by_cases hi : i = d.start.node - 1
    · by_cases hj : j = d.start.node - 1
      · omega
      · exfalso
        rw [hi, upd_same] at h5
        rw [upd_ne _ _ _ _ hj] at h6
        obtain ⟨k2, hk, hks⟩ := hw.live j (by omega) h4
        have := hw.handle_lt k2 hks
        rw [hk] at h6
        simp only [Option.some.injEq] at h5 h6
        omega
    · by_cases hj : j = d.start.node - 1
      · exfalso
        rw [hj, upd_same] at h6
        rw [upd_ne _ _ _ _ hi] at h5
        obtain ⟨k2, hk, hks⟩ := hw.live i (by omega) h2
        have := hw.handle_lt k2 hks
        rw [hk] at h5
        simp only [Option.some.injEq] at h5 h6
        omega
      · rw [upd_ne _ _ _ _ hi] at h5
        rw [upd_ne _ _ _ _ hj] at h6
        exact hw.inj i j k (by omega) h2 (by omega) h4 h5 h6
  · intro k hk
    have hk : d.next + 1 ≤ k := hk
    show upd d.heap d.next (some (fun _ => none)) k = none
    rw [upd_ne _ _ _ _ (by omega)]
    exact hw.fresh k (by omega)
  · intro k hk
    have hk : (upd d.heap d.next (some (fun _ => none)) k).isSome = true := hk
    show ∃ i, d.start.node - 1 ≤ i ∧ i ≤ d.finish.node ∧
      upd d.map (d.start.node - 1) (some d.next) i = some k
    by_cases hkn : k = d.next
    · subst hkn
      exact ⟨d.start.node - 1, le_refl _, by omega, upd_same _ _ _⟩
    · rw [upd_ne _ _ _ _ hkn] at hk
      obtain ⟨i, h1, h2, h3⟩ := hw.owned k hk
      exact ⟨i, by omega, h2, by rw [upd_ne _ _ _ _ (by omega)]; exact h3⟩

theorem flat_assign_at {α : Type} (bs : Nat) (d : Deque α) (hc : Core bs d) (it : Iter)
    (hok : Iter.ok bs d.map it) (h1 : d.start.node ≤ it.node) (h2 : it.node ≤ d.finish.node)
    (c : Option α) (p : Int) (hp : InR bs d p) :
    flat bs (assign d it.first it.off c) p = if p = Iter.pos bs it then c else flat bs d p := by
  have hb : (0 : Int) < bs := by exact_mod_cast hc.bs_pos
  obtain ⟨e1, e2, e3⟩ := hok
  have hq := ediv_emod_of_parts bs hb it.node it.off e2 e3
  apply flat_wr bs d (assign d it.first it.off c) hc (Iter.pos bs it) p c _ hp (Eq.refl _)
  · unfold Iter.pos
    rw [hq.1, hq.2, ← e1]
    rfl
  · unfold InR Iter.pos
    rw [hq.1]
    exact ⟨h1, h2⟩

theorem WF.set_finish_off {α : Type} {bs : Nat} {d : Deque α} (hw : WF bs d) (o : Int)
    (ho : 0 ≤ o ∧ o < (bs : Int))
    (hord : Iter.pos bs d.start ≤ d.finish.node * (bs : Int) + o) :
    WF bs { d with finish := { d.finish with off := o } } :=
  ⟨hw.bs_pos, hw.start_lo, hw.finish_hi, hw.start_ok, ⟨hw.finish_ok.1, ho.1, ho.2⟩, hord,
    hw.live, hw.inj, hw.fresh, hw.owned⟩

theorem WF.set_start_off {α : Type} {bs : Nat} {d : Deque α} (hw : WF bs d) (o : Int)
    (ho : 0 ≤ o ∧ o < (bs : Int))
    (hord : d.start.node * (bs : Int) + o ≤ Iter.pos bs d.finish) :
    WF bs { d with start := { d.start with off := o } } :=
  ⟨hw.bs_pos, hw.start_lo, hw.finish_hi, ⟨hw.start_ok.1, ho.1, ho.2⟩, hw.finish_ok, hord,
    hw.live, hw.inj, hw.fresh, hw.owned⟩

theorem WF.inR_start {α : Type} {bs : Nat} {d : Deque α} (hw : WF bs d) :
    InR bs d (Iter.pos bs d.start) :=
  inR_of_between bs d hw _ (le_refl _) hw.ordered

theorem WF.inR_finish {α : Type} {bs : Nat} {d : Deque α} (hw : WF bs d) :
    InR bs d (Iter.pos bs d.finish) :=
  inR_of_between bs d hw _ hw.ordered (le_refl _)

theorem push_back_aux_eq {α : Type} (d : Deque α) (v : α) :
    push_back_aux d v
      = construct
          { store_new_node (reverse_map_at_back d 1) ((reverse_map_at_back d 1).finish.node + 1) with
            finish := ⟨(reverse_map_at_back d 1).finish.node + 1,
              some (reverse_map_at_back d 1).next, 0⟩ }
          (reverse_map_at_back d 1).finish.first (reverse_map_at_back d 1).finish.off v := by
  simp only [push_back_aux, push_back_aux_try, try_construct, Bool.false_eq_true, if_false,
    construct, store_new_node, allocate_node, Iter.set_node, upd_same]

theorem push_front_aux_eq {α : Type} (bs : Nat) (d : Deque α) (v : α) :
    push_front_aux bs d v
      = construct
          { store_new_node (reverse_map_at_front d 1) ((reverse_map_at_front d 1).start.node - 1) with
            start := ⟨(reverse_map_at_front d 1).start.node - 1,
              some (reverse_map_at_front d 1).next, (bs : Int) - 1⟩ }
          (some (reverse_map_at_front d 1).next) ((bs : Int) - 1) v := by
  simp only [push_front_aux, push_front_aux_try, try_construct, Bool.false_eq_true, if_false,
    construct, store_new_node, allocate_node, Iter.set_node, upd_same]

theorem pos_diff_of_shifted {α : Type} {bs : Nat} {d e : Deque α} {δ : Int} (h : Shifted δ d e) :
    Iter.pos bs e.start = Iter.pos bs d.start + δ * (bs : Int) ∧
    Iter.pos bs e.finish = Iter.pos bs d.finish + δ * (bs : Int) := by
  obtain ⟨a1, a2, a3, a4, a5, a6, a7, a8, a9⟩ := h
  unfold Iter.pos
  rw [a3, a4, a6, a7]
  constructor <;> ring

theorem push_back_spec {α : Type} (bs : Nat) (d : Deque α) (hw : WF bs d) (v : α) :
    WF bs (push_back bs d v) ∧ content bs (push_back bs d v) = content bs d ++ [some v] ∧
      Iter.diff bs (push_back bs d v).finish (push_back bs d v).start
        = Iter.diff bs d.finish d.start + 1 := by
  have hb : (0 : Int) < bs := by exact_mod_cast hw.bs_pos
  obtain ⟨sf, s0, s1⟩ := hw.start_ok
  obtain ⟨ff, f0, f1⟩ := hw.finish_ok
  have hord := hw.ordered
  have hle := hw.node_le
  unfold push_back
  by_cases hc : d.finish.off ≠ (bs : Int) - 1
  · rw [if_pos hc]
    dsimp only
    have hw1 : WF bs (construct d d.finish.first d.finish.off v) :=
      hw.of_sameShape (SameShape.construct _ _ _ _)
    have hw2 := hw1.set_finish_off (d.finish.off + 1) ⟨by omega, by omega⟩
      (by
        show Iter.pos bs d.start ≤ d.finish.node * (bs : Int) + (d.finish.off + 1)
        unfold Iter.pos at hord ⊢
        linarith)
    refine ⟨hw2, ?_, ?_⟩
    · apply content_snoc bs hw.bs_pos d _ (some v) hw.start_ok hw2.start_ok (Eq.refl _)
      · show d.finish.node * (bs : Int) + (d.finish.off + 1) = Iter.pos bs d.finish + 1
        unfold Iter.pos
        ring
      · exact hord
      · intro p h1 h2
        have := flat_assign_at bs d hw.core d.finish hw.finish_ok hle (le_refl _) (some v) p
          (inR_of_between bs d hw p h1 (le_of_lt h2))
        rw [if_neg (by omega)] at this
        exact this
      · have := flat_assign_at bs d hw.core d.finish hw.finish_ok hle (le_refl _) (some v) _
          hw.inR_finish
        rw [if_pos (Eq.refl _)] at this
        exact this
    · rw [Iter.diff_eq_pos, Iter.diff_eq_pos]
      show d.finish.node * (bs : Int) + (d.finish.off + 1) - Iter.pos bs d.start
        = Iter.pos bs d.finish - Iter.pos bs d.start + 1
      unfold Iter.pos
      ring
  · rw [if_neg hc, push_back_aux_eq]
    push_neg at hc
    obtain ⟨δ, hsh, hw1, hroom, _⟩ := reverse_map_at_back_spec bs d hw 1
    generalize reverse_map_at_back d 1 = d1 at hsh hw1 hroom ⊢
    have hp := @pos_diff_of_shifted α bs d d1 δ hsh
    have hoff : d1.finish.off = (bs : Int) - 1 := by rw [hsh.2.2.2.2.2.2.1, hc]
    have hw3 := hw1.extend_back (by push_cast at hroom; omega) 0 ⟨le_refl _, hb⟩
    have hle1 := hw1.node_le
    have hok3 : Iter.ok bs (store_new_node d1 (d1.finish.node + 1)).map d1.finish := by
      refine ⟨?_, hw1.finish_ok.2.1, hw1.finish_ok.2.2⟩
      show d1.finish.first = upd d1.map (d1.finish.node + 1) (some d1.next) d1.finish.node
      rw [upd_ne _ _ _ _ (by omega)]
      exact hw1.finish_ok.1
    have hfl : ∀ p, InR bs d1 p →
        flat bs (construct
          { store_new_node d1 (d1.finish.node + 1) with
            finish := ⟨d1.finish.node + 1, some d1.next, 0⟩ } d1.finish.first d1.finish.off v) p
          = if p = Iter.pos bs d1.finish then some v else flat bs d1 p := by
      intro p hp
      have := flat_assign_at bs _ hw3.core d1.finish hok3 hle1
        (by show d1.finish.node ≤ d1.finish.node + 1; omega) (some v) p
        ⟨hp.1, by show p / (bs : Int) ≤ d1.finish.node + 1; have := hp.2; omega⟩
      rw [show construct _ d1.finish.first d1.finish.off v
        = assign _ d1.finish.first d1.finish.off (some v) from rfl, this]
      congr 1
      exact flat_store_new_node bs d1 hw1 _ (Or.inr (by omega)) p hp
    have hw4 := hw3.of_sameShape (SameShape.construct _ d1.finish.first d1.finish.off v)
    have hposf : Iter.pos bs (construct
          { store_new_node d1 (d1.finish.node + 1) with
            finish := ⟨d1.finish.node + 1, some d1.next, 0⟩ } d1.finish.first d1.finish.off v).finish
        = Iter.pos bs d1.finish + 1 := by
      show (d1.finish.node + 1) * (bs : Int) + 0 = Iter.pos bs d1.finish + 1
      unfold Iter.pos
      rw [hoff]
      ring
    refine ⟨hw4, ?_, ?_⟩
    · rw [← content_of_shifted hw hsh]
      apply content_snoc bs hw.bs_pos d1 _ (some v) hw1.start_ok hw4.start_ok (Eq.refl _) hposf
        hw1.ordered
      · intro p h1 h2
        rw [hfl p (inR_of_between bs d1 hw1 p h1 (le_of_lt h2)), if_neg (by omega)]
      · rw [hfl _ hw1.inR_finish, if_pos (Eq.refl _)]
    · rw [Iter.diff_eq_pos, Iter.diff_eq_pos, hposf]
      show Iter.pos bs d1.finish + 1 - Iter.pos bs d1.start = _
      rw [hp.1, hp.2]
      ring

theorem push_front_spec {α : Type} (bs : Nat) (d : Deque α) (hw : WF bs d) (v : α) :
    WF bs (push_front bs d v) ∧ content bs (push_front bs d v) = some v :: content bs d ∧
      Iter.diff bs (push_front bs d v).finish (push_front bs d v).start
        = Iter.diff bs d.finish d.start + 1 := by
  have hb : (0 : Int) < bs := by exact_mod_cast hw.bs_pos
  obtain ⟨sf, s0, s1⟩ := hw.start_ok
  obtain ⟨ff, f0, f1⟩ := hw.finish_ok
  have hord := hw.ordered
  have hle := hw.node_le
  unfold push_front
  by_cases hc : d.start.off ≠ 0
  · rw [if_pos hc]
    dsimp only
    have hw1 : WF bs (construct d d.start.first (d.start.off - 1) v) :=
      hw.of_sameShape (SameShape.construct _ _ _ _)
    have hw2 := hw1.set_start_off (d.start.off - 1) ⟨by omega, by omega⟩
      (by
        show d.start.node * (bs : Int) + (d.start.off - 1) ≤ Iter.pos bs d.finish
        unfold Iter.pos at hord ⊢
        linarith)
    have hfl : ∀ p, InR bs d p →
        flat bs (construct d d.start.first (d.start.off - 1) v) p
          = if p = Iter.pos bs d.start - 1 then some v else flat bs d p := by
      intro p hp
      have := flat_assign_at bs d hw.core ⟨d.start.node, d.start.first, d.start.off - 1⟩
        ⟨sf, by show 0 ≤ d.start.off - 1; omega, by show d.start.off - 1 < (bs : Int); omega⟩
        (le_refl _) hle (some v) p hp
      rw [show construct d d.start.first (d.start.off - 1) v
        = assign d d.start.first (d.start.off - 1) (some v) from rfl, this]
      congr 2
      unfold Iter.pos
      ring
    have hin : InR bs d (Iter.pos bs d.start - 1) := by
      have := ediv_emod_of_parts bs hb d.start.node (d.start.off - 1) (by omega) (by omega)
      unfold InR Iter.pos
      rw [show d.start.node * (bs : Int) + d.start.off - 1
        = d.start.node * (bs : Int) + (d.start.off - 1) by ring, this.1]
      exact ⟨le_refl _, hle⟩
    refine ⟨hw2, ?_, ?_⟩
    · apply content_cons bs hw.bs_pos d _ (some v) hw.start_ok hw2.start_ok _ (Eq.refl _) hord
      · intro p h1 h2
        have := hfl p (inR_of_between bs d hw p h1 (le_of_lt h2))
        rw [if_neg (by omega)] at this
        exact this
      · have := hfl _ hin
        rw [if_pos (Eq.refl _)] at this
        exact this
      · show d.start.node * (bs : Int) + (d.start.off - 1) = Iter.pos bs d.start - 1
        unfold Iter.pos
        ring
    · rw [Iter.diff_eq_pos, Iter.diff_eq_pos]
      show Iter.pos bs d.finish - (d.start.node * (bs : Int) + (d.start.off - 1))
        = Iter.pos bs d.finish - Iter.pos bs d.start + 1
      unfold Iter.pos
      ring
  · rw [if_neg hc, push_front_aux_eq]
    push_neg at hc
    obtain ⟨δ, hsh, hw1, hroom, _⟩ := reverse_map_at_front_spec bs d hw 1
    generalize reverse_map_at_front d 1 = d1 at hsh hw1 hroom ⊢
    have hp := @pos_diff_of_shifted α bs d d1 δ hsh
    have hoff : d1.start.off = 0 := by rw [hsh.2.2.2.1, hc]
    have hw3 := hw1.extend_front (by push_cast at hroom; omega) ((bs : Int) - 1)
      ⟨by omega, by omega⟩
    have hle1 := hw1.node_le
    have hposs : Iter.pos bs (⟨d1.start.node - 1, some d1.next, (bs : Int) - 1⟩ : Iter)
        = Iter.pos bs d1.start - 1 := by
      unfold Iter.pos
      rw [hoff]
      show (d1.start.node - 1) * (bs : Int) + ((bs : Int) - 1) = d1.start.node * (bs : Int) + 0 - 1
      ring
    have hfl : ∀ p, InR bs d1 p ∨ p = Iter.pos bs d1.start - 1 →
        flat bs (construct
          { store_new_node d1 (d1.start.node - 1) with
            start := ⟨d1.start.node - 1, some d1.next, (bs : Int) - 1⟩ }
            (some d1.next) ((bs : Int) - 1) v) p
          = if p = Iter.pos bs d1.start - 1 then some v
            else flat bs (store_new_node d1 (d1.start.node - 1)) p := by
      intro p hp
      have hin : InR bs { store_new_node d1 (d1.start.node - 1) with
            start := ⟨d1.start.node - 1, some d1.next, (bs : Int) - 1⟩ } p := by
        rcases hp with hp | hp
        · exact ⟨by show d1.start.node - 1 ≤ p / (bs : Int); have := hp.1; omega, hp.2⟩
        · rw [hp, ← hposs]
          exact hw3.inR_start
      have := flat_assign_at bs _ hw3.core ⟨d1.start.node - 1, some d1.next, (bs : Int) - 1⟩
        hw3.start_ok (le_refl _) hw3.node_le (some v) p hin
      rw [hposs] at this
      exact this
    have hw4 := hw3.of_sameShape (SameShape.construct _ (some d1.next) ((bs : Int) - 1) v)
    refine ⟨hw4, ?_, ?_⟩
    · rw [← content_of_shifted hw hsh]
      apply content_cons bs hw.bs_pos d1 _ (some v) hw1.start_ok hw4.start_ok hposs (Eq.refl _)
        hw1.ordered
      · intro p h1 h2
        have hin := inR_of_between bs d1 hw1 p h1 (le_of_lt h2)
        rw [hfl p (Or.inl hin), if_neg (by omega)]
        exact flat_store_new_node bs d1 hw1 _ (Or.inl (by omega)) p hin
      · rw [hfl _ (Or.inr (Eq.refl _)), if_pos (Eq.refl _)]
    · rw [Iter.diff_eq_pos, Iter.diff_eq_pos]
      show Iter.pos bs d1.finish - Iter.pos bs (⟨d1.start.node - 1, some d1.next, (bs : Int) - 1⟩ : Iter)
        = _
      rw [hposs, hp.1, hp.2]
      ring

theorem alloc_nodes_spec {α : Type} (k : Nat) (d : Deque α) (cur : Int) :
    (alloc_nodes k d cur).start = d.start ∧ (alloc_nodes k d cur).finish = d.finish ∧
    (alloc_nodes k d cur).map_size = d.map_size ∧ (alloc_nodes k d cur).next = d.next + k ∧
    (∀ i, (alloc_nodes k d cur).map i
      = if cur ≤ i ∧ i < cur + k then some (d.next + (i - cur).toNat) else d.map i) ∧
    (∀ h, (alloc_nodes k d cur).heap h
      = if d.next ≤ h ∧ h < d.next + k then some (fun _ => none) else d.heap h) := by
  induction k generalizing d cur with
  | zero =>
    refine ⟨rfl, rfl, rfl, rfl, ?_, ?_⟩
    · intro i
      rw [if_neg (by push_cast; omega)]
      rfl
    · intro h
      rw [if_neg (by omega)]
      rfl
  | succ k ih =>
    obtain ⟨a1, a2, a3, a4, a5, a6⟩ := ih (store_new_node d cur) (cur + 1)
    rw [alloc_nodes]
    refine ⟨a1, a2, a3, ?_, ?_, ?_⟩
    · rw [a4]
      show d.next + 1 + k = d.next + (k + 1)
      omega
    · intro i
      rw [a5]
      show (if cur + 1 ≤ i ∧ i < cur + 1 + k then some (d.next + 1 + (i - (cur + 1)).toNat)
        else upd d.map cur (some d.next) i) = _
      by_cases h1 : cur + 1 ≤ i ∧ i < cur + 1 + k
      · rw [if_pos h1, if_pos (by push_cast; omega)]
        congr 1
        omega
      · rw [if_neg h1]
        by_cases h2 : i = cur
        · subst h2
          rw [upd_same, if_pos (by push_cast; omega)]
          congr 1
          omega
        · rw [upd_ne _ _ _ _ h2, if_neg (by push_cast; omega)]
    · intro h
      rw [a6]
      show (if d.next + 1 ≤ h ∧ h < d.next + 1 + k then some (fun _ => none)
        else upd d.heap d.next (some (fun _ => none)) h) = _
      by_cases h1 : d.next + 1 ≤ h ∧ h < d.next + 1 + k
      · rw [if_pos h1, if_pos (by omega)]
      · rw [if_neg h1]
        by_cases h2 : h = d.next
        · subst h2
          rw [upd_same, if_pos (by omega)]
        · rw [upd_ne _ _ _ _ h2, if_neg (by omega)]

theorem create_map_and_nodes_wf {α : Type} (bs : Nat) (hbs : 0 < bs) (n : Nat) :
    WF bs (create_map_and_nodes bs (Deque.init α) n) ∧
    (create_map_and_nodes bs (Deque.init α) n).start.off = 0 ∧
    (create_map_and_nodes bs (Deque.init α) n).finish.off = ((n % bs : Nat) : Int) ∧
    (create_map_and_nodes bs (Deque.init α) n).finish.node
      = (create_map_and_nodes bs (Deque.init α) n).start.node + ((n / bs : Nat) : Int) ∧
    (create_map_and_nodes bs (Deque.init α) n).start.node
      = (((max initial_map_size (n / bs + 1 + 2) - (n / bs + 1)) / 2 : Nat) : Int) ∧
    (create_map_and_nodes bs (Deque.init α) n).map_size = max initial_map_size (n / bs + 1 + 2) ∧
    (∀ h, ((create_map_and_nodes bs (Deque.init α) n).heap h).isSome = true ↔ h < n / bs + 1) := by
  have hb : (0 : Int) < bs := by exact_mod_cast hbs
  have hmod : n % bs < bs := Nat.mod_lt _ hbs
  have hms : n / bs + 1 + 2 ≤ max initial_map_size (n / bs + 1 + 2) := le_max_right _ _
  unfold create_map_and_nodes
  dsimp only
  generalize hM : max initial_map_size (n / bs + 1 + 2) = M at hms ⊢
  obtain ⟨a1, a2, a3, a4, a5, a6⟩ := alloc_nodes_spec (n / bs + 1)
    ({ Deque.init α with map := fun _ => none, map_size := M } : Deque α)
    (((M - (n / bs + 1)) / 2 : Nat) : Int)
  generalize alloc_nodes (n / bs + 1)
    ({ Deque.init α with map := fun _ => none, map_size := M } : Deque α)
    (((M - (n / bs + 1)) / 2 : Nat) : Int) = e at a1 a2 a3 a4 a5 a6 ⊢
  have a4 : e.next = n / bs + 1 := by rw [a4]; show 0 + (n / bs + 1) = _; omega
  have a3 : e.map_size = M := a3
  have a6 : ∀ h, e.heap h = if h < n / bs + 1 then some (fun _ => none) else none := by
    intro h
    rw [a6]
    show (if 0 ≤ h ∧ h < 0 + (n / bs + 1) then _ else none) = _
    by_cases hh : h < n / bs + 1
    · rw [if_pos (by omega), if_pos hh]
    · rw [if_neg (by omega), if_neg hh]
  have a5 : ∀ i, e.map i
      = if (((M - (n / bs + 1)) / 2 : Nat) : Int) ≤ i
          ∧ i < (((M - (n / bs + 1)) / 2 : Nat) : Int) + ((n / bs + 1 : Nat) : Int)
        then some ((i - (((M - (n / bs + 1)) / 2 : Nat) : Int)).toNat) else none := by
    intro i
    rw [a5]
    show (if _ then some (0 + _) else none) = _
    rw [Nat.zero_add]
  generalize hS : (M - (n / bs + 1)) / 2 = S at a5 ⊢
  have hSM : S + (n / bs + 1) < M := by omega
  have hq : (0 : Int) ≤ ((n / bs : Nat) : Int) := Int.natCast_nonneg _
  have hq1 : ((n / bs + 1 : Nat) : Int) = ((n / bs : Nat) : Int) + 1 := Nat.cast_succ _
  have hr : (0 : Int) ≤ ((n % bs : Nat) : Int) := Int.natCast_nonneg _
  refine ⟨?_, Eq.refl _, Eq.refl _, ?_, Eq.refl _, a3, ?_⟩
  · constructor
    · exact hbs
    · show (0 : Int) ≤ (S : Int)
      omega
    · show (S : Int) + ((n / bs + 1 : Nat) : Int) - 1 < (e.map_size : Int)
      rw [a3]
      omega
    · exact ⟨Eq.refl _, le_refl _, hb⟩
    · exact ⟨Eq.refl _, hr, by show ((n % bs : Nat) : Int) < (bs : Int); omega⟩
    · show (S : Int) * (bs : Int) + 0
        ≤ ((S : Int) + ((n / bs + 1 : Nat) : Int) - 1) * (bs : Int) + ((n % bs : Nat) : Int)
      rw [hq1]
      have := mul_nonneg hq (le_of_lt hb)
      nlinarith
    · intro i h1 h2
      have h1 : (S : Int) ≤ i := h1
      have h2 : i ≤ (S : Int) + ((n / bs + 1 : Nat) : Int) - 1 := h2
      refine ⟨(i - (S : Int)).toNat, ?_, ?_⟩
      · show e.map i = _
        rw [a5, if_pos (by omega)]
      · show (e.heap _).isSome = true
        rw [a6, if_pos (by omega)]
        rfl
    · intro i j k h1 h2 h3 h4 h5 h6
      have h1 : (S : Int) ≤ i := h1
      have h2 : i ≤ (S : Int) + ((n / bs + 1 : Nat) : Int) - 1 := h2
      have h3 : (S : Int) ≤ j := h3
      have h4 : j ≤ (S : Int) + ((n / bs + 1 : Nat) : Int) - 1 := h4
      have h5 : e.map i = some k := h5
      have h6 : e.map j = some k := h6
      rw [a5, if_pos (by omega)] at h5 h6
      simp only [Option.some.injEq] at h5 h6
      omega
    · intro k hk
      have hk : e.next ≤ k := hk
      show e.heap k = none
      rw [a6, if_neg (by omega)]
    · intro k hk
      have hk : (e.heap k).isSome = true := hk
      have hlt : k < n / bs + 1 := by
        by_contra hc
        rw [a6, if_neg hc] at hk
        simp at hk
      refine ⟨(S : Int) + (k : Int), ?_, ?_, ?_⟩
      · show (S : Int) ≤ (S : Int) + (k : Int)
        omega
      · show (S : Int) + (k : Int) ≤ (S : Int) + ((n / bs + 1 : Nat) : Int) - 1
        omega
      · show e.map _ = some k
        rw [a5, if_pos (by omega)]
        congr 1
        omega
  · show (S : Int) + ((n / bs + 1 : Nat) : Int) - 1 = (S : Int) + ((n / bs : Nat) : Int)
    rw [hq1]
    ring
  · intro h
    show (e.heap h).isSome = true ↔ _
    rw [a6]
    by_cases hh : h < n / bs + 1
    · rw [if_pos hh]
      simp [hh]
    · rw [if_neg hh]
      simp [hh]

theorem uninitialized_fill_eq {α : Type} (n : Nat) (d : Deque α) (p : Option Nat) (o : Int) (v : α) :
    uninitialized_fill n d p o v = assign_cells n d p o (some v) := by
  induction n generalizing d o with
  | zero => rfl
  | succ n ih => exact ih _ _

theorem destroy_ptr_eq {α : Type} (n : Nat) (d : Deque α) (p : Option Nat) (o : Int) :
    destroy_ptr n d p o = assign_cells n d p o none := by
  induction n generalizing d o with
  | zero => rfl
  | succ n ih => exact ih _ _

theorem assign_cells_spec {α : Type} (bs : Nat) (n : Nat) (d : Deque α) (hw : WF bs d) (j : Int)
    (p : Option Nat) (hp : p = d.map j) (h1 : d.start.node ≤ j) (h2 : j ≤ d.finish.node)
    (o : Int) (ho : 0 ≤ o) (hn : o + n ≤ (bs : Int)) (c : Option α) :
    SameShape d (assign_cells n d p o c) ∧
    ∀ q, InR bs d q → flat bs (assign_cells n d p o c) q
      = if j * (bs : Int) + o ≤ q ∧ q < j * (bs : Int) + o + n then c else flat bs d q := by
  induction n generalizing d o with
  | zero =>
    refine ⟨sameShape_refl _, ?_⟩
    intro q _
    rw [if_neg (by push_cast; omega)]
    rfl
  | succ n ih =>
    have hs1 : SameShape d (assign d p o c) := SameShape.assign _ _ _ _
    have hw1 := hw.of_sameShape hs1
    obtain ⟨b1, b2⟩ := ih (assign d p o c) hw1 hp h1 h2 (o + 1) (by omega) (by push_cast at hn ⊢; omega)
    rw [assign_cells]
    refine ⟨hs1.trans b1, ?_⟩
    intro q hq
    rw [b2 q hq]
    have := flat_assign_at bs d hw.core ⟨j, p, o⟩
      ⟨hp, ho, by show o < (bs : Int); push_cast at hn; omega⟩ h1 h2 c q hq
    have e1 : Iter.pos bs (⟨j, p, o⟩ : Iter) = j * (bs : Int) + o := rfl
    rw [e1] at this
    rw [this]
    by_cases hc1 : j * (bs : Int) + (o + 1) ≤ q ∧ q < j * (bs : Int) + (o + 1) + n
    · rw [if_pos hc1, if_pos (by push_cast; omega)]
    · rw [if_neg hc1]
      by_cases hc2 : q = j * (bs : Int) + o
      · rw [if_pos hc2, if_pos (by push_cast; omega)]
      · rw [if_neg hc2, if_neg (by push_cast; omega)]

theorem fill_nodes_spec {α : Type} (bs : Nat) (k : Nat) (d : Deque α) (hw : WF bs d) (cur : Int)
    (h1 : d.start.node ≤ cur) (h2 : cur + k ≤ d.finish.node + 1) (v : α) :
    SameShape d (fill_nodes bs k d cur v) ∧
    ∀ q, InR bs d q → flat bs (fill_nodes bs k d cur v) q
      = if cur * (bs : Int) ≤ q ∧ q < cur * (bs : Int) + k * (bs : Int) then some v
        else flat bs d q := by
  induction k generalizing d cur with
  | zero =>
    refine ⟨sameShape_refl _, ?_⟩
    intro q _
    rw [if_neg (by push_cast; omega)]
    rfl
  | succ k ih =>
    rw [fill_nodes, uninitialized_fill_eq]
    obtain ⟨a1, a2⟩ := assign_cells_spec bs bs d hw cur (d.map cur) (Eq.refl _) h1
      (by push_cast at h2; omega) 0 (le_refl _) (by omega) (some v)
    have hw1 := hw.of_sameShape a1
    obtain ⟨b1, b2⟩ := ih (assign_cells bs d (d.map cur) 0 (some v)) hw1 (cur + 1)
      (by rw [a1.2.1]; omega) (by rw [a1.2.2.1]; push_cast at h2; omega)
    refine ⟨a1.trans b1, ?_⟩
    intro q hq
    rw [b2 q (inR_of_sameShape a1 q hq), a2 q hq]
    have e1 : (cur + 1) * (bs : Int) = cur * (bs : Int) + bs := by ring
    have e2 : ((k + 1 : Nat) : Int) * (bs : Int) = (k : Int) * (bs : Int) + bs := by
      push_cast; ring
    rw [e1, e2]
    by_cases hc1 : cur * (bs : Int) + bs ≤ q ∧ q < cur * (bs : Int) + bs + k * (bs : Int)
    · rw [if_pos hc1, if_pos (by omega)]
    · rw [if_neg hc1]
      by_cases hc2 : cur * (bs : Int) + 0 ≤ q ∧ q < cur * (bs : Int) + 0 + bs
      · rw [if_pos hc2, if_pos (by have := mul_nonneg (Int.natCast_nonneg k) (Int.natCast_nonneg bs); omega)]
      · rw [if_neg hc2, if_neg (by omega)]

theorem fill_initialized_spec {α : Type} (bs : Nat) (hbs : 0 < bs) (n : Nat) (v : α) :
    WF bs (Deque.fill bs n v) ∧
    content bs (Deque.fill bs n v) = List.replicate n (some v) ∧
    Iter.diff bs (Deque.fill bs n v).finish (Deque.fill bs n v).start = (n : Int) ∧
    (Deque.fill bs n v).start.off = 0 ∧
    (Deque.fill bs n v).finish.off = ((n % bs : Nat) : Int) ∧
    (Deque.fill bs n v).finish.node = (Deque.fill bs n v).start.node + ((n / bs : Nat) : Int) ∧
    (∀ h, ((Deque.fill bs n v).heap h).isSome = true ↔ h < n / bs + 1) := by
  have hb : (0 : Int) < bs := by exact_mod_cast hbs
  obtain ⟨c1, c2, c3, c4, c5, c6, c7⟩ := @create_map_and_nodes_wf α bs hbs n
  unfold Deque.fill fill_initialized
  dsimp only
  generalize create_map_and_nodes bs (Deque.init α) n = d1 at c1 c2 c3 c4 c5 c6 c7 ⊢
  have hmod : n % bs < bs := Nat.mod_lt _ hbs
  have hdm : ((n / bs : Nat) : Int) * (bs : Int) + ((n % bs : Nat) : Int) = (n : Int) := by
    have := Nat.div_add_mod n bs
    have h2 : ((bs * (n / bs) + n % bs : Nat) : Int) = (n : Int) := by rw [this]
    push_cast at h2 ⊢
    linarith
  generalize n / bs = q at c4 c5 c6 c7 hdm ⊢
  generalize n % bs = r at c3 hmod hdm ⊢
  clear c5 c6
  have hk : (d1.finish.node - d1.start.node).toNat = q := by omega
  obtain ⟨a1, a2⟩ := fill_nodes_spec bs (d1.finish.node - d1.start.node).toNat d1 c1 d1.start.node
    (le_refl _) (by omega) v
  generalize fill_nodes bs (d1.finish.node - d1.start.node).toNat d1 d1.start.node v = d2 at a1 a2 ⊢
  have hw2 := c1.of_sameShape a1
  rw [uninitialized_fill_eq]
  obtain ⟨b1, b2⟩ := assign_cells_spec bs d2.finish.off.toNat d2 hw2 d2.finish.node d2.finish.first
    hw2.finish_ok.1 hw2.node_le (le_refl _) 0 (le_refl _)
    (by have := hw2.finish_ok.2.1; have := hw2.finish_ok.2.2; omega) (some v)
  generalize assign_cells d2.finish.off.toNat d2 d2.finish.first 0 (some v) = d3 at b1 b2 ⊢
  have hw3 := hw2.of_sameShape b1
  have hs := a1.trans b1
  obtain ⟨s1, s2, s3, s4, s5, s6⟩ := hs
  have hps : Iter.pos bs d1.start = d1.start.node * (bs : Int) := by
    unfold Iter.pos
    rw [c2, add_zero]
  have hpf : Iter.pos bs d1.finish = d1.start.node * (bs : Int) + (n : Int) := by
    unfold Iter.pos
    rw [c4, c3, add_mul]
    linarith
  refine ⟨hw3, ?_, ?_, by rw [s2]; exact c2, by rw [s3]; exact c3, by rw [s2, s3]; exact c4, ?_⟩
  · rw [content_eq_flat bs hbs d3 hw3.start_ok, s2, s3, hps, hpf]
    rw [List.eq_replicate_iff]
    constructor
    · rw [List.length_map, List.length_range]
      omega
    · intro c hc
      rw [List.mem_map] at hc
      obtain ⟨i, hi, rfl⟩ := hc
      rw [List.mem_range] at hi
      have hi : (i : Int) < (n : Int) := by omega
      have hin1 : InR bs d1 (d1.start.node * (bs : Int) + (i : Int)) :=
        inR_of_between bs d1 c1 _ (by rw [hps]; omega) (by rw [hpf]; omega)
      have hin2 := inR_of_sameShape a1 _ hin1
      rw [b2 _ hin2, a2 _ hin1, hk, a1.2.2.1, c4, c3]
      have e1 : (d1.start.node + (q : Int)) * (bs : Int)
          = d1.start.node * (bs : Int) + (q : Int) * (bs : Int) := by ring
      rw [e1]
      by_cases hc1 : d1.start.node * (bs : Int) + (q : Int) * (bs : Int) + 0
            ≤ d1.start.node * (bs : Int) + (i : Int)
          ∧ d1.start.node * (bs : Int) + (i : Int)
            < d1.start.node * (bs : Int) + (q : Int) * (bs : Int) + 0 + (((r : Int)).toNat : Int)
      · rw [if_pos hc1]
      · rw [if_neg hc1, if_pos]
        refine ⟨by omega, ?_⟩
        have : ((((r : Nat) : Int)).toNat : Int) = (r : Int) := by omega
        rw [this] at hc1
        omega
  · rw [Iter.diff_eq_pos, s2, s3, hps, hpf]
    ring
  · intro h
    rw [s6]
    exact c7 h

theorem Deque.new_eq_fill (α : Type) [Inhabited α] (bs : Nat) :
    Deque.new α bs = Deque.fill bs 0 (default : α) := rfl

theorem index_eq_flat {α : Type} (bs : Nat) (hbs : 0 < bs) (d : Deque α)
    (hs : Iter.ok bs d.map d.start) (n : Nat) :
    index bs d n = flat bs d (Iter.pos bs d.start + (n : Int)) := by
  unfold index
  conv_lhs => rw [Iter.eq_mk_at bs hbs d.map d.start hs]
  rw [Iter.add_mk_at bs hbs, deref_mk_at]

theorem front_eq_flat {α : Type} (bs : Nat) (hbs : 0 < bs) (d : Deque α)
    (hs : Iter.ok bs d.map d.start) : front d = flat bs d (Iter.pos bs d.start) := by
  unfold front
  conv_lhs => rw [Iter.eq_mk_at bs hbs d.map d.start hs]
  rw [deref_mk_at]

theorem back_eq_flat {α : Type} (bs : Nat) (hbs : 0 < bs) (d : Deque α)
    (hf : Iter.ok bs d.map d.finish) : back bs d = flat bs d (Iter.pos bs d.finish - 1) := by
  unfold back
  conv_lhs => rw [Iter.eq_mk_at bs hbs d.map d.finish hf]
  rw [Iter.sub_mk_at bs hbs, deref_mk_at]

theorem iterate_inc_mk_at (bs : Nat) (hbs : 0 < bs) (map : Int → Option Nat) (n : Nat) (p : Int) :
    (Iter.inc bs map)^[n] (Iter.mk_at bs map p) = Iter.mk_at bs map (p + (n : Int)) := by
  induction n generalizing p with
  | zero => simp
  | succ n ih =>
    rw [Function.iterate_succ_apply, Iter.inc_mk_at bs hbs, ih]
    congr 1
    push_cast
    ring

theorem content_length {α : Type} (bs : Nat) (hbs : 0 < bs) (d : Deque α)
    (hs : Iter.ok bs d.map d.start) :
    (content bs d).length = (Iter.pos bs d.finish - Iter.pos bs d.start).toNat := by
  rw [content_eq_flat bs hbs d hs, List.length_map, List.length_range]

theorem content_getElem? {α : Type} (bs : Nat) (hbs : 0 < bs) (d : Deque α)
    (hs : Iter.ok bs d.map d.start) (n : Nat)
    (hn : n < (Iter.pos bs d.finish - Iter.pos bs d.start).toNat) :
    (content bs d)[n]? = some (flat bs d (Iter.pos bs d.start + (n : Int))) := by
  rw [content_eq_flat bs hbs d hs, List.getElem?_map, List.getElem?_range hn]
  rfl

theorem assign_cells_sameShape {α : Type} (n : Nat) (d : Deque α) (p : Option Nat) (o : Int)
    (c : Option α) : SameShape d (assign_cells n d p o c) := by
  induction n generalizing d o with
  | zero => exact sameShape_refl _
  | succ n ih => exact (SameShape.assign d p o c).trans (ih _ _)

theorem deallocate_shape {α : Type} (d : Deque α) (p : Option Nat) :
    (deallocate d p).map = d.map ∧ (deallocate d p).start = d.start ∧
    (deallocate d p).finish = d.finish ∧ (deallocate d p).map_size = d.map_size ∧
    (deallocate d p).next = d.next ∧
    ∀ h, ((deallocate d p).heap h).isSome = true ↔ ((d.heap h).isSome = true ∧ p ≠ some h) := by
  cases p with
  | none =>
    refine ⟨rfl, rfl, rfl, rfl, rfl, ?_⟩
    intro h
    simp [deallocate]
  | some k =>
    refine ⟨rfl, rfl, rfl, rfl, rfl, ?_⟩
    intro h
    show (upd d.heap k none h).isSome = true ↔ _
    by_cases hk : h = k
    · subst hk
      rw [upd_same]
      simp
    · rw [upd_ne _ _ _ _ hk]
      constructor
      · intro hh
        exact ⟨hh, fun e => hk (Option.some.inj e).symm⟩
      · intro hh
        exact hh.1

theorem clear_nodes_shape {α : Type} (bs : Nat) (k : Nat) (d : Deque α) (cur : Int) :
    (clear_nodes bs k d cur).map = d.map ∧ (clear_nodes bs k d cur).start = d.start ∧
    (clear_nodes bs k d cur).finish = d.finish ∧ (clear_nodes bs k d cur).map_size = d.map_size ∧
    (clear_nodes bs k d cur).next = d.next ∧
    ∀ h, ((clear_nodes bs k d cur).heap h).isSome = true ↔
      ((d.heap h).isSome = true ∧ ∀ i, cur ≤ i → i < cur + k → d.map i ≠ some h) := by
  induction k generalizing d cur with
  | zero =>
    refine ⟨rfl, rfl, rfl, rfl, rfl, ?_⟩
    intro h
    constructor
    · intro hh
      exact ⟨hh, fun i h1 h2 => by push_cast at h2; omega⟩
    · intro hh
      exact hh.1
  | succ k ih =>
    rw [clear_nodes, destroy_ptr_eq]
    obtain ⟨a1, a2, a3, a4, a5, a6⟩ := assign_cells_sameShape bs d (d.map cur) 0 none
    obtain ⟨b1, b2, b3, b4, b5, b6⟩ := deallocate_shape (assign_cells bs d (d.map cur) 0 none) (d.map cur)
    obtain ⟨c1, c2, c3, c4, c5, c6⟩ := ih (deallocate (assign_cells bs d (d.map cur) 0 none) (d.map cur)) (cur + 1)
    refine ⟨by rw [c1, b1, a1], by rw [c2, b2, a2], by rw [c3, b3, a3], by rw [c4, b4, a4],
      by rw [c5, b5, a5], ?_⟩
    intro h
    rw [c6, b6, a6, b1, a1]
    constructor
    · intro ⟨⟨h1, h2⟩, h3⟩
      refine ⟨h1, ?_⟩
      intro i hi1 hi2
      by_cases hi : i = cur
      · rw [hi]; exact h2
      · exact h3 i (by omega) (by push_cast at hi2; omega)
    · intro ⟨h1, h2⟩
      exact ⟨⟨h1, h2 cur (le_refl _) (by push_cast; omega)⟩,
        fun i hi1 hi2 => h2 i (by omega) (by push_cast; omega)⟩

theorem clear_shape {α : Type} (bs : Nat) (d : Deque α) (hw : WF bs d) :
    (clear bs d).map = d.map ∧ (clear bs d).map_size = d.map_size ∧ (clear bs d).next = d.next ∧
    (clear bs d).start = d.start ∧ (clear bs d).finish = d.start ∧
    ∀ h, ((clear bs d).heap h).isSome = true ↔ d.map d.start.node = some h := by
  have hle := hw.node_le
  unfold clear
  dsimp only
  obtain ⟨c1, c2, c3, c4, c5, c6⟩ := clear_nodes_shape bs (d.finish.node - (d.start.node + 1)).toNat d
    (d.start.node + 1)
  generalize clear_nodes bs (d.finish.node - (d.start.node + 1)).toNat d (d.start.node + 1) = d1
    at c1 c2 c3 c4 c5 c6 ⊢
  by_cases hne : d1.start.node ≠ d1.finish.node
  · rw [if_pos hne, destroy_ptr_eq, destroy_ptr_eq]
    rw [c2, c3] at hne
    obtain ⟨a1, a2, a3, a4, a5, a6⟩ :=
      assign_cells_sameShape ((bs : Int) - d1.start.off).toNat d1 d1.start.first d1.start.off none
    generalize assign_cells ((bs : Int) - d1.start.off).toNat d1 d1.start.first d1.start.off none = e1
      at a1 a2 a3 a4 a5 a6 ⊢
    obtain ⟨b1, b2, b3, b4, b5, b6⟩ :=
      assign_cells_sameShape e1.finish.off.toNat e1 e1.finish.first 0 none
    generalize assign_cells e1.finish.off.toNat e1 e1.finish.first 0 none = e2
      at b1 b2 b3 b4 b5 b6 ⊢
    obtain ⟨f1, f2, f3, f4, f5, f6⟩ := deallocate_shape e2 e2.finish.first
    refine ⟨by rw [f1, b1, a1, c1], by rw [f4, b4, a4, c4], by rw [f5, b5, a5, c5],
      by rw [f2, b2, a2, c2], by show (deallocate e2 e2.finish.first).start = _; rw [f2, b2, a2, c2], ?_⟩
    intro h
    show ((deallocate e2 e2.finish.first).heap h).isSome = true ↔ _
    rw [f6, b6, a6, c6, b3, a3, c3, hw.finish_ok.1]
    constructor
    · intro ⟨⟨h1, h2⟩, h3⟩
      obtain ⟨i, hi1, hi2, hi3⟩ := hw.owned h h1
      by_cases hi : i = d.start.node
      · rw [← hi]; exact hi3
      · exfalso
        by_cases hif : i = d.finish.node
        · rw [hif] at hi3; exact h3 hi3
        · exact h2 i (by omega) (by omega) hi3
    · intro hs
      obtain ⟨k, hk, hks⟩ := hw.live d.start.node (le_refl _) hle
      rw [hk] at hs
      have hkh : k = h := Option.some.inj hs
      subst hkh
      refine ⟨⟨hks, ?_⟩, ?_⟩
      · intro i hi1 hi2 hi3
        have := hw.inj i d.start.node k (by omega) (by omega) (le_refl _) hle hi3 hk
        omega
      · intro hi3
        have := hw.inj d.finish.node d.start.node k hle (le_refl _) (le_refl _) hle hi3 hk
        omega
  · rw [if_neg hne, destroy_ptr_eq]
    rw [c2, c3] at hne
    push_neg at hne
    obtain ⟨a1, a2, a3, a4, a5, a6⟩ :=
      assign_cells_sameShape (d1.finish.off - d1.start.off).toNat d1 d1.start.first d1.start.off none
    generalize assign_cells (d1.finish.off - d1.start.off).toNat d1 d1.start.first d1.start.off none
      = e1 at a1 a2 a3 a4 a5 a6 ⊢
    refine ⟨by rw [a1, c1], by rw [a4, c4], by rw [a5, c5], by rw [a2, c2],
      by show e1.start = _; rw [a2, c2], ?_⟩
    intro h
    show (e1.heap h).isSome = true ↔ _
    rw [a6, c6]
    constructor
    · intro ⟨h1, _⟩
      obtain ⟨i, hi1, hi2, hi3⟩ := hw.owned h h1
      have : i = d.start.node := by omega
      rw [← this]; exact hi3
    · intro hs
      obtain ⟨k, hk, hks⟩ := hw.live d.start.node (le_refl _) hle
      rw [hk] at hs
      have hkh : k = h := Option.some.inj hs
      subst hkh
      exact ⟨hks, fun i hi1 hi2 => by omega⟩

theorem clear_wf {α : Type} (bs : Nat) (d : Deque α) (hw : WF bs d) : WF bs (clear bs d) := by
  obtain ⟨c1, c2, c3, c4, c5, c6⟩ := clear_shape bs d hw
  have hle := hw.node_le
  obtain ⟨k, hk, hks⟩ := hw.live d.start.node (le_refl _) hle
  constructor
  · exact hw.bs_pos
  · rw [c4]; exact hw.start_lo
  · rw [c5, c2]; have := hw.finish_hi; omega
  · rw [c4, c1]; exact hw.start_ok
  · rw [c5, c1]; exact hw.start_ok
  · rw [c4, c5]
  · intro i h1 h2
    rw [c4] at h1
    rw [c5] at h2
    have : i = d.start.node := by omega
    subst this
    exact ⟨k, by rw [c1]; exact hk, by rw [c6]; exact hk⟩
  · intro i j h h1 h2 h3 h4 _ _
    rw [c4] at h1 h3
    rw [c5] at h2 h4
    omega
  · intro h hh
    rw [c3] at hh
    cases hc : (clear bs d).heap h with
    | none => rfl
    | some b =>
      exfalso
      have h1 : ((clear bs d).heap h).isSome = true := by rw [hc]; rfl
      rw [c6, hk] at h1
      have hkh : k = h := Option.some.inj h1
      have := hw.handle_lt k hks
      omega
  · intro h hh
    rw [c6] at hh
    exact ⟨d.start.node, by rw [c4], by rw [c5], by rw [c1]; exact hh⟩

theorem flat_assign_mk_at {α : Type} (bs : Nat) (d : Deque α) (hw : WF bs d) (r : Int)
    (hr : InR bs d r) (c : Option α) (q : Int) (hq : InR bs d q) :
    flat bs (assign d (Iter.mk_at bs d.map r).first (Iter.mk_at bs d.map r).off c) q
      = if q = r then c else flat bs d q := by
  have := flat_assign_at bs d hw.core (Iter.mk_at bs d.map r) (Iter.ok_mk_at bs hw.bs_pos _ _)
    hr.1 hr.2 c q hq
  rw [Iter.pos_mk_at bs hw.bs_pos] at this
  exact this

theorem copy_loop_spec {α : Type} (bs : Nat) (n : Nat) (d : Deque α) (hw : WF bs d) (pf pr : Int)
    (hle : pr ≤ pf) (hspan : ∀ q, pr ≤ q → q < pf + n → InR bs d q) :
    SameShape d (copy_loop bs n d (Iter.mk_at bs d.map pf) (Iter.mk_at bs d.map pr)) ∧
    ∀ q, InR bs d q →
      flat bs (copy_loop bs n d (Iter.mk_at bs d.map pf) (Iter.mk_at bs d.map pr)) q
        = if pr ≤ q ∧ q < pr + n then flat bs d (q - pr + pf) else flat bs d q := by
  induction n generalizing d pf pr with
  | zero =>
    refine ⟨sameShape_refl _, ?_⟩
    intro q _
    rw [if_neg (by push_cast; omega)]
    rfl
  | succ n ih =>
    rw [copy_loop, Iter.inc_mk_at bs hw.bs_pos, Iter.inc_mk_at bs hw.bs_pos, deref_mk_at]
    have hs1 : SameShape d (assign d (Iter.mk_at bs d.map pr).first (Iter.mk_at bs d.map pr).off
        (flat bs d pf)) := SameShape.assign _ _ _ _
    have hw1 := hw.of_sameShape hs1
    have hpr : InR bs d pr := hspan pr (le_refl _) (by push_cast; omega)
    obtain ⟨b1, b2⟩ := ih (assign d (Iter.mk_at bs d.map pr).first (Iter.mk_at bs d.map pr).off
      (flat bs d pf)) hw1 (pf + 1) (pr + 1) (by omega)
      (fun q h1 h2 => inR_of_sameShape hs1 q (hspan q (by omega) (by push_cast; omega)))
    refine ⟨hs1.trans b1, ?_⟩
    intro q hq
    have b3 := b2 q (inR_of_sameShape hs1 q hq)
    rw [show (assign d (Iter.mk_at bs d.map pr).first (Iter.mk_at bs d.map pr).off
      (flat bs d pf)).map = d.map from rfl] at b3
    rw [b3]
    by_cases hc1 : pr + 1 ≤ q ∧ q < pr + 1 + n
    · rw [if_pos hc1, if_pos (by push_cast; omega),
        flat_assign_mk_at bs d hw pr hpr _ _ (hspan _ (by omega) (by push_cast; omega)),
        if_neg (by omega)]
      congr 1
      ring
    · rw [if_neg hc1, flat_assign_mk_at bs d hw pr hpr _ _ hq]
      by_cases hc2 : q = pr
      · rw [if_pos hc2, if_pos (by push_cast; omega)]
        congr 1
        omega
      · rw [if_neg hc2, if_neg (by push_cast; omega)]

theorem copy_backward_loop_spec {α : Type} (bs : Nat) (n : Nat) (d : Deque α) (hw : WF bs d)
    (pl pr : Int) (hle : pl ≤ pr) (hspan : ∀ q, pl - n ≤ q → q < pr → InR bs d q) :
    SameShape d (copy_backward_loop bs n d (Iter.mk_at bs d.map pl) (Iter.mk_at bs d.map pr)) ∧
    ∀ q, InR bs d q →
      flat bs (copy_backward_loop bs n d (Iter.mk_at bs d.map pl) (Iter.mk_at bs d.map pr)) q
        = if pr - n ≤ q ∧ q < pr then flat bs d (q - pr + pl) else flat bs d q := by
  induction n generalizing d pl pr with
  | zero =>
    refine ⟨sameShape_refl _, ?_⟩
    intro q _
    rw [if_neg (by push_cast; omega)]
    rfl
  | succ n ih =>
    rw [copy_backward_loop, Iter.dec_mk_at bs hw.bs_pos, Iter.dec_mk_at bs hw.bs_pos, deref_mk_at]
    have hs1 : SameShape d (assign d (Iter.mk_at bs d.map (pr - 1)).first
        (Iter.mk_at bs d.map (pr - 1)).off (flat bs d (pl - 1))) := SameShape.assign _ _ _ _
    have hw1 := hw.of_sameShape hs1
    have hpr : InR bs d (pr - 1) := hspan (pr - 1) (by push_cast; omega) (by omega)
    obtain ⟨b1, b2⟩ := ih (assign d (Iter.mk_at bs d.map (pr - 1)).first
      (Iter.mk_at bs d.map (pr - 1)).off (flat bs d (pl - 1))) hw1 (pl - 1) (pr - 1) (by omega)
      (fun q h1 h2 => inR_of_sameShape hs1 q (hspan q (by push_cast; omega) (by omega)))
    refine ⟨hs1.trans b1, ?_⟩
    intro q hq
    have b3 := b2 q (inR_of_sameShape hs1 q hq)
    rw [show (assign d (Iter.mk_at bs d.map (pr - 1)).first (Iter.mk_at bs d.map (pr - 1)).off
      (flat bs d (pl - 1))).map = d.map from rfl] at b3
    rw [b3]
    by_cases hc1 : pr - 1 - n ≤ q ∧ q < pr - 1
    · rw [if_pos hc1, if_pos (by push_cast; omega),
        flat_assign_mk_at bs d hw (pr - 1) hpr _ _ (hspan _ (by push_cast; omega) (by omega)),
        if_neg (by omega)]
      congr 1
      ring
    · rw [if_neg hc1, flat_assign_mk_at bs d hw (pr - 1) hpr _ _ hq]
      by_cases hc2 : q = pr - 1
      · rw [if_pos hc2, if_pos (by push_cast; omega)]
        congr 1
        omega
      · rw [if_neg hc2, if_neg (by push_cast; omega)]

theorem destroy_iter_spec {α : Type} (bs : Nat) (n : Nat) (d : Deque α) (hw : WF bs d) (p : Int)
    (hspan : ∀ q, p ≤ q → q < p + n → InR bs d q) :
    SameShape d (destroy_iter bs n d (Iter.mk_at bs d.map p)) ∧
    ∀ q, InR bs d q →
      flat bs (destroy_iter bs n d (Iter.mk_at bs d.map p)) q
        = if p ≤ q ∧ q < p + n then none else flat bs d q := by
  induction n generalizing d p with
  | zero =>
    refine ⟨sameShape_refl _, ?_⟩
    intro q _
    rw [if_neg (by push_cast; omega)]
    rfl
  | succ n ih =>
    rw [destroy_iter, Iter.inc_mk_at bs hw.bs_pos]
    have hs1 : SameShape d (destroy d (Iter.mk_at bs d.map p).first (Iter.mk_at bs d.map p).off) :=
      SameShape.destroy _ _ _
    have hw1 := hw.of_sameShape hs1
    have hp : InR bs d p := hspan p (le_refl _) (by push_cast; omega)
    obtain ⟨b1, b2⟩ := ih (destroy d (Iter.mk_at bs d.map p).first (Iter.mk_at bs d.map p).off)
      hw1 (p + 1)
      (fun q h1 h2 => inR_of_sameShape hs1 q (hspan q (by omega) (by push_cast; omega)))
    refine ⟨hs1.trans b1, ?_⟩
    intro q hq
    have b3 := b2 q (inR_of_sameShape hs1 q hq)
    rw [show (destroy d (Iter.mk_at bs d.map p).first (Iter.mk_at bs d.map p).off).map = d.map
      from rfl] at b3
    rw [b3]
    have hfa := flat_assign_mk_at bs d hw p hp none q hq
    rw [show assign d (Iter.mk_at bs d.map p).first (Iter.mk_at bs d.map p).off none
      = destroy d (Iter.mk_at bs d.map p).first (Iter.mk_at bs d.map p).off from rfl] at hfa
    rw [hfa]
    by_cases hc1 : p + 1 ≤ q ∧ q < p + 1 + n
    · rw [if_pos hc1, if_pos (by push_cast; omega)]
    · rw [if_neg hc1]
      by_cases hc2 : q = p
      · rw [if_pos hc2, if_pos (by push_cast; omega)]
      · rw [if_neg hc2, if_neg (by push_cast; omega)]

theorem dealloc_nodes_shape {α : Type} (k : Nat) (d : Deque α) (cur : Int) :
    (dealloc_nodes k d cur).map = d.map ∧ (dealloc_nodes k d cur).start = d.start ∧
    (dealloc_nodes k d cur).finish = d.finish ∧ (dealloc_nodes k d cur).map_size = d.map_size ∧
    (dealloc_nodes k d cur).next = d.next ∧
    (∀ h, (∀ i, cur ≤ i → i < cur + k → d.map i ≠ some h) →
      (dealloc_nodes k d cur).heap h = d.heap h) ∧
    (∀ h, (∃ i, cur ≤ i ∧ i < cur + k ∧ d.map i = some h) →
      (dealloc_nodes k d cur).heap h = none) := by
  induction k generalizing d cur with
  | zero =>
    refine ⟨rfl, rfl, rfl, rfl, rfl, fun _ _ => rfl, ?_⟩
    intro h ⟨i, h1, h2, _⟩
    push_cast at h2
    omega
  | succ k ih =>
    rw [dealloc_nodes]
    obtain ⟨c1, c2, c3, c4, c5, c6, c7⟩ := ih (deallocate d (d.map cur)) (cur + 1)
    obtain ⟨b1, b2, b3, b4, b5, _⟩ := deallocate_shape d (d.map cur)
    have hheap : ∀ h, (deallocate d (d.map cur)).heap h
        = if d.map cur = some h then none else d.heap h := by
      intro h
      cases hm : d.map cur with
      | none => simp [deallocate]
      | some j =>
        show upd d.heap j none h = _
        by_cases hj : h = j
        · subst hj; rw [upd_same, if_pos rfl]
        · rw [upd_ne _ _ _ _ hj, if_neg (fun e => hj (Option.some.inj e).symm)]
    refine ⟨by rw [c1, b1], by rw [c2, b2], by rw [c3, b3], by rw [c4, b4], by rw [c5, b5], ?_, ?_⟩
    · intro h hh
      rw [c6 h (by
        intro i h1 h2
        rw [b1]
        exact hh i (by omega) (by push_cast; omega)), hheap,
        if_neg (hh cur (le_refl _) (by push_cast; omega))]
    · intro h ⟨i, h1, h2, h3⟩
      by_cases hi : i = cur
      · subst hi
        by_cases hex : ∃ i2, i + 1 ≤ i2 ∧ i2 < i + 1 + k ∧ d.map i2 = some h
        · obtain ⟨i2, g1, g2, g3⟩ := hex
          exact c7 h ⟨i2, g1, g2, by rw [b1]; exact g3⟩
        · push_neg at hex
          rw [c6 h (by
            intro i2 g1 g2
            rw [b1]
            exact hex i2 g1 g2), hheap, if_pos h3]
      · exact c7 h ⟨i, by omega, by push_cast at h2; omega, by rw [b1]; exact h3⟩

theorem flat_dealloc_nodes {α : Type} (bs : Nat) (d : Deque α) (hw : WF bs d) (k : Nat) (cur : Int)
    (hcur : d.start.node ≤ cur) (hk : cur + k ≤ d.finish.node + 1) (q : Int) (hq : InR bs d q)
    (hout : q / (bs : Int) < cur ∨ cur + k ≤ q / (bs : Int)) :
    flat bs (dealloc_nodes k d cur) q = flat bs d q := by
  obtain ⟨c1, _, _, _, _, c6, _⟩ := dealloc_nodes_shape k d cur
  obtain ⟨h, hh, _⟩ := hw.live _ hq.1 hq.2
  unfold flat
  rw [c1, hh]
  have := c6 h (by
    intro i h1 h2 h3
    have := hw.inj i (q / (bs : Int)) h (by omega) (by omega) hq.1 hq.2 h3 hh
    omega)
  simp only [rd, this]

theorem Iter.add_eq_mk_at (bs : Nat) (hbs : 0 < bs) (map : Int → Option Nat) (it : Iter)
    (h : Iter.ok bs map it) (n : Int) :
    Iter.add bs map it n = Iter.mk_at bs map (Iter.pos bs it + n) := by
  conv_lhs => rw [Iter.eq_mk_at bs hbs map it h]
  rw [Iter.add_mk_at bs hbs]

theorem Iter.sub_eq_mk_at (bs : Nat) (hbs : 0 < bs) (map : Int → Option Nat) (it : Iter)
    (h : Iter.ok bs map it) (n : Int) :
    Iter.sub bs map it n = Iter.mk_at bs map (Iter.pos bs it - n) := by
  conv_lhs => rw [Iter.eq_mk_at bs hbs map it h]
  rw [Iter.sub_mk_at bs hbs]

theorem Iter.eq_mk_at_iff {α : Type} (bs : Nat) (d : Deque α) (hw : WF bs d) (p q : Int)
    (hp : InR bs d p) (hq : InR bs d q) :
    Iter.eq (Iter.mk_at bs d.map p) (Iter.mk_at bs d.map q) = true ↔ p = q := by
  have hb : (0 : Int) < bs := by exact_mod_cast hw.bs_pos
  unfold Iter.eq Iter.mk_at
  simp only [Bool.and_eq_true, decide_eq_true_eq]
  constructor
  · intro ⟨h1, h2⟩
    obtain ⟨k, hk, _⟩ := hw.live _ hq.1 hq.2
    rw [hk] at h1
    have := hw.inj _ _ k hp.1 hp.2 hq.1 hq.2 h1 hk
    exact (pos_eq_iff bs hb p q).2 ⟨this, h2⟩
  · intro h
    subst h
    exact ⟨rfl, rfl⟩

theorem getElem?_take_append_drop {β : Type} (l : List β) (i j k : Nat) (hi : i ≤ l.length) :
    (l.take i ++ l.drop j)[k]? = if k < i then l[k]? else l[j + (k - i)]? := by
  by_cases hk : k < i
  · rw [if_pos hk, List.getElem?_append_left (by rw [List.length_take]; omega),
      List.getElem?_take_of_lt hk]
  · rw [if_neg hk, List.getElem?_append_right (by rw [List.length_take]; omega),
      List.length_take, List.getElem?_drop, Nat.min_eq_left hi]

theorem content_erase {α : Type} (bs : Nat) (hbs : 0 < bs) (d e : Deque α)
    (hs : Iter.ok bs d.map d.start) (hs2 : Iter.ok bs e.map e.start) (i j : Nat) (hij : i ≤ j)
    (hj : Iter.pos bs d.start + (j : Int) ≤ Iter.pos bs d.finish)
    (hlen : Iter.pos bs e.finish - Iter.pos bs e.start
      = Iter.pos bs d.finish - Iter.pos bs d.start - ((j : Int) - (i : Int)))
    (hfl : ∀ k : Nat,
      (k : Int) < Iter.pos bs d.finish - Iter.pos bs d.start - ((j : Int) - (i : Int)) →
      flat bs e (Iter.pos bs e.start + (k : Int))
        = if k < i then flat bs d (Iter.pos bs d.start + (k : Int))
          else flat bs d (Iter.pos bs d.start + ((j + (k - i) : Nat) : Int))) :
    content bs e = (content bs d).take i ++ (content bs d).drop j := by
  apply List.ext_getElem?
  intro k
  have hL := content_length bs hbs d hs
  rw [getElem?_take_append_drop _ _ _ _ (by rw [hL]; omega)]
  by_cases hk : (k : Int) < Iter.pos bs d.finish - Iter.pos bs d.start - ((j : Int) - (i : Int))
  · rw [content_getElem? bs hbs e hs2 k (by omega), hfl k hk]
    by_cases hki : k < i
    · rw [if_pos hki, if_pos hki, content_getElem? bs hbs d hs k (by omega)]
    · rw [if_neg hki, if_neg hki, content_getElem? bs hbs d hs _ (by omega)]
  · have h1 : (content bs e)[k]? = none := by
      rw [List.getElem?_eq_none_iff, content_length bs hbs e hs2]
      omega
    rw [h1, if_neg (by omega)]
    symm
    rw [List.getElem?_eq_none_iff, hL]
    omega

theorem erase_shift_front_spec {α : Type} (bs : Nat) (d : Deque α) (hw : WF bs d) (i j : Nat)
    (hij : i ≤ j) (hj : Iter.pos bs d.start + (j : Int) ≤ Iter.pos bs d.finish) :
    Iter.ok bs (erase_shift_front bs d (Iter.mk_at bs d.map (Iter.pos bs d.start + i))
      (Iter.mk_at bs d.map (Iter.pos bs d.start + j))).1.map
      (erase_shift_front bs d (Iter.mk_at bs d.map (Iter.pos bs d.start + i))
      (Iter.mk_at bs d.map (Iter.pos bs d.start + j))).1.start ∧
    Iter.pos bs (erase_shift_front bs d (Iter.mk_at bs d.map (Iter.pos bs d.start + i))
      (Iter.mk_at bs d.map (Iter.pos bs d.start + j))).1.start
      = Iter.pos bs d.start + ((j : Int) - (i : Int)) ∧
    Iter.pos bs (erase_shift_front bs d (Iter.mk_at bs d.map (Iter.pos bs d.start + i))
      (Iter.mk_at bs d.map (Iter.pos bs d.start + j))).1.finish = Iter.pos bs d.finish ∧
    (∀ q, Iter.pos bs d.start + ((j : Int) - (i : Int)) ≤ q → q < Iter.pos bs d.finish →
      flat bs (erase_shift_front bs d (Iter.mk_at bs d.map (Iter.pos bs d.start + i))
        (Iter.mk_at bs d.map (Iter.pos bs d.start + j))).1 q
        = if q < Iter.pos bs d.start + (j : Int) then flat bs d (q - ((j : Int) - (i : Int)))
          else flat bs d q) ∧
    (erase_shift_front bs d (Iter.mk_at bs d.map (Iter.pos bs d.start + i))
      (Iter.mk_at bs d.map (Iter.pos bs d.start + j))).2
      = Iter.mk_at bs (erase_shift_front bs d (Iter.mk_at bs d.map (Iter.pos bs d.start + i))
      (Iter.mk_at bs d.map (Iter.pos bs d.start + j))).1.map
        (Iter.pos bs d.start + ((j : Int) - (i : Int)) + (i : Int)) := by
  have hbs := hw.bs_pos
  have hb : (0 : Int) < bs := by exact_mod_cast hw.bs_pos
  have hord := hw.ordered
  unfold erase_shift_front
  dsimp only
  have en : Iter.diff bs (Iter.mk_at bs d.map (Iter.pos bs d.start + j))
      (Iter.mk_at bs d.map (Iter.pos bs d.start + i)) = (j : Int) - (i : Int) := by
    rw [Iter.diff_eq_pos, Iter.pos_mk_at bs hbs, Iter.pos_mk_at bs hbs]; ring
  have eb : Iter.diff bs (Iter.mk_at bs d.map (Iter.pos bs d.start + i)) d.start = (i : Int) := by
    rw [Iter.diff_eq_pos, Iter.pos_mk_at bs hbs]; ring
  rw [en, eb]
  unfold copy_backward
  rw [eb, Int.toNat_ofNat]
  obtain ⟨a1, a2⟩ := copy_backward_loop_spec bs i d hw (Iter.pos bs d.start + i)
    (Iter.pos bs d.start + j) (by omega)
    (fun q h1 h2 => inR_of_between bs d hw q (by omega) (by omega))
  generalize copy_backward_loop bs i d (Iter.mk_at bs d.map (Iter.pos bs d.start + i))
    (Iter.mk_at bs d.map (Iter.pos bs d.start + j)) = d1 at a1 a2 ⊢
  have hw1 := hw.of_sameShape a1
  have m1 := a1.1
  have m2 := a1.2.1
  have m3 := a1.2.2.1
  have ens : Iter.add bs d1.map d1.start ((j : Int) - (i : Int))
      = Iter.mk_at bs d1.map (Iter.pos bs d.start + ((j : Int) - (i : Int))) := by
    rw [Iter.add_eq_mk_at bs hbs _ _ hw1.start_ok, m2]
  rw [ens]
  have ed : (Iter.diff bs (Iter.mk_at bs d1.map (Iter.pos bs d.start + ((j : Int) - (i : Int))))
      d1.start).toNat = j - i := by
    rw [Iter.diff_eq_pos, Iter.pos_mk_at bs hbs, m2]
    omega
  rw [ed]
  have es : d1.start = Iter.mk_at bs d1.map (Iter.pos bs d.start) := by
    rw [← m2]; exact Iter.eq_mk_at bs hbs _ _ hw1.start_ok
  rw [es]
  obtain ⟨b1, b2⟩ := destroy_iter_spec bs (j - i) d1 hw1 (Iter.pos bs d.start)
    (fun q h1 h2 => inR_of_sameShape a1 q
      (inR_of_between bs d hw q (by omega) (by omega)))
  generalize destroy_iter bs (j - i) d1 (Iter.mk_at bs d1.map (Iter.pos bs d.start)) = d2
    at b1 b2 ⊢
  have hw2 := hw1.of_sameShape b1
  have hsh2 : SameShape d d2 := SameShape.trans a1 b1
  have n1 := b1.1
  have n3 := b1.2.2.1
  have hS : InR bs d (Iter.pos bs d.start + ((j : Int) - (i : Int))) :=
    inR_of_between bs d hw _ (by omega) (by omega)
  have hnode : (Iter.mk_at bs d1.map (Iter.pos bs d.start + ((j : Int) - (i : Int)))).node
      = (Iter.pos bs d.start + ((j : Int) - (i : Int))) / (bs : Int) := rfl
  rw [hnode]
  generalize hk : ((Iter.pos bs d.start + ((j : Int) - (i : Int))) / (bs : Int)
    - d2.start.node).toNat = k
  have hk2 : d2.start.node + (k : Int)
      = (Iter.pos bs d.start + ((j : Int) - (i : Int))) / (bs : Int) := by
    have h1 := hS.1
    have h2 : d2.start.node = d.start.node := by rw [hsh2.2.1]
    omega
  obtain ⟨c1, c2, c3, c4, c5, c6, c7⟩ := dealloc_nodes_shape k d2 d2.start.node
  have hfd : ∀ q, Iter.pos bs d.start + ((j : Int) - (i : Int)) ≤ q → q < Iter.pos bs d.finish →
      flat bs (dealloc_nodes k d2 d2.start.node) q = flat bs d2 q := by
    intro q h1 h2
    have hq := inR_of_between bs d hw q (by omega) (le_of_lt h2)
    apply flat_dealloc_nodes bs d2 hw2 k d2.start.node (le_refl _) _ q
      (inR_of_sameShape hsh2 q hq)
    · right
      rw [hk2]
      exact ediv_mono_pos bs hb _ _ h1
    · rw [hk2, hsh2.2.2.1]
      have := hS.2
      omega
  generalize dealloc_nodes k d2 d2.start.node = d3 at c1 c2 c3 c4 c5 c6 c7 hfd ⊢
  refine ⟨?_, Iter.pos_mk_at bs hbs _ _, ?_, ?_, ?_⟩
  · show Iter.ok bs d3.map _
    rw [c1, n1]
    exact Iter.ok_mk_at bs hbs _ _
  · show Iter.pos bs d3.finish = _
    rw [c3, n3, m3]
  · intro q h1 h2
    have hq := inR_of_between bs d hw q (by omega) (le_of_lt h2)
    show flat bs d3 q = _
    rw [hfd q h1 h2, b2 q (inR_of_sameShape a1 q hq), if_neg (by omega), a2 q hq]
    by_cases hc : q < Iter.pos bs d.start + (j : Int)
    · rw [if_pos hc, if_pos (by omega)]
      congr 1
      ring
    · rw [if_neg hc, if_neg (by omega)]
  · show Iter.add bs d3.map _ _ = Iter.mk_at bs d3.map _
    rw [c1, n1, Iter.add_mk_at bs hbs]

theorem erase_shift_back_spec {α : Type} (bs : Nat) (d : Deque α) (hw : WF bs d) (i j : Nat)
    (hij : i ≤ j) (hj : Iter.pos bs d.start + (j : Int) ≤ Iter.pos bs d.finish) :
    Iter.ok bs (erase_shift_back bs d (Iter.mk_at bs d.map (Iter.pos bs d.start + i))
      (Iter.mk_at bs d.map (Iter.pos bs d.start + j))).1.map
      (erase_shift_back bs d (Iter.mk_at bs d.map (Iter.pos bs d.start + i))
      (Iter.mk_at bs d.map (Iter.pos bs d.start + j))).1.start ∧
    Iter.pos bs (erase_shift_back bs d (Iter.mk_at bs d.map (Iter.pos bs d.start + i))
      (Iter.mk_at bs d.map (Iter.pos bs d.start + j))).1.start = Iter.pos bs d.start ∧
    Iter.pos bs (erase_shift_back bs d (Iter.mk_at bs d.map (Iter.pos bs d.start + i))
      (Iter.mk_at bs d.map (Iter.pos bs d.start + j))).1.finish
      = Iter.pos bs d.finish - ((j : Int) - (i : Int)) ∧
    (∀ q, Iter.pos bs d.start ≤ q → q < Iter.pos bs d.finish - ((j : Int) - (i : Int)) →
      flat bs (erase_shift_back bs d (Iter.mk_at bs d.map (Iter.pos bs d.start + i))
        (Iter.mk_at bs d.map (Iter.pos bs d.start + j))).1 q
        = if q < Iter.pos bs d.start + (i : Int) then flat bs d q
          else flat bs d (q + ((j : Int) - (i : Int)))) ∧
    (erase_shift_back bs d (Iter.mk_at bs d.map (Iter.pos bs d.start + i))
      (Iter.mk_at bs d.map (Iter.pos bs d.start + j))).2
      = Iter.mk_at bs (erase_shift_back bs d (Iter.mk_at bs d.map (Iter.pos bs d.start + i))
      (Iter.mk_at bs d.map (Iter.pos bs d.start + j))).1.map
        (Iter.pos bs d.start + (i : Int)) := by
  have hbs := hw.bs_pos
  have hb : (0 : Int) < bs := by exact_mod_cast hw.bs_pos
  have hord := hw.ordered
  unfold erase_shift_back
  dsimp only
  have en : Iter.diff bs (Iter.mk_at bs d.map (Iter.pos bs d.start + j))
      (Iter.mk_at bs d.map (Iter.pos bs d.start + i)) = (j : Int) - (i : Int) := by
    rw [Iter.diff_eq_pos, Iter.pos_mk_at bs hbs, Iter.pos_mk_at bs hbs]; ring
  have eb : Iter.diff bs (Iter.mk_at bs d.map (Iter.pos bs d.start + i)) d.start = (i : Int) := by
    rw [Iter.diff_eq_pos, Iter.pos_mk_at bs hbs]; ring
  rw [en, eb]
  unfold copy
  generalize hn : (Iter.diff bs d.finish (Iter.mk_at bs d.map (Iter.pos bs d.start + j))).toNat = n
  have hn2 : (n : Int) = Iter.pos bs d.finish - (Iter.pos bs d.start + j) := by
    rw [Iter.diff_eq_pos, Iter.pos_mk_at bs hbs] at hn
    omega
  obtain ⟨a1, a2⟩ := copy_loop_spec bs n d hw (Iter.pos bs d.start + j)
    (Iter.pos bs d.start + i) (by omega)
    (fun q h1 h2 => inR_of_between bs d hw q (by omega) (by omega))
  generalize copy_loop bs n d (Iter.mk_at bs d.map (Iter.pos bs d.start + j))
    (Iter.mk_at bs d.map (Iter.pos bs d.start + i)) = d1 at a1 a2 ⊢
  have hw1 := hw.of_sameShape a1
  have m1 := a1.1
  have m2 := a1.2.1
  have m3 := a1.2.2.1
  have enf : Iter.sub bs d1.map d1.finish ((j : Int) - (i : Int))
      = Iter.mk_at bs d1.map (Iter.pos bs d.finish - ((j : Int) - (i : Int))) := by
    rw [Iter.sub_eq_mk_at bs hbs _ _ hw1.finish_ok, m3]
  rw [enf]
  have ed : (Iter.diff bs d1.finish
      (Iter.mk_at bs d1.map (Iter.pos bs d.finish - ((j : Int) - (i : Int))))).toNat = j - i := by
    rw [Iter.diff_eq_pos, Iter.pos_mk_at bs hbs, m3]
    omega
  rw [ed]
  obtain ⟨b1, b2⟩ := destroy_iter_spec bs (j - i) d1 hw1
    (Iter.pos bs d.finish - ((j : Int) - (i : Int)))
    (fun q h1 h2 => inR_of_sameShape a1 q
      (inR_of_between bs d hw q (by omega) (by omega)))
  generalize destroy_iter bs (j - i) d1
    (Iter.mk_at bs d1.map (Iter.pos bs d.finish - ((j : Int) - (i : Int)))) = d2 at b1 b2 ⊢
  have hw2 := hw1.of_sameShape b1
  have hsh2 : SameShape d d2 := SameShape.trans a1 b1
  have n1 := b1.1
  have n2 := b1.2.1
  have hF : InR bs d (Iter.pos bs d.finish - ((j : Int) - (i : Int))) :=
    inR_of_between bs d hw _ (by omega) (by omega)
  have hnode : (Iter.mk_at bs d1.map (Iter.pos bs d.finish - ((j : Int) - (i : Int)))).node
      = (Iter.pos bs d.finish - ((j : Int) - (i : Int))) / (bs : Int) := rfl
  rw [hnode]
  generalize hk : (d2.finish.node
    - (Iter.pos bs d.finish - ((j : Int) - (i : Int))) / (bs : Int)).toNat = k
  have hfn : d2.finish.node = d.finish.node := by rw [hsh2.2.2.1]
  have hsn : d2.start.node = d.start.node := by rw [hsh2.2.1]
  have hk2 : (Iter.pos bs d.finish - ((j : Int) - (i : Int))) / (bs : Int) + 1 + (k : Int)
      = d2.finish.node + 1 := by
    have h1 := hF.2
    omega
  obtain ⟨c1, c2, c3, c4, c5, c6, c7⟩ := dealloc_nodes_shape k d2
    ((Iter.pos bs d.finish - ((j : Int) - (i : Int))) / (bs : Int) + 1)
  have hfd : ∀ q, Iter.pos bs d.start ≤ q → q < Iter.pos bs d.finish - ((j : Int) - (i : Int)) →
      flat bs (dealloc_nodes k d2
        ((Iter.pos bs d.finish - ((j : Int) - (i : Int))) / (bs : Int) + 1)) q = flat bs d2 q := by
    intro q h1 h2
    have hq := inR_of_between bs d hw q (by omega) (by omega)
    apply flat_dealloc_nodes bs d2 hw2 k _ _ _ q (inR_of_sameShape hsh2 q hq)
    · left
      have := ediv_mono_pos bs hb _ _ (le_of_lt h2)
      omega
    · have := hF.1
      omega
    · omega
  generalize dealloc_nodes k d2
    ((Iter.pos bs d.finish - ((j : Int) - (i : Int))) / (bs : Int) + 1) = d3
    at c1 c2 c3 c4 c5 c6 c7 hfd ⊢
  have hok3 : Iter.ok bs d3.map d3.start := by
    rw [c1, c2, n1, n2]
    exact hw1.start_ok
  refine ⟨hok3, ?_, Iter.pos_mk_at bs hbs _ _, ?_, ?_⟩
  · show Iter.pos bs d3.start = _
    rw [c2, n2, m2]
  · intro q h1 h2
    have hq := inR_of_between bs d hw q (by omega) (by omega)
    show flat bs d3 q = _
    rw [hfd q h1 h2, b2 q (inR_of_sameShape a1 q hq), if_neg (by omega), a2 q hq]
    by_cases hc : q < Iter.pos bs d.start + (i : Int)
    · rw [if_pos hc, if_neg (by omega)]
    · rw [if_neg hc, if_pos (by omega)]
      congr 1
      ring
  · show Iter.add bs d3.map d3.start _ = Iter.mk_at bs d3.map _
    rw [Iter.add_eq_mk_at bs hbs _ _ hok3, c2, n2, m2]

theorem erase_range_spec {α : Type} (bs : Nat) (d : Deque α) (hw : WF bs d) (i j : Nat)
    (hij : i ≤ j) (hj : Iter.pos bs d.start + (j : Int) ≤ Iter.pos bs d.finish) :
    content bs (erase_range bs d (Iter.add bs d.map d.start i) (Iter.add bs d.map d.start j)).1
      = (content bs d).take i ++ (content bs d).drop j ∧
    Iter.diff bs
        (erase_range bs d (Iter.add bs d.map d.start i) (Iter.add bs d.map d.start j)).1.finish
        (erase_range bs d (Iter.add bs d.map d.start i) (Iter.add bs d.map d.start j)).1.start
      = Iter.diff bs d.finish d.start - ((j : Int) - (i : Int)) ∧
    Iter.ok bs (erase_range bs d (Iter.add bs d.map d.start i) (Iter.add bs d.map d.start j)).1.map
      (erase_range bs d (Iter.add bs d.map d.start i) (Iter.add bs d.map d.start j)).1.start ∧
    (erase_range bs d (Iter.add bs d.map d.start i) (Iter.add bs d.map d.start j)).2
      = Iter.mk_at bs
          (erase_range bs d (Iter.add bs d.map d.start i) (Iter.add bs d.map d.start j)).1.map
          (Iter.pos bs
            (erase_range bs d (Iter.add bs d.map d.start i) (Iter.add bs d.map d.start j)).1.start
            + (i : Int)) := by
  have hbs := hw.bs_pos
  have hord := hw.ordered
  rw [Iter.add_eq_mk_at bs hbs _ _ hw.start_ok, Iter.add_eq_mk_at bs hbs _ _ hw.start_ok]
  unfold erase_range
  by_cases hc : (Iter.eq (Iter.mk_at bs d.map (Iter.pos bs d.start + i)) d.start
      && Iter.eq (Iter.mk_at bs d.map (Iter.pos bs d.start + j)) d.finish) = true
  · rw [if_pos hc]
    dsimp only
    rw [Bool.and_eq_true] at hc
    obtain ⟨h1, h2⟩ := hc
    have hi : i = 0 := by
      have e := Iter.eq_mk_at bs hbs d.map d.start hw.start_ok
      rw [e, Iter.pos_mk_at bs hbs] at h1
      have := (Iter.eq_mk_at_iff bs d hw _ _
        (inR_of_between bs d hw _ (by omega) (by omega)) hw.inR_start).1 h1
      omega
    have hjf : Iter.pos bs d.start + (j : Int) = Iter.pos bs d.finish := by
      have e := Iter.eq_mk_at bs hbs d.map d.finish hw.finish_ok
      rw [e] at h2
      exact (Iter.eq_mk_at_iff bs d hw _ _
        (inR_of_between bs d hw _ (by omega) (by omega)) hw.inR_finish).1 h2
    obtain ⟨c1, c2, c3, c4, c5, c6⟩ := clear_shape bs d hw
    have hwc := clear_wf bs d hw
    generalize clear bs d = e at c1 c2 c3 c4 c5 c6 hwc ⊢
    subst hi
    refine ⟨?_, ?_, hwc.start_ok, ?_⟩
    · rw [content_eq_flat bs hbs e hwc.start_ok, c4, c5, List.take_zero, List.nil_append]
      rw [List.drop_eq_nil_of_le (by rw [content_length bs hbs d hw.start_ok]; omega)]
      simp
    · rw [Iter.diff_eq_pos, Iter.diff_eq_pos, c4, c5]
      omega
    · rw [c5, c4, c1]
      simp only [Nat.cast_zero, add_zero]
      exact Iter.eq_mk_at bs hbs d.map d.start hw.start_ok
  · rw [if_neg hc]
    dsimp only
    split
    · obtain ⟨p1, p2, p3, p4, p5⟩ := erase_shift_front_spec bs d hw i j hij hj
      generalize erase_shift_front bs d (Iter.mk_at bs d.map (Iter.pos bs d.start + i))
        (Iter.mk_at bs d.map (Iter.pos bs d.start + j)) = r at p1 p2 p3 p4 p5 ⊢
      refine ⟨?_, ?_, p1, ?_⟩
      · apply content_erase bs hbs d r.1 hw.start_ok p1 i j hij hj
        · rw [p2, p3]; ring
        · intro k hk
          rw [p2, p4 _ (by omega) (by omega)]
          by_cases hki : k < i
          · rw [if_pos hki, if_pos (by omega)]
            congr 1
            ring
          · rw [if_neg hki, if_neg (by omega)]
            congr 1
            push_cast
            omega
      · rw [Iter.diff_eq_pos, Iter.diff_eq_pos, p2, p3]
        ring
      · rw [p5, p2]
    · obtain ⟨p1, p2, p3, p4, p5⟩ := erase_shift_back_spec bs d hw i j hij hj
      generalize erase_shift_back bs d (Iter.mk_at bs d.map (Iter.pos bs d.start + i))
        (Iter.mk_at bs d.map (Iter.pos bs d.start + j)) = r at p1 p2 p3 p4 p5 ⊢
      refine ⟨?_, ?_, p1, ?_⟩
      · apply content_erase bs hbs d r.1 hw.start_ok p1 i j hij hj
        · rw [p2, p3]; ring
        · intro k hk
          rw [p2, p4 _ (by omega) (by omega)]
          by_cases hki : k < i
          · rw [if_pos hki, if_pos (by omega)]
          · rw [if_neg hki, if_neg (by omega)]
            congr 1
            push_cast
            omega
      · rw [Iter.diff_eq_pos, Iter.diff_eq_pos, p2, p3]
        ring
      · rw [p5, p2]

theorem to_size_t_of_lt (x : Int) (h0 : 0 ≤ x) (h1 : x < 2 ^ 64) : to_size_t x = x.toNat := by
  unfold to_size_t
  rw [Int.emod_eq_of_lt h0 h1]

theorem diff_of_content {α : Type} (bs : Nat) (d : Deque α) (hw : WF bs d) (l : List (Option α))
    (hc : content bs d = l) : Iter.diff bs d.finish d.start = (l.length : Int) := by
  have := content_length bs hw.bs_pos d hw.start_ok
  rw [hc] at this
  have hord := hw.ordered
  rw [Iter.diff_eq_pos]
  omega

theorem size_of_content {α : Type} (bs : Nat) (d : Deque α) (hw : WF bs d) (l : List (Option α))
    (hc : content bs d = l) (hfit : l.length < 2 ^ 64) : size bs d = l.length := by
  unfold size
  rw [diff_of_content bs d hw l hc, to_size_t_of_lt _ (Int.natCast_nonneg _) (by exact_mod_cast hfit)]
  rfl

theorem index_of_content {α : Type} (bs : Nat) (d : Deque α) (hw : WF bs d) (l : List (Option α))
    (hc : content bs d = l) (n : Nat) (hn : n < l.length) : some (index bs d n) = l[n]? := by
  have hd := diff_of_content bs d hw l hc
  rw [Iter.diff_eq_pos] at hd
  rw [index_eq_flat bs hw.bs_pos d hw.start_ok, ← hc,
    content_getElem? bs hw.bs_pos d hw.start_ok n (by omega)]

theorem front_eq_index {α : Type} (bs : Nat) (d : Deque α) (hw : WF bs d) :
    front d = index bs d 0 := by
  rw [front_eq_flat bs hw.bs_pos d hw.start_ok, index_eq_flat bs hw.bs_pos d hw.start_ok]
  simp

theorem back_eq_index {α : Type} (bs : Nat) (d : Deque α) (hw : WF bs d) (n : Nat)
    (hn : Iter.diff bs d.finish d.start = (n : Int) + 1) : back bs d = index bs d n := by
  rw [back_eq_flat bs hw.bs_pos d hw.finish_ok, index_eq_flat bs hw.bs_pos d hw.start_ok]
  rw [Iter.diff_eq_pos] at hn
  congr 1
  omega

theorem iterate_inc_eq_index {α : Type} (bs : Nat) (d : Deque α) (hw : WF bs d) (n : Nat) :
    deref d ((Iter.inc bs d.map)^[n] d.start) = index bs d n := by
  rw [index_eq_flat bs hw.bs_pos d hw.start_ok]
  conv_lhs => rw [Iter.eq_mk_at bs hw.bs_pos d.map d.start hw.start_ok]
  rw [iterate_inc_mk_at bs hw.bs_pos, deref_mk_at]

theorem WF.fill {α : Type} (bs : Nat) (hbs : 0 < bs) (n : Nat) (v : α) :
    WF bs (Deque.fill bs n v) := (fill_initialized_spec bs hbs n v).1

theorem WF.new (α : Type) [Inhabited α] (bs : Nat) (hbs : 0 < bs) : WF bs (Deque.new α bs) :=
  WF.fill bs hbs 0 default

theorem content_fill {α : Type} (bs : Nat) (hbs : 0 < bs) (n : Nat) (v : α) :
    content bs (Deque.fill bs n v) = (List.replicate n v).map some := by
  rw [(fill_initialized_spec bs hbs n v).2.1, List.map_replicate]

theorem content_release {α : Type} (bs : Nat) (d1 e : Deque α) (hw : WF bs d1) (slot : Int)
    (hslot : slot < d1.start.node ∨ d1.finish.node < slot) (X : Option (Int → Option α))
    (hm : e.map = upd d1.map slot (some d1.next))
    (hh : e.heap = upd (upd d1.heap d1.next X) d1.next none)
    (hs : e.start = d1.start) (hf : e.finish = d1.finish) :
    content bs e = content bs d1 ∧ (∀ h, (e.heap h).isSome = (d1.heap h).isSome) ∧
      e.heap d1.next = none := by
  have hle := hw.node_le
  have hok : Iter.ok bs e.map e.start := by
    rw [hs, hm]
    refine ⟨?_, hw.start_ok.2.1, hw.start_ok.2.2⟩
    rw [upd_ne _ _ _ _ (by omega)]
    exact hw.start_ok.1
  refine ⟨?_, ?_, ?_⟩
  · apply content_shift bs hw.bs_pos d1 e 0 hw.start_ok hok
    · rw [hs, add_zero]
    · rw [hf, add_zero]
    · intro p h1 h2
      have hp := inR_of_between bs d1 hw p h1 (le_of_lt h2)
      obtain ⟨k, hk, hks⟩ := hw.live _ hp.1 hp.2
      have hlt := hw.handle_lt k hks
      unfold flat
      rw [add_zero, hm, hh, upd_ne _ _ _ _ (by have := hp.1; have := hp.2; omega), hk,
        rd_upd_ne _ _ _ _ _ (by omega), rd_upd_ne _ _ _ _ _ (by omega)]
  · intro h
    rw [hh]
    by_cases hn : h = d1.next
    · subst hn
      rw [upd_same, hw.fresh _ (le_refl _)]
    · rw [upd_ne _ _ _ _ hn, upd_ne _ _ _ _ hn]
  · rw [hh, upd_same]

theorem push_back_aux_try_throw {α : Type} (bs : Nat) (d : Deque α) (hw : WF bs d) (v : α) :
    (push_back_aux_try false true d v).2 = Outcome.returned ∧
    (push_back_aux_try false true d v).1.start.first = d.start.first ∧
    (push_back_aux_try false true d v).1.start.off = d.start.off ∧
    (push_back_aux_try false true d v).1.finish.first = d.finish.first ∧
    (push_back_aux_try false true d v).1.finish.off = d.finish.off ∧
    content bs (push_back_aux_try false true d v).1 = content bs d ∧
    (∀ h, ((push_back_aux_try false true d v).1.heap h).isSome = (d.heap h).isSome) ∧
    (push_back_aux_try false true d v).1.heap d.next = none := by
  have heq : push_back_aux_try false true d v
      = (deallocate (store_new_node (reverse_map_at_back d 1)
          ((reverse_map_at_back d 1).finish.node + 1)) (some (reverse_map_at_back d 1).next),
        Outcome.returned) := by
    simp only [push_back_aux_try, try_construct, Bool.false_eq_true, if_false, if_true,
      store_new_node, allocate_node, upd_same]
  rw [heq]
  obtain ⟨δ, hsh, hw1, hroom, _⟩ := reverse_map_at_back_spec bs d hw 1
  generalize reverse_map_at_back d 1 = d1 at hsh hw1 hroom ⊢
  obtain ⟨c1, c2, c3⟩ := content_release bs d1
    (deallocate (store_new_node d1 (d1.finish.node + 1)) (some d1.next)) hw1 (d1.finish.node + 1)
    (Or.inr (by omega)) (some (fun _ => none)) rfl rfl rfl rfl
  obtain ⟨a1, a2, a3, a4, a5, a6, a7, a8, a9⟩ := hsh
  have hle := hw.node_le
  refine ⟨rfl, ?_, a4, ?_, a7, ?_, ?_, ?_⟩
  · show d1.start.first = _
    rw [a5, a3, a9 _ (le_refl _) hle]
    exact hw.start_ok.1.symm
  · show d1.finish.first = _
    rw [a8, a6, a9 _ hle (le_refl _)]
    exact hw.finish_ok.1.symm
  · rw [c1]
    exact content_of_shifted hw ⟨a1, a2, a3, a4, a5, a6, a7, a8, a9⟩
  · intro h
    rw [c2, a1]
  · rw [← a2]
    exact c3

theorem push_front_aux_try_throw {α : Type} (bs : Nat) (d : Deque α) (hw : WF bs d) (v : α)
    (hoff : d.start.off = 0) :
    (push_front_aux_try bs false true d v).2 = Outcome.returned ∧
    (push_front_aux_try bs false true d v).1.start.first = d.start.first ∧
    (push_front_aux_try bs false true d v).1.start.off = d.start.off ∧
    (push_front_aux_try bs false true d v).1.finish.first = d.finish.first ∧
    (push_front_aux_try bs false true d v).1.finish.off = d.finish.off ∧
    content bs (push_front_aux_try bs false true d v).1 = content bs d ∧
    (∀ h, ((push_front_aux_try bs false true d v).1.heap h).isSome = (d.heap h).isSome) ∧
    (push_front_aux_try bs false true d v).1.heap d.next = none := by
  obtain ⟨δ, hsh, hw1, hroom, _⟩ := reverse_map_at_front_spec bs d hw 1
  have heq : push_front_aux_try bs false true d v
      = (deallocate
          { store_new_node (reverse_map_at_front d 1) ((reverse_map_at_front d 1).start.node - 1) with
            start := (reverse_map_at_front d 1).start }
          (some (reverse_map_at_front d 1).next), Outcome.returned) := by
    have e0 : (reverse_map_at_front d 1).start.off = 0 := by rw [hsh.2.2.2.1, hoff]
    have e1 : (reverse_map_at_front d 1).start.node - 1 + 1 = (reverse_map_at_front d 1).start.node := by
      ring
    have e2 := hw1.start_ok.1
    simp only [push_front_aux_try, try_construct, Bool.false_eq_true, if_false, if_true,
      store_new_node, allocate_node, Iter.set_node, e1, sub_add_cancel]
    rw [upd_ne _ _ _ _ (by omega), upd_same, ← e2, ← e0]
  rw [heq]
  generalize reverse_map_at_front d 1 = d1 at hsh hw1 hroom ⊢
  obtain ⟨c1, c2, c3⟩ := content_release bs d1
    (deallocate { store_new_node d1 (d1.start.node - 1) with start := d1.start } (some d1.next))
    hw1 (d1.start.node - 1) (Or.inl (by omega)) (some (fun _ => none)) rfl rfl rfl rfl
  obtain ⟨a1, a2, a3, a4, a5, a6, a7, a8, a9⟩ := hsh
  have hle := hw.node_le
  refine ⟨rfl, ?_, a4, ?_, a7, ?_, ?_, ?_⟩
  · show d1.start.first = _
    rw [a5, a3, a9 _ (le_refl _) hle]
    exact hw.start_ok.1.symm
  · show d1.finish.first = _
    rw [a8, a6, a9 _ hle (le_refl _)]
    exact hw.finish_ok.1.symm
  · rw [c1]
    exact content_of_shifted hw ⟨a1, a2, a3, a4, a5, a6, a7, a8, a9⟩
  · intro h
    rw [c2, a1]
  · rw [← a2]
    exact c3

theorem erase_range_whole {α : Type} (bs : Nat) (d : Deque α) (hw : WF bs d) (n : Nat)
    (hn : Iter.diff bs d.finish d.start = (n : Int)) :
    (erase_range bs d (Iter.add bs d.map d.start (0 : Nat)) (Iter.add bs d.map d.start n)).1
      = clear bs d := by
  have hbs := hw.bs_pos
  rw [Iter.diff_eq_pos] at hn
  have e2 : Iter.pos bs d.start + (n : Int) = Iter.pos bs d.finish := by omega
  have h1 : Iter.eq (Iter.add bs d.map d.start ((0 : Nat) : Int)) d.start = true := by
    rw [Iter.add_eq_mk_at bs hbs _ _ hw.start_ok]
    conv_lhs => arg 2; rw [Iter.eq_mk_at bs hbs d.map d.start hw.start_ok]
    rw [Iter.eq_mk_at_iff bs d hw _ _ (by simpa using hw.inR_start) hw.inR_start]
    simp
  have h2 : Iter.eq (Iter.add bs d.map d.start (n : Int)) d.finish = true := by
    rw [Iter.add_eq_mk_at bs hbs _ _ hw.start_ok, e2]
    conv_lhs => arg 2; rw [Iter.eq_mk_at bs hbs d.map d.finish hw.finish_ok]
    rw [Iter.eq_mk_at_iff bs d hw _ _ hw.inR_finish hw.inR_finish]
  unfold erase_range
  rw [h1, h2]
  rfl

theorem wf_dealloc_range {α : Type} (bs : Nat) (d : Deque α) (hw : WF bs d) (k : Nat) (cur : Int)
    (hcur : d.start.node ≤ cur) (hk : cur + k ≤ d.finish.node + 1)
    (st fi : Iter) (hst : Iter.ok bs d.map st) (hfi : Iter.ok bs d.map fi)
    (hs0 : d.start.node ≤ st.node) (hf1 : fi.node ≤ d.finish.node)
    (hord : Iter.pos bs st ≤ Iter.pos bs fi)
    (hrange : ∀ i, d.start.node ≤ i → i ≤ d.finish.node →
      ((st.node ≤ i ∧ i ≤ fi.node) ↔ ¬ (cur ≤ i ∧ i < cur + k))) :
    WF bs { dealloc_nodes k d cur with start := st, finish := fi } := by
  obtain ⟨c1, c2, c3, c4, c5, c6, c7⟩ := dealloc_nodes_shape k d cur
  generalize dealloc_nodes k d cur = e at c1 c2 c3 c4 c5 c6 c7 ⊢
  have hkeep : ∀ i h, d.start.node ≤ i → i ≤ d.finish.node → ¬ (cur ≤ i ∧ i < cur + k) →
      d.map i = some h → e.heap h = d.heap h := by
    intro i h h1 h2 h3 hm
    apply c6
    intro i2 g1 g2 g3
    have := hw.inj i2 i h (by omega) (by omega) h1 h2 g3 hm
    omega
  constructor
  · exact hw.bs_pos
  · show 0 ≤ st.node
    have := hw.start_lo
    omega
  · show fi.node < (e.map_size : Int)
    rw [c4]
    have := hw.finish_hi
    omega
  · show Iter.ok bs e.map st
    rw [c1]; exact hst
  · show Iter.ok bs e.map fi
    rw [c1]; exact hfi
  · exact hord
  · intro i h1 h2
    have h1 : st.node ≤ i := h1
    have h2 : i ≤ fi.node := h2
    obtain ⟨h, hm, hs⟩ := hw.live i (by omega) (by omega)
    refine ⟨h, ?_, ?_⟩
    · show e.map i = some h
      rw [c1]; exact hm
    · show (e.heap h).isSome = true
      rw [hkeep i h (by omega) (by omega) ((hrange i (by omega) (by omega)).1 ⟨h1, h2⟩) hm]
      exact hs
  · intro i j h h1 h2 h3 h4 h5 h6
    have h1 : st.node ≤ i := h1
    have h2 : i ≤ fi.node := h2
    have h3 : st.node ≤ j := h3
    have h4 : j ≤ fi.node := h4
    have h5 : e.map i = some h := h5
    have h6 : e.map j = some h := h6
    rw [c1] at h5 h6
    exact hw.inj i j h (by omega) (by omega) (by omega) (by omega) h5 h6
  · intro h hh
    have hh : e.next ≤ h := hh
    show e.heap h = none
    by_cases hex : ∃ i, cur ≤ i ∧ i < cur + k ∧ d.map i = some h
    · exact c7 h hex
    · push_neg at hex
      rw [c6 h hex]
      exact hw.fresh h (by rw [← c5]; exact hh)
  · intro h hh
    have hh : (e.heap h).isSome = true := hh
    show ∃ i, st.node ≤ i ∧ i ≤ fi.node ∧ e.map i = some h
    by_cases hex : ∃ i, cur ≤ i ∧ i < cur + k ∧ d.map i = some h
    · rw [c7 h hex] at hh
      simp at hh
    · push_neg at hex
      rw [c6 h hex] at hh
      obtain ⟨i, g1, g2, g3⟩ := hw.owned h hh
      have hn : ¬ (cur ≤ i ∧ i < cur + k) := fun hc => hex i hc.1 hc.2 g3
      have := (hrange i g1 g2).2 hn
      exact ⟨i, this.1, this.2, by rw [c1]; exact g3⟩

theorem flat_deallocate_last {α : Type} (bs : Nat) (d : Deque α) (hw : WF bs d) (q : Int)
    (hq : InR bs d q) (hlt : q / (bs : Int) < d.finish.node) :
    flat bs (deallocate d d.finish.first) q = flat bs d q := by
  have := flat_dealloc_nodes bs d hw 1 d.finish.node hw.node_le (by push_cast; omega) q hq
    (Or.inl hlt)
  rw [← this, hw.finish_ok.1]
  rfl

theorem pop_back_spec {α : Type} (bs : Nat) (d : Deque α) (hw : WF bs d)
    (hne : 0 < Iter.diff bs d.finish d.start) :
    WF bs (pop_back bs d) ∧ content bs (pop_back bs d) = (content bs d).dropLast ∧
      Iter.diff bs (pop_back bs d).finish (pop_back bs d).start
        = Iter.diff bs d.finish d.start - 1 ∧
      (pop_back bs d).start = d.start ∧ (pop_back bs d).map = d.map ∧
      (pop_back bs d).map_size = d.map_size := by
  have hbs := hw.bs_pos
  have hb : (0 : Int) < bs := by exact_mod_cast hw.bs_pos
  obtain ⟨sf, s0, s1⟩ := hw.start_ok
  obtain ⟨ff, f0, f1⟩ := hw.finish_ok
  have hle := hw.node_le
  rw [Iter.diff_eq_pos] at hne
  have key : ∀ e : Deque α, Iter.ok bs e.map e.start → e.start = d.start →
      Iter.pos bs e.finish = Iter.pos bs d.finish - 1 →
      (∀ p, Iter.pos bs d.start ≤ p → p < Iter.pos bs d.finish - 1 → flat bs e p = flat bs d p) →
      content bs e = (content bs d).dropLast := by
    intro e hok hs hf hfl
    rw [content_eq_flat bs hbs e hok, content_eq_flat bs hbs d hw.start_ok, hs, hf,
      List.dropLast_eq_take, List.length_map, List.length_range, ← List.map_take,
      List.take_range]
    have : (Iter.pos bs d.finish - 1 - Iter.pos bs d.start).toNat
        = min ((Iter.pos bs d.finish - Iter.pos bs d.start).toNat - 1)
            (Iter.pos bs d.finish - Iter.pos bs d.start).toNat := by omega
    rw [← this]
    apply List.map_congr_left
    intro k hk
    rw [List.mem_range] at hk
    exact hfl _ (by omega) (by omega)
  unfold pop_back
  by_cases hc : d.finish.off ≠ 0
  · rw [if_pos hc]
    dsimp only
    have hw1 : WF bs { d with finish := { d.finish with off := d.finish.off - 1 } } :=
      hw.set_finish_off (d.finish.off - 1) ⟨by omega, by omega⟩ (by
        unfold Iter.pos at hne ⊢
        linarith)
    have hs2 := SameShape.destroy { d with finish := { d.finish with off := d.finish.off - 1 } }
      d.finish.first (d.finish.off - 1)
    have hw2 := hw1.of_sameShape hs2
    have hposf : Iter.pos bs (⟨d.finish.node, d.finish.first, d.finish.off - 1⟩ : Iter)
        = Iter.pos bs d.finish - 1 := by
      unfold Iter.pos
      show d.finish.node * (bs : Int) + (d.finish.off - 1) = _
      ring
    refine ⟨hw2, ?_, ?_, rfl, rfl, rfl⟩
    · apply key _ hw2.start_ok rfl hposf
      intro p h1 h2
      have := flat_assign_at bs d hw.core ⟨d.finish.node, d.finish.first, d.finish.off - 1⟩
        ⟨ff, by show 0 ≤ d.finish.off - 1; omega, by show d.finish.off - 1 < (bs : Int); omega⟩
        hle (le_refl _) none p (inR_of_between bs d hw p h1 (by omega))
      rw [hposf, if_neg (by omega)] at this
      exact this
    · rw [Iter.diff_eq_pos, Iter.diff_eq_pos]
      show Iter.pos bs (⟨d.finish.node, d.finish.first, d.finish.off - 1⟩ : Iter)
        - Iter.pos bs d.start = _
      rw [hposf]
      ring
  · rw [if_neg hc]
    push_neg at hc
    have hlt : d.start.node < d.finish.node := by
      unfold Iter.pos at hne
      rw [hc] at hne
      by_contra hge
      have : d.start.node = d.finish.node := by omega
      rw [this] at hne
      linarith
    have hfi : Iter.ok bs d.map ⟨d.finish.node - 1, d.map (d.finish.node - 1), (bs : Int) - 1⟩ :=
      ⟨rfl, by show (0 : Int) ≤ (bs : Int) - 1; omega, by show (bs : Int) - 1 < (bs : Int); omega⟩
    have hposf : Iter.pos bs (⟨d.finish.node - 1, d.map (d.finish.node - 1), (bs : Int) - 1⟩ : Iter)
        = Iter.pos bs d.finish - 1 := by
      unfold Iter.pos
      rw [hc]
      show (d.finish.node - 1) * (bs : Int) + ((bs : Int) - 1) = _
      ring
    have hw1 := wf_dealloc_range bs d hw 1 d.finish.node hle (by push_cast; omega) d.start
      ⟨d.finish.node - 1, d.map (d.finish.node - 1), (bs : Int) - 1⟩ hw.start_ok hfi (le_refl _)
      (by show d.finish.node - 1 ≤ d.finish.node; omega)
      (by rw [hposf]; omega)
      (by
        intro i h1 h2
        show (d.start.node ≤ i ∧ i ≤ d.finish.node - 1) ↔ _
        push_cast
        omega)
    have e1 : pop_back_aux bs d
        = destroy { dealloc_nodes 1 d d.finish.node with
            start := d.start,
            finish := ⟨d.finish.node - 1, d.map (d.finish.node - 1), (bs : Int) - 1⟩ }
          (d.map (d.finish.node - 1)) ((bs : Int) - 1) := by
      unfold pop_back_aux
      rw [ff]
      cases hm : d.map d.finish.node <;>
        simp [dealloc_nodes, deallocate, Iter.set_node, hm]
    rw [e1]
    have hs2 := SameShape.destroy { dealloc_nodes 1 d d.finish.node with
            start := d.start,
            finish := ⟨d.finish.node - 1, d.map (d.finish.node - 1), (bs : Int) - 1⟩ }
          (d.map (d.finish.node - 1)) ((bs : Int) - 1)
    have hw2 := hw1.of_sameShape hs2
    refine ⟨hw2, ?_, ?_, rfl, ?_, ?_⟩
    · apply key _ hw2.start_ok rfl hposf
      intro p h1 h2
      have hp := inR_of_between bs d hw p h1 (by omega)
      have hplt : p / (bs : Int) < d.finish.node := by
        have : p < d.finish.node * (bs : Int) := by
          unfold Iter.pos at h2
          rw [hc] at h2
          linarith
        have := Int.ediv_lt_of_lt_mul hb this
        exact this
      have hin1 : InR bs { dealloc_nodes 1 d d.finish.node with
            start := d.start,
            finish := ⟨d.finish.node - 1, d.map (d.finish.node - 1), (bs : Int) - 1⟩ } p :=
        ⟨hp.1, by show p / (bs : Int) ≤ d.finish.node - 1; omega⟩
      have := flat_assign_at bs _ hw1.core
        ⟨d.finish.node - 1, d.map (d.finish.node - 1), (bs : Int) - 1⟩ hw1.finish_ok
        hw1.node_le (le_refl _) none p hin1
      rw [hposf, if_neg (by omega)] at this
      rw [show destroy _ (d.map (d.finish.node - 1)) ((bs : Int) - 1)
        = assign _ (d.map (d.finish.node - 1)) ((bs : Int) - 1) none from rfl, this]
      exact flat_dealloc_nodes bs d hw 1 d.finish.node hle (by push_cast; omega) p hp
        (Or.inl hplt)
    · rw [Iter.diff_eq_pos, Iter.diff_eq_pos]
      show Iter.pos bs (⟨d.finish.node - 1, d.map (d.finish.node - 1), (bs : Int) - 1⟩ : Iter)
        - Iter.pos bs d.start = _
      rw [hposf]
      ring
    · exact (dealloc_nodes_shape 1 d d.finish.node).1
    · exact (dealloc_nodes_shape 1 d d.finish.node).2.2.2.1

theorem with_start_eq {α : Type} (e : Deque α) (st fi : Iter) (h : e.finish = fi) :
    ({ e with start := st } : Deque α) = { e with start := st, finish := fi } := by
  subst h
  rfl

theorem with_finish_eq {α : Type} (e : Deque α) (st fi : Iter) (h : e.start = st) :
    ({ e with finish := fi } : Deque α) = { e with start := st, finish := fi } := by
  subst h
  rfl

theorem erase_shift_front_wf {α : Type} (bs : Nat) (d : Deque α) (hw : WF bs d) (i j : Nat)
    (hij : i ≤ j) (hj : Iter.pos bs d.start + (j : Int) ≤ Iter.pos bs d.finish) :
    WF bs (erase_shift_front bs d (Iter.mk_at bs d.map (Iter.pos bs d.start + i))
      (Iter.mk_at bs d.map (Iter.pos bs d.start + j))).1 ∧
    (erase_shift_front bs d (Iter.mk_at bs d.map (Iter.pos bs d.start + i))
      (Iter.mk_at bs d.map (Iter.pos bs d.start + j))).1.map = d.map ∧
    (erase_shift_front bs d (Iter.mk_at bs d.map (Iter.pos bs d.start + i))
      (Iter.mk_at bs d.map (Iter.pos bs d.start + j))).1.map_size = d.map_size := by
  have hbs := hw.bs_pos
  have hb : (0 : Int) < bs := by exact_mod_cast hw.bs_pos
  have hord := hw.ordered
  unfold erase_shift_front
  dsimp only
  have en : Iter.diff bs (Iter.mk_at bs d.map (Iter.pos bs d.start + j))
      (Iter.mk_at bs d.map (Iter.pos bs d.start + i)) = (j : Int) - (i : Int) := by
    rw [Iter.diff_eq_pos, Iter.pos_mk_at bs hbs, Iter.pos_mk_at bs hbs]; ring
  have eb : Iter.diff bs (Iter.mk_at bs d.map (Iter.pos bs d.start + i)) d.start = (i : Int) := by
    rw [Iter.diff_eq_pos, Iter.pos_mk_at bs hbs]; ring
  rw [en]
  unfold copy_backward
  rw [eb, Int.toNat_ofNat]
  obtain ⟨a1, _⟩ := copy_backward_loop_spec bs i d hw (Iter.pos bs d.start + i)
    (Iter.pos bs d.start + j) (by omega)
    (fun q h1 h2 => inR_of_between bs d hw q (by omega) (by omega))
  generalize copy_backward_loop bs i d (Iter.mk_at bs d.map (Iter.pos bs d.start + i))
    (Iter.mk_at bs d.map (Iter.pos bs d.start + j)) = d1 at a1 ⊢
  have hw1 := hw.of_sameShape a1
  have m1 := a1.1
  have m2 := a1.2.1
  have ens : Iter.add bs d1.map d1.start ((j : Int) - (i : Int))
      = Iter.mk_at bs d1.map (Iter.pos bs d.start + ((j : Int) - (i : Int))) := by
    rw [Iter.add_eq_mk_at bs hbs _ _ hw1.start_ok, m2]
  rw [ens]
  have ed : (Iter.diff bs (Iter.mk_at bs d1.map (Iter.pos bs d.start + ((j : Int) - (i : Int))))
      d1.start).toNat = j - i := by
    rw [Iter.diff_eq_pos, Iter.pos_mk_at bs hbs, m2]
    omega
  rw [ed]
  have es : d1.start = Iter.mk_at bs d1.map (Iter.pos bs d.start) := by
    rw [← m2]; exact Iter.eq_mk_at bs hbs _ _ hw1.start_ok
  rw [es]
  obtain ⟨b1, _⟩ := destroy_iter_spec bs (j - i) d1 hw1 (Iter.pos bs d.start)
    (fun q h1 h2 => inR_of_sameShape a1 q
      (inR_of_between bs d hw q (by omega) (by omega)))
  generalize destroy_iter bs (j - i) d1 (Iter.mk_at bs d1.map (Iter.pos bs d.start)) = d2
    at b1 ⊢
  have hw2 := hw1.of_sameShape b1
  have hsh2 : SameShape d d2 := SameShape.trans a1 b1
  have n1 := b1.1
  have hS : InR bs d (Iter.pos bs d.start + ((j : Int) - (i : Int))) :=
    inR_of_between bs d hw _ (by omega) (by omega)
  have hnode : (Iter.mk_at bs d1.map (Iter.pos bs d.start + ((j : Int) - (i : Int)))).node
      = (Iter.pos bs d.start + ((j : Int) - (i : Int))) / (bs : Int) := rfl
  have hsn : d2.start.node = d.start.node := by rw [hsh2.2.1]
  have hfn : d2.finish.node = d.finish.node := by rw [hsh2.2.2.1]
  have hwd := wf_dealloc_range bs d2 hw2
    ((Iter.mk_at bs d1.map (Iter.pos bs d.start + ((j : Int) - (i : Int)))).node
      - d2.start.node).toNat d2.start.node (le_refl _)
    (by rw [hnode, hsn, hfn]; have := hS.1; have := hS.2; omega)
    (Iter.mk_at bs d1.map (Iter.pos bs d.start + ((j : Int) - (i : Int)))) d2.finish
    (by rw [n1]; exact Iter.ok_mk_at bs hbs _ _) hw2.finish_ok
    (by rw [hnode, hsn]; exact hS.1) (le_refl _)
    (by rw [Iter.pos_mk_at bs hbs, hsh2.2.2.1]; omega)
    (by
      intro t h1 h2
      rw [hnode, hsn]
      have := hS.1
      rw [hsn] at h1
      omega)
  obtain ⟨c1, c2, c3, c4, _⟩ := dealloc_nodes_shape
    ((Iter.mk_at bs d1.map (Iter.pos bs d.start + ((j : Int) - (i : Int)))).node
      - d2.start.node).toNat d2 d2.start.node
  rw [with_start_eq _ _ d2.finish c3]
  refine ⟨hwd, ?_, ?_⟩
  · show (dealloc_nodes _ d2 d2.start.node).map = _
    rw [c1, hsh2.1]
  · show (dealloc_nodes _ d2 d2.start.node).map_size = _
    rw [c4, hsh2.2.2.2.1]

theorem erase_shift_back_wf {α : Type} (bs : Nat) (d : Deque α) (hw : WF bs d) (i j : Nat)
    (hij : i ≤ j) (hj : Iter.pos bs d.start + (j : Int) ≤ Iter.pos bs d.finish) :
    WF bs (erase_shift_back bs d (Iter.mk_at bs d.map (Iter.pos bs d.start + i))
      (Iter.mk_at bs d.map (Iter.pos bs d.start + j))).1 ∧
    (erase_shift_back bs d (Iter.mk_at bs d.map (Iter.pos bs d.start + i))
      (Iter.mk_at bs d.map (Iter.pos bs d.start + j))).1.map = d.map ∧
    (erase_shift_back bs d (Iter.mk_at bs d.map (Iter.pos bs d.start + i))
      (Iter.mk_at bs d.map (Iter.pos bs d.start + j))).1.map_size = d.map_size := by
  have hbs := hw.bs_pos
  have hb : (0 : Int) < bs := by exact_mod_cast hw.bs_pos
  have hord := hw.ordered
  unfold erase_shift_back
  dsimp only
  have en : Iter.diff bs (Iter.mk_at bs d.map (Iter.pos bs d.start + j))
      (Iter.mk_at bs d.map (Iter.pos bs d.start + i)) = (j : Int) - (i : Int) := by
    rw [Iter.diff_eq_pos, Iter.pos_mk_at bs hbs, Iter.pos_mk_at bs hbs]; ring
  rw [en]
  unfold copy
  generalize hn : (Iter.diff bs d.finish (Iter.mk_at bs d.map (Iter.pos bs d.start + j))).toNat = n
  have hn2 : (n : Int) = Iter.pos bs d.finish - (Iter.pos bs d.start + j) := by
    rw [Iter.diff_eq_pos, Iter.pos_mk_at bs hbs] at hn
    omega
  obtain ⟨a1, _⟩ := copy_loop_spec bs n d hw (Iter.pos bs d.start + j)
    (Iter.pos bs d.start + i) (by omega)
    (fun q h1 h2 => inR_of_between bs d hw q (by omega) (by omega))
  generalize copy_loop bs n d (Iter.mk_at bs d.map (Iter.pos bs d.start + j))
    (Iter.mk_at bs d.map (Iter.pos bs d.start + i)) = d1 at a1 ⊢
  have hw1 := hw.of_sameShape a1
  have m3 := a1.2.2.1
  have enf : Iter.sub bs d1.map d1.finish ((j : Int) - (i : Int))
      = Iter.mk_at bs d1.map (Iter.pos bs d.finish - ((j : Int) - (i : Int))) := by
    rw [Iter.sub_eq_mk_at bs hbs _ _ hw1.finish_ok, m3]
  rw [enf]
  have ed : (Iter.diff bs d1.finish
      (Iter.mk_at bs d1.map (Iter.pos bs d.finish - ((j : Int) - (i : Int))))).toNat = j - i := by
    rw [Iter.diff_eq_pos, Iter.pos_mk_at bs hbs, m3]
    omega
  rw [ed]
  obtain ⟨b1, _⟩ := destroy_iter_spec bs (j - i) d1 hw1
    (Iter.pos bs d.finish - ((j : Int) - (i : Int)))
    (fun q h1 h2 => inR_of_sameShape a1 q
      (inR_of_between bs d hw q (by omega) (by omega)))
  generalize destroy_iter bs (j - i) d1
    (Iter.mk_at bs d1.map (Iter.pos bs d.finish - ((j : Int) - (i : Int)))) = d2 at b1 ⊢
  have hw2 := hw1.of_sameShape b1
  have hsh2 : SameShape d d2 := SameShape.trans a1 b1
  have n1 := b1.1
  have hF : InR bs d (Iter.pos bs d.finish - ((j : Int) - (i : Int))) :=
    inR_of_between bs d hw _ (by omega) (by omega)
  have hnode : (Iter.mk_at bs d1.map (Iter.pos bs d.finish - ((j : Int) - (i : Int)))).node
      = (Iter.pos bs d.finish - ((j : Int) - (i : Int))) / (bs : Int) := rfl
  have hsn : d2.start.node = d.start.node := by rw [hsh2.2.1]
  have hfn : d2.finish.node = d.finish.node := by rw [hsh2.2.2.1]
  have hwd := wf_dealloc_range bs d2 hw2
    (d2.finish.node
      - (Iter.mk_at bs d1.map (Iter.pos bs d.finish - ((j : Int) - (i : Int)))).node).toNat
    ((Iter.mk_at bs d1.map (Iter.pos bs d.finish - ((j : Int) - (i : Int)))).node + 1)
    (by rw [hnode, hsn]; have := hF.1; omega)
    (by rw [hnode, hfn]; have := hF.2; omega)
    d2.start (Iter.mk_at bs d1.map (Iter.pos bs d.finish - ((j : Int) - (i : Int))))
    hw2.start_ok (by rw [n1]; exact Iter.ok_mk_at bs hbs _ _)
    (le_refl _) (by rw [hnode, hfn]; exact hF.2)
    (by rw [Iter.pos_mk_at bs hbs, hsh2.2.1]; omega)
    (by
      intro t h1 h2
      rw [hnode, hfn]
      have := hF.2
      rw [hfn] at h2
      omega)
  obtain ⟨c1, c2, c3, c4, _⟩ := dealloc_nodes_shape
    (d2.finish.node
      - (Iter.mk_at bs d1.map (Iter.pos bs d.finish - ((j : Int) - (i : Int)))).node).toNat d2
    ((Iter.mk_at bs d1.map (Iter.pos bs d.finish - ((j : Int) - (i : Int)))).node + 1)
  rw [with_finish_eq _ d2.start _ c2]
  refine ⟨hwd, ?_, ?_⟩
  · show (dealloc_nodes _ d2 _).map = _
    rw [c1, hsh2.1]
  · show (dealloc_nodes _ d2 _).map_size = _
    rw [c4, hsh2.2.2.2.1]

theorem erase_range_wf {α : Type} (bs : Nat) (d : Deque α) (hw : WF bs d) (i j : Nat)
    (hij : i ≤ j) (hj : (j : Int) ≤ Iter.diff bs d.finish d.start) :
    WF bs (erase_range bs d (begin_add bs d i) (begin_add bs d j)).1 ∧
    (erase_range bs d (begin_add bs d i) (begin_add bs d j)).1.map = d.map ∧
    (erase_range bs d (begin_add bs d i) (begin_add bs d j)).1.map_size = d.map_size := by
  have hbs := hw.bs_pos
  rw [Iter.diff_eq_pos] at hj
  unfold begin_add
  rw [Iter.add_eq_mk_at bs hbs _ _ hw.start_ok, Iter.add_eq_mk_at bs hbs _ _ hw.start_ok]
  unfold erase_range
  split
  · obtain ⟨c1, c2, _⟩ := clear_shape bs d hw
    exact ⟨clear_wf bs d hw, c1, c2⟩
  · dsimp only
    split
    · exact erase_shift_front_wf bs d hw i j hij (by omega)
    · exact erase_shift_back_wf bs d hw i j hij (by omega)

theorem Reachable.wf {α : Type} {bs : Nat} (hbs : 0 < bs) {d : Deque α} (h : Reachable bs d) :
    WF bs d := by
  induction h with
  | ctor n value => exact WF.fill bs hbs n value
  | push_back d value _ ih => exact (push_back_spec bs d ih value).1
  | push_front d value _ ih => exact (push_front_spec bs d ih value).1
  | pop_back d _ hne ih => exact (pop_back_spec bs d ih hne).1
  | clear d _ ih => exact clear_wf bs d ih
  | erase_range d i j _ hij hj ih => exact (erase_range_wf bs d ih i j hij hj).1

theorem push_back_alloc {α : Type} (bs : Nat) (d : Deque α) (hw : WF bs d) (v : α) :
    (push_back bs d v).start.off = d.start.off ∧
    (d.finish.off ≠ (bs : Int) - 1 →
      (push_back bs d v).next = d.next ∧
      (∀ h, ((push_back bs d v).heap h).isSome = (d.heap h).isSome) ∧
      (push_back bs d v).finish.off = d.finish.off + 1 ∧
      (push_back bs d v).finish.node - (push_back bs d v).start.node
        = d.finish.node - d.start.node) ∧
    (d.finish.off = (bs : Int) - 1 →
      (push_back bs d v).next = d.next + 1 ∧
      (∀ h, ((push_back bs d v).heap h).isSome = true ↔ ((d.heap h).isSome = true ∨ h = d.next)) ∧
      (push_back bs d v).finish.off = 0 ∧
      (push_back bs d v).finish.node - (push_back bs d v).start.node
        = d.finish.node - d.start.node + 1) := by
  unfold push_back
  by_cases hc : d.finish.off ≠ (bs : Int) - 1
  · rw [if_pos hc]
    dsimp only
    refine ⟨rfl, fun _ => ⟨rfl, fun h => wr_isSome _ _ _ _ h, rfl, rfl⟩, fun h => absurd h hc⟩
  · rw [if_neg hc, push_back_aux_eq]
    push_neg at hc
    obtain ⟨δ, hsh, hw1, hroom, _⟩ := reverse_map_at_back_spec bs d hw 1
    generalize reverse_map_at_back d 1 = d1 at hsh hw1 hroom ⊢
    obtain ⟨a1, a2, a3, a4, a5, a6, a7, a8, a9⟩ := hsh
    refine ⟨a4, fun h => absurd hc h, fun _ => ⟨?_, ?_, rfl, ?_⟩⟩
    · show d1.next + 1 = _
      rw [a2]
    · intro h
      show (wr (upd d1.heap d1.next (some (fun _ => none))) d1.finish.first d1.finish.off (some v)
        h).isSome = true ↔ _
      rw [wr_isSome, a1, a2]
      by_cases hh : h = d.next
      · rw [hh, upd_same]
        simp
      · rw [upd_ne _ _ _ _ hh]
        simp [hh]
    · show d1.finish.node + 1 - d1.start.node = _
      rw [a3, a6]
      ring

theorem mod_div_succ (bs n : Nat) (hbs : 0 < bs) :
    (n % bs + 1 < bs → (n + 1) % bs = n % bs + 1 ∧ (n + 1) / bs = n / bs) ∧
    (n % bs + 1 = bs → (n + 1) % bs = 0 ∧ (n + 1) / bs = n / bs + 1) := by
  have h := Nat.div_add_mod n bs
  constructor
  · intro hlt
    have e : n + 1 = n % bs + 1 + bs * (n / bs) := by omega
    constructor
    · rw [e, Nat.add_mul_mod_self_left, Nat.mod_eq_of_lt hlt]
    · rw [e, Nat.add_mul_div_left _ _ hbs, Nat.div_eq_of_lt hlt]
      omega
  · intro heq
    have e : n + 1 = 0 + bs * (n / bs + 1) := by
      rw [Nat.mul_add]
      omega
    constructor
    · rw [e, Nat.add_mul_mod_self_left]
      exact Nat.zero_mod _
    · rw [e, Nat.add_mul_div_left _ _ hbs]
      simp

theorem fill_next {α : Type} (bs : Nat) (n : Nat) (v : α) :
    (Deque.fill bs n v).next = n / bs + 1 := by
  unfold Deque.fill fill_initialized
  dsimp only
  rw [uninitialized_fill_eq]
  have h1 := (assign_cells_sameShape
    (fill_nodes bs ((create_map_and_nodes bs (Deque.init α) n).finish.node
      - (create_map_and_nodes bs (Deque.init α) n).start.node).toNat
      (create_map_and_nodes bs (Deque.init α) n)
      (create_map_and_nodes bs (Deque.init α) n).start.node v).finish.off.toNat
    (fill_nodes bs ((create_map_and_nodes bs (Deque.init α) n).finish.node
      - (create_map_and_nodes bs (Deque.init α) n).start.node).toNat
      (create_map_and_nodes bs (Deque.init α) n)
      (create_map_and_nodes bs (Deque.init α) n).start.node v)
    (fill_nodes bs ((create_map_and_nodes bs (Deque.init α) n).finish.node
      - (create_map_and_nodes bs (Deque.init α) n).start.node).toNat
      (create_map_and_nodes bs (Deque.init α) n)
      (create_map_and_nodes bs (Deque.init α) n).start.node v).finish.first 0 (some v)).2.2.2.2.1
  rw [h1]
  have h2 : ∀ (k : Nat) (e : Deque α) (cur : Int), (fill_nodes bs k e cur v).next = e.next := by
    intro k
    induction k with
    | zero => intro e cur; rfl
    | succ k ih =>
      intro e cur
      rw [fill_nodes, ih, uninitialized_fill_eq]
      exact (assign_cells_sameShape bs e (e.map cur) 0 (some v)).2.2.2.2.1
  rw [h2]
  unfold create_map_and_nodes
  dsimp only
  rw [(alloc_nodes_spec _ _ _).2.2.2.1]
  show 0 + (n / bs + 1) = _
  omega

theorem pushed_back_blocks {α : Type} [Inhabited α] (bs : Nat) (hbs : 0 < bs) (l : List α) :
    WF bs (l.foldl (push_back bs) (Deque.new α bs)) ∧
    (l.foldl (push_back bs) (Deque.new α bs)).start.off = 0 ∧
    (l.foldl (push_back bs) (Deque.new α bs)).finish.off = ((l.length % bs : Nat) : Int) ∧
    (l.foldl (push_back bs) (Deque.new α bs)).finish.node
      - (l.foldl (push_back bs) (Deque.new α bs)).start.node = ((l.length / bs : Nat) : Int) ∧
    (l.foldl (push_back bs) (Deque.new α bs)).next = l.length / bs + 1 ∧
    (∀ h, ((l.foldl (push_back bs) (Deque.new α bs)).heap h).isSome = true
      ↔ h < l.length / bs + 1) := by
  induction l using List.reverseRecOn with
  | nil =>
    obtain ⟨c1, _, _, c4, c5, c6, c7⟩ := fill_initialized_spec bs hbs 0 (default : α)
    refine ⟨c1, c4, c5, ?_, fill_next bs 0 default, c7⟩
    show (Deque.fill bs 0 (default : α)).finish.node - (Deque.fill bs 0 (default : α)).start.node = _
    rw [c6, add_sub_cancel_left]
    rfl
  | append_singleton l v ih =>
    rw [List.foldl_append, List.foldl_cons, List.foldl_nil, List.length_append,
      List.length_singleton]
    obtain ⟨i1, i2, i3, i4, i5, i6⟩ := ih
    generalize l.foldl (push_back bs) (Deque.new α bs) = d at i1 i2 i3 i4 i5 i6 ⊢
    obtain ⟨p1, p2, p3⟩ := push_back_alloc bs d i1 v
    have hw2 := (push_back_spec bs d i1 v).1
    obtain ⟨m1, m2⟩ := mod_div_succ bs l.length hbs
    have hmod : l.length % bs < bs := Nat.mod_lt _ hbs
    by_cases hc : l.length % bs + 1 < bs
    · obtain ⟨e1, e2⟩ := m1 hc
      obtain ⟨q1, q2, q3, q4⟩ := p2 (by rw [i3]; omega)
      refine ⟨hw2, by rw [p1, i2], ?_, ?_, ?_, ?_⟩
      · rw [q3, i3, e1]
        push_cast
        ring
      · rw [q4, i4, e2]
      · rw [q1, i5, e2]
      · intro h
        rw [q2, i6, e2]
    · have heq : l.length % bs + 1 = bs := by omega
      obtain ⟨e1, e2⟩ := m2 heq
      obtain ⟨q1, q2, q3, q4⟩ := p3 (by rw [i3]; omega)
      refine ⟨hw2, by rw [p1, i2], ?_, ?_, ?_, ?_⟩
      · rw [q3, e1]
        rfl
      · rw [q4, i4, e2]
        push_cast
        ring
      · rw [q1, i5, e2]
      · intro h
        rw [q2, i6, i5, e2]
        omega

theorem Iter.add_irrel_first (bs : Nat) (map : Int → Option Nat) (it : Iter) (p : Option Nat) (n : Int) :
    (Iter.add bs map it n).node = (Iter.add bs map ⟨it.node, p, it.off⟩ n).node ∧
    (Iter.add bs map it n).off = (Iter.add bs map ⟨it.node, p, it.off⟩ n).off := by
  unfold Iter.add
  dsimp only
  split <;> exact ⟨rfl, rfl⟩

theorem Iter.add_node_off (bs : Nat) (hbs : 0 < bs) (map : Int → Option Nat) (it : Iter)
    (h0 : 0 ≤ it.off) (h1 : it.off < (bs : Int)) (n : Int) :
    (Iter.add bs map it n).node = (Iter.pos bs it + n) / (bs : Int) ∧
    (Iter.add bs map it n).off = (Iter.pos bs it + n) % (bs : Int) := by
  obtain ⟨e1, e2⟩ := Iter.add_irrel_first bs map it (map it.node) n
  have hok : Iter.ok bs map ⟨it.node, map it.node, it.off⟩ := ⟨rfl, h0, h1⟩
  rw [e1, e2, Iter.add_eq_mk_at bs hbs map _ hok]
  exact ⟨rfl, rfl⟩

theorem reallocate_map_bounds {α : Type} (d : Deque α) (k : Nat) (front : Bool)
    (h0 : 0 ≤ d.start.node) (hle : d.start.node ≤ d.finish.node)
    (h1 : d.finish.node < (d.map_size : Int)) :
    0 ≤ (reallocate_map d k front).start.node ∧
    (reallocate_map d k front).finish.node - (reallocate_map d k front).start.node
      = d.finish.node - d.start.node ∧
    (reallocate_map d k front).finish.node < ((reallocate_map d k front).map_size : Int) ∧
    (front = true → (k : Int) ≤ (reallocate_map d k front).start.node) ∧
    (front = false →
      (reallocate_map d k front).finish.node + k < ((reallocate_map d k front).map_size : Int)) ∧
    (((reallocate_map d k front).map_size : Int)
        - (d.finish.node - d.start.node + 1 + (k : Int))) / 2
      = (reallocate_map d k front).start.node - (if front = true then (k : Int) else 0) ∧
    ((reallocate_map d k front).map_size = d.map_size
      ↔ (d.map_size : Int) > 2 * (d.finish.node - d.start.node + 1 + (k : Int))) ∧
    (¬ (d.map_size : Int) > 2 * (d.finish.node - d.start.node + 1 + (k : Int)) →
      (reallocate_map d k front).map_size = d.map_size + max d.map_size k + 2) := by
  unfold reallocate_map
  dsimp only
  have hmax1 : d.map_size ≤ max d.map_size k := le_max_left _ _
  have hmax2 : k ≤ max d.map_size k := le_max_right _ _
  by_cases hc : (d.map_size : Int) > 2 * (d.finish.node - d.start.node + 1 + (k : Int))
  · rw [if_pos hc]
    simp only [Iter.set_node]
    refine ⟨?_, ?_, ?_, ?_, ?_, ?_, ?_, ?_⟩
    · split <;> omega
    · ring
    · split <;> omega
    · intro hf
      simp only [hf, if_true]
      omega
    · intro hf
      simp only [hf, Bool.false_eq_true, if_false]
      omega
    · ring
    · exact ⟨fun _ => hc, fun _ => trivial⟩
    · intro hn
      exact absurd hc hn
  · rw [if_neg hc]
    simp only [Iter.set_node]
    refine ⟨?_, ?_, ?_, ?_, ?_, ?_, ?_, ?_⟩
    · split <;> omega
    · ring
    · split <;> push_cast <;> omega
    · intro hf
      simp only [hf, if_true]
      omega
    · intro hf
      simp only [hf, Bool.false_eq_true, if_false]
      push_cast
      omega
    · ring
    · constructor
      · intro h
        omega
      · intro h
        exact absurd h hc
    · intro _
      trivial

theorem fill_sameShape {α : Type} (bs : Nat) (n : Nat) (v : α) :
    SameShape (create_map_and_nodes bs (Deque.init α) n) (Deque.fill bs n v) := by
  have h2 : ∀ (k : Nat) (e : Deque α) (cur : Int), SameShape e (fill_nodes bs k e cur v) := by
    intro k
    induction k with
    | zero => intro e cur; exact sameShape_refl _
    | succ k ih =>
      intro e cur
      rw [fill_nodes, uninitialized_fill_eq]
      exact (assign_cells_sameShape bs e (e.map cur) 0 (some v)).trans (ih _ _)
  unfold Deque.fill fill_initialized
  dsimp only
  rw [uninitialized_fill_eq]
  exact (h2 _ _ _).trans (assign_cells_sameShape _ _ _ _ _)

theorem fill_layout {α : Type} (bs : Nat) (hbs : 0 < bs) (n : Nat) (v : α) :
    (Deque.fill bs n v).start.node
      = (((max initial_map_size (n / bs + 1 + 2) - (n / bs + 1)) / 2 : Nat) : Int) ∧
    (Deque.fill bs n v).finish.node = (Deque.fill bs n v).start.node + ((n / bs : Nat) : Int) ∧
    (Deque.fill bs n v).map_size = max initial_map_size (n / bs + 1 + 2) := by
  obtain ⟨_, _, _, c4, c5, c6, _⟩ := @create_map_and_nodes_wf α bs hbs n
  obtain ⟨_, s2, s3, s4, _⟩ := fill_sameShape bs n v
  rw [s2, s3, s4]
  exact ⟨c5, c4, c6⟩

theorem clear_cursors {α : Type} (bs : Nat) (d : Deque α) :
    (clear bs d).start = d.start ∧ (clear bs d).finish = d.start := by
  unfold clear
  dsimp only
  obtain ⟨c1, c2, c3, c4, c5, c6⟩ := clear_nodes_shape bs (d.finish.node - (d.start.node + 1)).toNat d
    (d.start.node + 1)
  generalize clear_nodes bs (d.finish.node - (d.start.node + 1)).toNat d (d.start.node + 1) = d1
    at c1 c2 c3 c4 c5 c6 ⊢
  have key : (if d1.start.node ≠ d1.finish.node then
        deallocate
          (destroy_ptr
            (destroy_ptr ((bs : Int) - d1.start.off).toNat d1 d1.start.first d1.start.off).finish.off.toNat
            (destroy_ptr ((bs : Int) - d1.start.off).toNat d1 d1.start.first d1.start.off)
            (destroy_ptr ((bs : Int) - d1.start.off).toNat d1 d1.start.first d1.start.off).finish.first 0)
          (destroy_ptr
            (destroy_ptr ((bs : Int) - d1.start.off).toNat d1 d1.start.first d1.start.off).finish.off.toNat
            (destroy_ptr ((bs : Int) - d1.start.off).toNat d1 d1.start.first d1.start.off)
            (destroy_ptr ((bs : Int) - d1.start.off).toNat d1 d1.start.first d1.start.off).finish.first
            0).finish.first
      else destroy_ptr (d1.finish.off - d1.start.off).toNat d1 d1.start.first d1.start.off).start
      = d.start := by
    split
    · rw [(deallocate_shape _ _).2.1, destroy_ptr_eq, (assign_cells_sameShape _ _ _ _ _).2.1,
        destroy_ptr_eq, (assign_cells_sameShape _ _ _ _ _).2.1, c2]
    · rw [destroy_ptr_eq, (assign_cells_sameShape _ _ _ _ _).2.1, c2]
  exact ⟨key, key⟩

theorem Iter.node_eq_ediv (bs : Nat) (hbs : 0 < bs) (map : Int → Option Nat) (it : Iter)
    (h : Iter.ok bs map it) : it.node = Iter.pos bs it / (bs : Int) := by
  have hb : (0 : Int) < bs := by exact_mod_cast hbs
  exact (ediv_emod_of_parts bs hb it.node it.off h.2.1 h.2.2).1.symm

theorem erase_range_pos {α : Type} (bs : Nat) (d : Deque α) (hw : WF bs d) (i j : Nat)
    (hij : i ≤ j) (hj : (j : Int) ≤ Iter.diff bs d.finish d.start) :
    Iter.pos bs d.start ≤ Iter.pos bs (erase_range bs d (begin_add bs d i) (begin_add bs d j)).1.start ∧
    Iter.pos bs (erase_range bs d (begin_add bs d i) (begin_add bs d j)).1.finish
      ≤ Iter.pos bs d.finish := by
  have hbs := hw.bs_pos
  have hord := hw.ordered
  rw [Iter.diff_eq_pos] at hj
  unfold begin_add
  rw [Iter.add_eq_mk_at bs hbs _ _ hw.start_ok, Iter.add_eq_mk_at bs hbs _ _ hw.start_ok]
  unfold erase_range
  split
  · obtain ⟨c1, c2⟩ := clear_cursors bs d
    dsimp only
    rw [c1, c2]
    exact ⟨le_refl _, hord⟩
  · dsimp only
    split
    · obtain ⟨_, p2, p3, _⟩ := erase_shift_front_spec bs d hw i j hij (by omega)
      rw [p2, p3]
      omega
    · obtain ⟨_, p2, p3, _⟩ := erase_shift_back_spec bs d hw i j hij (by omega)
      rw [p2, p3]
      omega

theorem erase_range_nodes {α : Type} (bs : Nat) (d : Deque α) (hw : WF bs d) (i j : Nat)
    (hij : i ≤ j) (hj : (j : Int) ≤ Iter.diff bs d.finish d.start) :
    d.start.node ≤ (erase_range bs d (begin_add bs d i) (begin_add bs d j)).1.start.node ∧
    (erase_range bs d (begin_add bs d i) (begin_add bs d j)).1.finish.node ≤ d.finish.node := by
  have hb : (0 : Int) < bs := by exact_mod_cast hw.bs_pos
  obtain ⟨p1, p2⟩ := erase_range_pos bs d hw i j hij hj
  obtain ⟨w, _, _⟩ := erase_range_wf bs d hw i j hij hj
  rw [Iter.node_eq_ediv bs hw.bs_pos _ _ hw.start_ok, Iter.node_eq_ediv bs hw.bs_pos _ _ hw.finish_ok,
    Iter.node_eq_ediv bs hw.bs_pos _ _ w.start_ok, Iter.node_eq_ediv bs hw.bs_pos _ _ w.finish_ok]
  exact ⟨ediv_mono_pos bs hb _ _ p1, ediv_mono_pos bs hb _ _ p2⟩

theorem push_back_keeps {α : Type} (bs : Nat) (d : Deque α) (hw : WF bs d) (v : α) (h : Nat)
    (hs : (d.heap h).isSome = true) : ((push_back bs d v).heap h).isSome = true := by
  obtain ⟨_, p2, p3⟩ := push_back_alloc bs d hw v
  by_cases hc : d.finish.off ≠ (bs : Int) - 1
  · rw [(p2 hc).2.1]
    exact hs
  · push_neg at hc
    exact ((p3 hc).2.1 h).2 (Or.inl hs)

theorem push_front_keeps {α : Type} (bs : Nat) (d : Deque α) (hw : WF bs d) (v : α) (h : Nat)
    (hs : (d.heap h).isSome = true) : ((push_front bs d v).heap h).isSome = true := by
  unfold push_front
  by_cases hc : d.start.off ≠ 0
  · rw [if_pos hc]
    show (wr d.heap d.start.first (d.start.off - 1) (some v) h).isSome = true
    rw [wr_isSome]
    exact hs
  · rw [if_neg hc, push_front_aux_eq]
    obtain ⟨δ, hsh, hw1, hroom, _⟩ := reverse_map_at_front_spec bs d hw 1
    generalize reverse_map_at_front d 1 = d1 at hsh hw1 hroom ⊢
    show (wr (upd d1.heap d1.next (some (fun _ => none))) (some d1.next) ((bs : Int) - 1) (some v)
      h).isSome = true
    rw [wr_isSome, hsh.1, hsh.2.1]
    have := hw.handle_lt h hs
    rw [upd_ne _ _ _ _ (by omega)]
    exact hs

theorem copy_loop_sameShape {α : Type} (bs : Nat) (n : Nat) (d : Deque α) (a b : Iter) :
    SameShape d (copy_loop bs n d a b) := by
  induction n generalizing d a b with
  | zero => exact sameShape_refl _
  | succ n ih => exact (SameShape.assign d _ _ _).trans (ih _ _ _)

theorem copy_backward_loop_sameShape {α : Type} (bs : Nat) (n : Nat) (d : Deque α) (a b : Iter) :
    SameShape d (copy_backward_loop bs n d a b) := by
  induction n generalizing d a b with
  | zero => exact sameShape_refl _
  | succ n ih => exact (SameShape.assign d _ _ _).trans (ih _ _ _)

theorem empty_eq_false {α : Type} (bs : Nat) (d : Deque α) (hw : WF bs d)
    (hne : 0 < Iter.diff bs d.finish d.start) : empty d = false := by
  rw [Iter.diff_eq_pos] at hne
  unfold empty
  cases hc : Iter.eq d.finish d.start with
  | false => rfl
  | true =>
    exfalso
    rw [Iter.eq_mk_at bs hw.bs_pos d.map d.finish hw.finish_ok] at hc
    rw [Iter.eq_mk_at bs hw.bs_pos d.map d.start hw.start_ok] at hc
    have := (Iter.eq_mk_at_iff bs d hw _ _ hw.inR_finish hw.inR_start).1 hc
    omega

theorem front_push_front {α : Type} (bs : Nat) (d : Deque α) (hw : WF bs d) (v : α) :
    front (push_front bs d v) = some v := by
  obtain ⟨f1, f2, _⟩ := push_front_spec bs d hw v
  rw [front_eq_index bs _ f1]
  have := index_of_content bs _ f1 _ f2 0 (by simp)
  simpa using this

theorem back_push_back {α : Type} (bs : Nat) (d : Deque α) (hw : WF bs d) (v : α) :
    back bs (push_back bs d v) = some v := by
  obtain ⟨b1, b2, b3⟩ := push_back_spec bs d hw v
  have hd := diff_of_content bs d hw _ rfl
  rw [back_eq_index bs _ b1 (content bs d).length (by rw [b3, hd])]
  have := index_of_content bs _ b1 _ b2 (content bs d).length (by simp)
  rw [List.getElem?_append_right (le_refl _)] at this
  simpa using this

theorem front_of_content {α : Type} (bs : Nat) (d : Deque α) (hw : WF bs d) (xs : List α)
    (hc : content bs d = xs.map some) (hne : 0 < xs.length) : front d = xs[0]? := by
  rw [front_eq_index bs d hw]
  have := index_of_content bs d hw _ hc 0 (by rw [List.length_map]; exact hne)
  rw [List.getElem?_map] at this
  rw [List.getElem?_eq_getElem hne] at this ⊢
  simpa using this

theorem back_of_content {α : Type} (bs : Nat) (d : Deque α) (hw : WF bs d) (xs : List α)
    (hc : content bs d = xs.map some) (hne : 0 < xs.length) :
    back bs d = xs[xs.length - 1]? := by
  have hd := diff_of_content bs d hw _ hc
  rw [List.length_map] at hd
  rw [back_eq_index bs d hw (xs.length - 1) (by rw [hd]; omega)]
  have hlt : xs.length - 1 < xs.length := by omega
  have := index_of_content bs d hw _ hc (xs.length - 1) (by rw [List.length_map]; exact hlt)
  rw [List.getElem?_map] at this
  rw [List.getElem?_eq_getElem hlt] at this ⊢
  simpa using this

theorem insert_spec {α : Type} (bs : Nat) (d : Deque α) (xs : List α) (i : Nat) (v : α)
    (hw : WF bs d) (hc : content bs d = xs.map some) (hi : i ≤ xs.length) :
    Iter.diff bs (insert bs d (begin_add bs d i) v).1.finish
        (insert bs d (begin_add bs d i) v).1.start = Iter.diff bs d.finish d.start + 1 ∧
    deref (insert bs d (begin_add bs d i) v).1 (insert bs d (begin_add bs d i) v).2 = some v := by
  have hbs := hw.bs_pos
  have hd := diff_of_content bs d hw _ hc
  rw [List.length_map] at hd
  have hd2 := hd
  rw [Iter.diff_eq_pos] at hd2
  unfold begin_add
  rw [Iter.add_eq_mk_at bs hbs _ _ hw.start_ok]
  have hpin : InR bs d (Iter.pos bs d.start + (i : Int)) :=
    inR_of_between bs d hw _ (by omega) (by omega)
  unfold insert
  split
  · dsimp only
    exact ⟨(push_front_spec bs d hw v).2.2, front_push_front bs d hw v⟩
  · split
    · dsimp only
      exact ⟨(push_back_spec bs d hw v).2.2, back_push_back bs d hw v⟩
    · rename_i hn1 hn2
      have hi0 : i ≠ 0 := by
        intro h0
        apply hn1
        rw [h0]
        simp only [Nat.cast_zero, add_zero]
        rw [← Iter.eq_mk_at bs hbs d.map d.start hw.start_ok]
        exact ⟨rfl, rfl⟩
      have hlen : 0 < xs.length := by omega
      have eb : Iter.diff bs (Iter.mk_at bs d.map (Iter.pos bs d.start + i)) d.start = (i : Int) := by
        rw [Iter.diff_eq_pos, Iter.pos_mk_at bs hbs]; ring
      unfold insert_aux
      rw [eb]
      dsimp only
      split
      · have hfr := front_of_content bs d hw xs hc hlen
        rw [List.getElem?_eq_getElem hlen] at hfr
        simp only [hfr]
        obtain ⟨w1, _, w3⟩ := push_front_spec bs d hw xs[0]
        have hk := push_front_keeps bs d hw xs[0]
        generalize push_front bs d xs[0] = d1 at w1 w3 hk ⊢
        unfold copy
        have hs := copy_loop_sameShape bs
          (Iter.diff bs (Iter.add bs d1.map (Iter.add bs d1.map d1.start (i : Int)) 1)
            (Iter.add bs d1.map (Iter.add bs d1.map d1.start 1) 1)).toNat d1
          (Iter.add bs d1.map (Iter.add bs d1.map d1.start 1) 1)
          (Iter.add bs d1.map d1.start 1)
        generalize copy_loop bs _ d1 _ _ = d2 at hs ⊢
        obtain ⟨_, s2, s3, _, _, s6⟩ := hs
        refine ⟨?_, ?_⟩
        · show Iter.diff bs d2.finish d2.start = _
          rw [s2, s3, w3]
        · obtain ⟨h, hm, hsome⟩ := hw.live _ hpin.1 hpin.2
          show rd (wr d2.heap (d.map ((Iter.pos bs d.start + (i : Int)) / (bs : Int)))
            ((Iter.pos bs d.start + (i : Int)) % (bs : Int)) (some v))
            (d.map ((Iter.pos bs d.start + (i : Int)) / (bs : Int)))
            ((Iter.pos bs d.start + (i : Int)) % (bs : Int)) = some v
          rw [hm]
          exact rd_wr_same _ _ _ _ (by rw [s6]; exact hk h hsome)
      · have hbk := back_of_content bs d hw xs hc hlen
        have hlast : xs.length - 1 < xs.length := by omega
        rw [List.getElem?_eq_getElem hlast] at hbk
        simp only [hbk]
        obtain ⟨w1, _, w3⟩ := push_back_spec bs d hw xs[xs.length - 1]
        generalize push_back bs d xs[xs.length - 1] = d1 at w1 w3 ⊢
        rw [Iter.add_eq_mk_at bs hbs _ _ w1.start_ok]
        unfold copy_backward
        have hs := copy_backward_loop_sameShape bs
          (Iter.diff bs (Iter.sub bs d1.map (Iter.sub bs d1.map d1.finish 1) 1)
            (Iter.mk_at bs d1.map (Iter.pos bs d1.start + (i : Int)))).toNat d1
          (Iter.sub bs d1.map (Iter.sub bs d1.map d1.finish 1) 1)
          (Iter.sub bs d1.map d1.finish 1)
        generalize copy_backward_loop bs _ d1 _ _ = d2 at hs ⊢
        obtain ⟨_, s2, s3, _, _, s6⟩ := hs
        have w4 := w3
        rw [Iter.diff_eq_pos, hd] at w4
        have hpin1 : InR bs d1 (Iter.pos bs d1.start + (i : Int)) :=
          inR_of_between bs d1 w1 _ (by omega) (by omega)
        refine ⟨?_, ?_⟩
        · show Iter.diff bs d2.finish d2.start = _
          rw [s2, s3, w3]
        · obtain ⟨h, hm, hsome⟩ := w1.live _ hpin1.1 hpin1.2
          show rd (wr d2.heap (d1.map ((Iter.pos bs d1.start + (i : Int)) / (bs : Int)))
            ((Iter.pos bs d1.start + (i : Int)) % (bs : Int)) (some v))
            (d1.map ((Iter.pos bs d1.start + (i : Int)) / (bs : Int)))
            ((Iter.pos bs d1.start + (i : Int)) % (bs : Int)) = some v
          rw [hm]
          exact rd_wr_same _ _ _ _ (by rw [s6]; exact hsome)

/-! ## The claims -/

/-- C1 (code at the failing input): on a fresh `deque<int>` (buffer_size 128),
`push_front(1)` followed by `pop_front()` leaves `size()` at 2^64 - 128, where one
push and one pop should leave 0: `pop_front_aux` moves `start` to
`finish.node + 1` instead of `start.node + 1`. -/
theorem pop_front_block_boundary_size :
    size 128 (pop_front 128 (push_front 128 (Deque.new Nat 128) 1)) = 2 ^ 64 - 128 := by
  decide

/-- C2: on a well-formed deque whose content is `xs`, `push_back(v)` leaves the
content `xs ++ [v]` with `back() == v`, `push_front(v)` leaves `v :: xs` with
`front() == v`, each grows `size()` by one and keeps the deque well-formed; the
statement covers the fast path and the slow path, with or without recentring or
reallocation of the map. -/
theorem push_back_push_front_content {α : Type} (bs : Nat) (d : Deque α) (xs : List α) (v : α)
    (hw : WF bs d) (hc : content bs d = xs.map some) (hfit : xs.length + 1 < 2 ^ 64) :
    (WF bs (push_back bs d v) ∧ content bs (push_back bs d v) = (xs ++ [v]).map some ∧
      back bs (push_back bs d v) = some v ∧ size bs (push_back bs d v) = size bs d + 1) ∧
    (WF bs (push_front bs d v) ∧ content bs (push_front bs d v) = (v :: xs).map some ∧
      front (push_front bs d v) = some v ∧ size bs (push_front bs d v) = size bs d + 1) := by
  obtain ⟨b1, b2, b3⟩ := push_back_spec bs d hw v
  obtain ⟨f1, f2, f3⟩ := push_front_spec bs d hw v
  have hd := diff_of_content bs d hw _ hc
  rw [List.length_map] at hd
  have hs : size bs d = xs.length := by
    rw [size_of_content bs d hw _ hc (by rw [List.length_map]; omega), List.length_map]
  have hb2 : content bs (push_back bs d v) = (xs ++ [v]).map some := by
    rw [b2, hc, List.map_append]
    rfl
  have hf2 : content bs (push_front bs d v) = (v :: xs).map some := by
    rw [f2, hc]
    rfl
  refine ⟨⟨b1, hb2, ?_, ?_⟩, ⟨f1, hf2, ?_, ?_⟩⟩
  · rw [back_eq_index bs _ b1 xs.length (by rw [b3, hd])]
    have := index_of_content bs _ b1 _ hb2 xs.length (by simp)
    rw [List.getElem?_map, List.getElem?_append_right (le_refl _)] at this
    simpa using this
  · rw [size_of_content bs _ b1 _ hb2 (by simp; omega), hs]
    simp
  · rw [front_eq_index bs _ f1]
    have := index_of_content bs _ f1 _ hf2 0 (by simp)
    simpa using this
  · rw [size_of_content bs _ f1 _ hf2 (by simp; omega), hs]
    simp

/-- C2 witness: a seven-element deque with one-element blocks whose last block
sits in the last map slot, so that `push_back` takes the slow path and
reallocates the map (from 9 to 20 slots). -/
theorem push_back_push_front_content_witness :
    WF 1 (push_back 1 (Deque.fill 1 6 (0 : Nat)) 0) ∧
    content 1 (push_back 1 (Deque.fill 1 6 (0 : Nat)) 0) = [0, 0, 0, 0, 0, 0, 0].map some ∧
    (push_back 1 (Deque.fill 1 6 (0 : Nat)) 0).map_size = 9 ∧
    (push_back 1 (push_back 1 (Deque.fill 1 6 (0 : Nat)) 0) 9).map_size = 20 ∧
    content 1 (push_back 1 (push_back 1 (Deque.fill 1 6 (0 : Nat)) 0) 9)
      = ([0, 0, 0, 0, 0, 0, 0] ++ [9]).map some ∧
    content 1 (push_front 1 (push_back 1 (Deque.fill 1 6 (0 : Nat)) 0) 9)
      = (9 :: [0, 0, 0, 0, 0, 0, 0]).map some :=
  ⟨(push_back_spec 1 _ (WF.fill 1 (by decide) 6 0) 0).1, by decide, by decide, by decide,
    (push_back_push_front_content 1 (push_back 1 (Deque.fill 1 6 (0 : Nat)) 0)
      [0, 0, 0, 0, 0, 0, 0] 9 (push_back_spec 1 _ (WF.fill 1 (by decide) 6 0) 0).1
      (by decide) (by decide)).1.2.1,
    (push_back_push_front_content 1 (push_back 1 (Deque.fill 1 6 (0 : Nat)) 0)
      [0, 0, 0, 0, 0, 0, 0] 9 (push_back_spec 1 _ (WF.fill 1 (by decide) 6 0) 0).1
      (by decide) (by decide)).2.2.1⟩

/-- C3 (code at the failing input): on the deque `[0,1,2,3]` built by four
`push_back` calls, `erase(begin() + 1)` leaves `[1,2,3]` where the claim says
`[0,2,3]`: in the front half the code calls `copy_backward(start, pos, pos)`,
which moves nothing, and then pops the first element. -/
theorem erase_second_of_four :
    content 128 (pushed_back 128 [0, 1, 2, 3]) = [some 0, some 1, some 2, some 3] ∧
    content 128 (erase 128 (pushed_back 128 [0, 1, 2, 3])
      (begin_add 128 (pushed_back 128 [0, 1, 2, 3]) 1)).1 = [some 1, some 2, some 3] := by
  decide

/-- C4: on a well-formed deque with content `xs` and indices `i <= j <= size()`,
`erase(begin() + i, begin() + j)` leaves the content `take i xs ++ drop j xs`,
reduces `size()` by `j - i` and returns the iterator `begin() + i` of the new
deque; for `i = 0`, `j = size()` the resulting state is that of `clear()`. -/
theorem erase_range_content {α : Type} (bs : Nat) (d : Deque α) (xs : List α) (i j : Nat)
    (hw : WF bs d) (hc : content bs d = xs.map some) (hij : i ≤ j) (hj : j ≤ xs.length)
    (hfit : xs.length < 2 ^ 64) :
    content bs (erase_range bs d (begin_add bs d i) (begin_add bs d j)).1
      = (xs.take i ++ xs.drop j).map some ∧
    size bs (erase_range bs d (begin_add bs d i) (begin_add bs d j)).1 = size bs d - (j - i) ∧
    (erase_range bs d (begin_add bs d i) (begin_add bs d j)).2
      = begin_add bs (erase_range bs d (begin_add bs d i) (begin_add bs d j)).1 i ∧
    Iter.diff bs (erase_range bs d (begin_add bs d i) (begin_add bs d j)).2
      (erase_range bs d (begin_add bs d i) (begin_add bs d j)).1.start = (i : Int) ∧
    (i = 0 → j = xs.length →
      (erase_range bs d (begin_add bs d i) (begin_add bs d j)).1 = clear bs d) := by
  have hd := diff_of_content bs d hw _ hc
  rw [List.length_map] at hd
  have hs : size bs d = xs.length := by
    rw [size_of_content bs d hw _ hc (by rw [List.length_map]; omega), List.length_map]
  have hd2 := hd
  rw [Iter.diff_eq_pos] at hd2
  obtain ⟨e1, e2, e3, e4⟩ := erase_range_spec bs d hw i j hij (by omega)
  unfold begin_add
  refine ⟨?_, ?_, ?_, ?_, ?_⟩
  · rw [e1, hc, List.map_append, List.map_take, List.map_drop]
  · unfold size
    rw [e2, hd, to_size_t_of_lt _ (by omega) (by omega), to_size_t_of_lt _ (by omega) (by omega)]
    omega
  · rw [e4, Iter.add_eq_mk_at bs hw.bs_pos _ _ e3]
  · rw [e4, Iter.diff_eq_pos, Iter.pos_mk_at bs hw.bs_pos]
    ring
  · intro hi hjl
    subst hi
    subst hjl
    exact erase_range_whole bs d hw xs.length hd

/-- C4 witness: the middle range `[1, 3)` of a five-element deque spread over
three blocks of two. -/
theorem erase_range_content_witness :
    WF 2 (Deque.fill 2 5 (7 : Nat)) ∧
    content 2 (erase_range 2 (Deque.fill 2 5 (7 : Nat)) (begin_add 2 (Deque.fill 2 5 (7 : Nat)) 1)
      (begin_add 2 (Deque.fill 2 5 (7 : Nat)) 3)).1
      = ([7, 7, 7, 7, 7].take 1 ++ [7, 7, 7, 7, 7].drop 3).map some :=
  ⟨WF.fill 2 (by decide) 5 7,
    (erase_range_content 2 (Deque.fill 2 5 (7 : Nat)) [7, 7, 7, 7, 7] 1 3
      (WF.fill 2 (by decide) 5 7) (by decide) (by decide) (by decide) (by decide)).1⟩

/-- C5 (code at the failing input): on the deque `[0,1,2,3,4]`,
`insert(begin() + 1, 9)` leaves `[0,0,9,2,3,4]` where naive list insertion gives
`[0,9,1,2,3,4]`: the front branch of `insert_aux` never repositions `pos` after
`push_front`, so `*pos = value_copy` overwrites the element that was at `pos`. -/
theorem insert_second_of_five :
    content 128 (pushed_back 128 [0, 1, 2, 3, 4]) = [some 0, some 1, some 2, some 3, some 4] ∧
    content 128 (insert 128 (pushed_back 128 [0, 1, 2, 3, 4])
      (begin_add 128 (pushed_back 128 [0, 1, 2, 3, 4]) 1) 9).1
      = [some 0, some 0, some 9, some 2, some 3, some 4] := by
  decide

/-- C6: after `clear()` on a well-formed deque, `empty()` holds and `size()` is 0,
exactly one block is still allocated and it is the one of the former
`start.node`, `start.node == finish.node == old start.node`, the map array and
`map_size` are unchanged, and a following `push_back(v)` gives `size() == 1` with
`front() == back() == v`. -/
theorem clear_keeps_front_block {α : Type} (bs : Nat) (d : Deque α) (v : α) (hw : WF bs d) :
    empty (clear bs d) = true ∧ size bs (clear bs d) = 0 ∧
    (∃ h, d.map d.start.node = some h ∧ ∀ k, ((clear bs d).heap k).isSome = true ↔ k = h) ∧
    (clear bs d).start.node = d.start.node ∧ (clear bs d).finish.node = d.start.node ∧
    (clear bs d).map = d.map ∧ (clear bs d).map_size = d.map_size ∧
    size bs (push_back bs (clear bs d) v) = 1 ∧
    front (push_back bs (clear bs d) v) = some v ∧
    back bs (push_back bs (clear bs d) v) = some v := by
  obtain ⟨c1, c2, c3, c4, c5, c6⟩ := clear_shape bs d hw
  have hwc := clear_wf bs d hw
  have hcont : content bs (clear bs d) = [] := by
    rw [content_eq_flat bs hw.bs_pos _ hwc.start_ok, c4, c5]
    simp
  obtain ⟨b1, b2, b3⟩ := push_back_spec bs (clear bs d) hwc v
  rw [hcont] at b2
  have hdiff : Iter.diff bs (clear bs d).finish (clear bs d).start = 0 := by
    rw [Iter.diff_eq_pos, c4, c5]
    ring
  rw [hdiff] at b3
  obtain ⟨h, hh, _⟩ := hw.live d.start.node (le_refl _) hw.node_le
  refine ⟨?_, ?_, ⟨h, hh, ?_⟩, by rw [c4], by rw [c5], c1, c2, ?_, ?_, ?_⟩
  · unfold empty Iter.eq
    rw [c4, c5]
    simp
  · unfold size
    rw [hdiff]
    rfl
  · intro k
    rw [c6, hh]
    constructor
    · intro e; exact (Option.some.inj e).symm
    · intro e; rw [e]
  · unfold size
    rw [b3]
    rfl
  · rw [front_eq_index bs _ b1]
    have := index_of_content bs _ b1 _ b2 0 (by simp)
    simpa using this
  · rw [back_eq_index bs _ b1 0 (by rw [b3]; rfl)]
    have := index_of_content bs _ b1 _ b2 0 (by simp)
    simpa using this

/-- C6 witness: a five-element deque spread over three blocks of two. -/
theorem clear_keeps_front_block_witness :
    WF 2 (Deque.fill 2 5 (7 : Nat)) ∧
    empty (clear 2 (Deque.fill 2 5 (7 : Nat))) = true ∧
    size 2 (push_back 2 (clear 2 (Deque.fill 2 5 (7 : Nat))) 5) = 1 :=
  ⟨WF.fill 2 (by decide) 5 7,
    (clear_keeps_front_block 2 (Deque.fill 2 5 (7 : Nat)) 5 (WF.fill 2 (by decide) 5 7)).1,
    (clear_keeps_front_block 2 (Deque.fill 2 5 (7 : Nat)) 5
      (WF.fill 2 (by decide) 5 7)).2.2.2.2.2.2.2.1⟩

/-- C7 (code at the failing input): one `push_front` followed by one `pop_front`
on a fresh `deque<int>` does not give back an empty deque with one block between
`start.node` and `finish.node`: `empty()` is false and `start.node` is
`finish.node + 1`, a slot that holds no block. -/
theorem round_trip_front_not_empty :
    empty (pop_front 128 (push_front 128 (Deque.new Nat 128) 1)) = false ∧
    (pop_front 128 (push_front 128 (Deque.new Nat 128) 1)).start.node
      = (pop_front 128 (push_front 128 (Deque.new Nat 128) 1)).finish.node + 1 ∧
    (pop_front 128 (push_front 128 (Deque.new Nat 128) 1)).start.first = none := by
  decide

/-- C8: for `buffer_size >= 1` and a `size_type` value `n`, `deque(n, v)` has
`size() == n` and every element equal to `v`; exactly `n / buffer_size + 1`
blocks are allocated, they sit in the consecutive map slots from `start.node`
to `finish.node`, `start` is at offset 0 and `finish` at offset
`n % buffer_size`. -/
theorem fill_constructor_blocks {α : Type} (bs : Nat) (n : Nat) (v : α) (hbs : 0 < bs)
    (hn : n < 2 ^ 64) :
    size bs (Deque.fill bs n v) = n ∧
    content bs (Deque.fill bs n v) = (List.replicate n v).map some ∧
    (∀ h, ((Deque.fill bs n v).heap h).isSome = true ↔ h < n / bs + 1) ∧
    (Deque.fill bs n v).finish.node - (Deque.fill bs n v).start.node + 1
      = ((n / bs + 1 : Nat) : Int) ∧
    (∀ i, (Deque.fill bs n v).start.node ≤ i → i ≤ (Deque.fill bs n v).finish.node →
      ∃ h, (Deque.fill bs n v).map i = some h ∧ ((Deque.fill bs n v).heap h).isSome = true) ∧
    (Deque.fill bs n v).start.off = 0 ∧
    (Deque.fill bs n v).finish.off = ((n % bs : Nat) : Int) ∧
    WF bs (Deque.fill bs n v) := by
  obtain ⟨c1, c2, c3, c4, c5, c6, c7⟩ := fill_initialized_spec bs hbs n v
  refine ⟨?_, content_fill bs hbs n v, c7, ?_, c1.live, c4, c5, c1⟩
  · unfold size
    rw [c3, to_size_t_of_lt _ (Int.natCast_nonneg _) (by exact_mod_cast hn)]
    rfl
  · rw [c6]
    push_cast
    ring

/-- C8 witness: seven elements in blocks of three. -/
theorem fill_constructor_blocks_witness :
    (0 < 3 ∧ 7 < 2 ^ 64) ∧ size 3 (Deque.fill 3 7 (5 : Nat)) = 7 ∧
    content 3 (Deque.fill 3 7 (5 : Nat)) = (List.replicate 7 5).map some :=
  ⟨⟨by decide, by decide⟩,
    (fill_constructor_blocks 3 7 (5 : Nat) (by decide) (by decide)).1,
    (fill_constructor_blocks 3 7 (5 : Nat) (by decide) (by decide)).2.1⟩

/-- C9: on a well-formed non-empty deque with content `xs`, for every
`n < size()`, `operator[](n)` is the `n`-th element of `xs` and is the element
reached by `n` increments of `begin()`; `front()` is `operator[](0)` and
`back()` is `operator[](size() - 1)`. -/
theorem index_front_back {α : Type} (bs : Nat) (d : Deque α) (xs : List α) (hw : WF bs d)
    (hc : content bs d = xs.map some) (hne : xs ≠ []) (hfit : xs.length < 2 ^ 64) :
    (∀ n, n < size bs d →
      index bs d n = xs[n]? ∧ deref d ((Iter.inc bs d.map)^[n] d.start) = index bs d n) ∧
    front d = index bs d 0 ∧ back bs d = index bs d (size bs d - 1) := by
  have hd := diff_of_content bs d hw _ hc
  rw [List.length_map] at hd
  have hs : size bs d = xs.length := by
    rw [size_of_content bs d hw _ hc (by rw [List.length_map]; omega), List.length_map]
  have hpos : 0 < xs.length := List.length_pos.2 hne
  refine ⟨?_, front_eq_index bs d hw, ?_⟩
  · intro n hn
    rw [hs] at hn
    refine ⟨?_, iterate_inc_eq_index bs d hw n⟩
    have := index_of_content bs d hw _ hc n (by rw [List.length_map]; exact hn)
    rw [List.getElem?_map, List.getElem?_eq_getElem hn] at this
    rw [List.getElem?_eq_getElem hn]
    simpa using this
  · rw [hs]
    apply back_eq_index bs d hw
    rw [hd]
    omega

/-- C9 witness: seven elements in blocks of three. -/
theorem index_front_back_witness :
    WF 3 (Deque.fill 3 7 (5 : Nat)) ∧
    front (Deque.fill 3 7 (5 : Nat)) = index 3 (Deque.fill 3 7 (5 : Nat)) 0 ∧
    back 3 (Deque.fill 3 7 (5 : Nat))
      = index 3 (Deque.fill 3 7 (5 : Nat)) (size 3 (Deque.fill 3 7 (5 : Nat)) - 1) :=
  ⟨WF.fill 3 (by decide) 7 5,
    (index_front_back 3 (Deque.fill 3 7 (5 : Nat)) (List.replicate 7 5) (WF.fill 3 (by decide) 7 5)
      (content_fill 3 (by decide) 7 5) (by decide) (by decide)).2⟩

/-- C10 (counterexample): when `construct` throws inside the `try` block of
`push_back_aux` or `push_front_aux`, the call returns normally: the handler has
no rethrow, so the failure is not reported to the caller. -/
theorem push_aux_failure_swallowed :
    (push_back_aux_try false true (Deque.fill 128 127 (0 : Nat)) 7).2 ≠ Outcome.propagated ∧
    (push_front_aux_try 128 false true (Deque.new Nat 128) 7).2 ≠ Outcome.propagated := by
  decide

/-- C10 (amended): when `construct` throws a `std::exception` in the slow path
of `push_back` (and of `push_front`, which is entered with `start.cur ==
start.first`), the call returns normally, the newly allocated block is released
and no other block changes its allocation status, and the element pointers of
`start` and `finish` and the logical content are those before the call. -/
theorem push_aux_failure_rollback {α : Type} (bs : Nat) (d : Deque α) (v : α) (hw : WF bs d) :
    ((push_back_aux_try false true d v).2 = Outcome.returned ∧
     (push_back_aux_try false true d v).1.start.first = d.start.first ∧
     (push_back_aux_try false true d v).1.start.off = d.start.off ∧
     (push_back_aux_try false true d v).1.finish.first = d.finish.first ∧
     (push_back_aux_try false true d v).1.finish.off = d.finish.off ∧
     content bs (push_back_aux_try false true d v).1 = content bs d ∧
     (∀ h, ((push_back_aux_try false true d v).1.heap h).isSome = (d.heap h).isSome) ∧
     (push_back_aux_try false true d v).1.heap d.next = none) ∧
    (d.start.off = 0 →
     (push_front_aux_try bs false true d v).2 = Outcome.returned ∧
     (push_front_aux_try bs false true d v).1.start.first = d.start.first ∧
     (push_front_aux_try bs false true d v).1.start.off = d.start.off ∧
     (push_front_aux_try bs false true d v).1.finish.first = d.finish.first ∧
     (push_front_aux_try bs false true d v).1.finish.off = d.finish.off ∧
     content bs (push_front_aux_try bs false true d v).1 = content bs d ∧
     (∀ h, ((push_front_aux_try bs false true d v).1.heap h).isSome = (d.heap h).isSome) ∧
     (push_front_aux_try bs false true d v).1.heap d.next = none) :=
  ⟨push_back_aux_try_throw bs d hw v, fun hoff => push_front_aux_try_throw bs d hw v hoff⟩

/-- C10 witness: a deque whose last block has one free cell and whose first
block is entered at offset 0, so both slow paths apply. -/
theorem push_aux_failure_rollback_witness :
    WF 4 (Deque.fill 4 3 (0 : Nat)) ∧ (Deque.fill 4 3 (0 : Nat)).start.off = 0 ∧
    content 4 (push_back_aux_try false true (Deque.fill 4 3 (0 : Nat)) 7).1
      = content 4 (Deque.fill 4 3 (0 : Nat)) ∧
    content 4 (push_front_aux_try 4 false true (Deque.fill 4 3 (0 : Nat)) 7).1
      = content 4 (Deque.fill 4 3 (0 : Nat)) :=
  ⟨WF.fill 4 (by decide) 3 0, by decide,
    (push_aux_failure_rollback 4 (Deque.fill 4 3 (0 : Nat)) 7
      (WF.fill 4 (by decide) 3 0)).1.2.2.2.2.2.1,
    ((push_aux_failure_rollback 4 (Deque.fill 4 3 (0 : Nat)) 7
      (WF.fill 4 (by decide) 3 0)).2 (by decide)).2.2.2.2.2.1⟩

/-- C11: the stack adapter is LIFO over the back of the deque: on a stack whose
underlying deque is well-formed with content `xs`, after `push(v)` `top()` is
`v`, `size()` is `|xs| + 1` and `empty()` is false; `push(v)` followed by `pop()`
leaves a well-formed deque with content `xs`, the same `size()` and, when `xs` is
not empty, the same `top()`; fast and slow path of the push alike. -/
theorem stack_push_pop {α : Type} (bs : Nat) (s : Stack α) (xs : List α) (v : α)
    (hw : WF bs s.c) (hc : content bs s.c = xs.map some) (hfit : xs.length + 1 < 2 ^ 64) :
    Stack.top bs (Stack.push bs s v) = some v ∧
    Stack.size bs (Stack.push bs s v) = xs.length + 1 ∧
    Stack.empty (Stack.push bs s v) = false ∧
    WF bs (Stack.pop bs (Stack.push bs s v)).c ∧
    content bs (Stack.pop bs (Stack.push bs s v)).c = xs.map some ∧
    Stack.size bs (Stack.pop bs (Stack.push bs s v)) = Stack.size bs s ∧
    (xs ≠ [] → Stack.top bs (Stack.pop bs (Stack.push bs s v)) = Stack.top bs s) := by
  obtain ⟨b1, b2, b3⟩ := push_back_spec bs s.c hw v
  have hd := diff_of_content bs s.c hw _ hc
  rw [List.length_map] at hd
  have hb2 : content bs (push_back bs s.c v) = (xs ++ [v]).map some := by
    rw [b2, hc, List.map_append]
    rfl
  obtain ⟨p1, p2, p3, _⟩ := pop_back_spec bs (push_back bs s.c v) b1 (by rw [b3, hd]; omega)
  have hp2 : content bs (pop_back bs (push_back bs s.c v)) = xs.map some := by
    rw [p2, b2, List.dropLast_concat, hc]
  have hs : size bs s.c = xs.length := by
    rw [size_of_content bs s.c hw _ hc (by rw [List.length_map]; omega), List.length_map]
  refine ⟨back_push_back bs s.c hw v, ?_, ?_, p1, hp2, ?_, ?_⟩
  · show size bs (push_back bs s.c v) = _
    rw [size_of_content bs _ b1 _ hb2 (by simp; omega)]
    simp
  · exact empty_eq_false bs (push_back bs s.c v) b1 (by rw [b3, hd]; omega)
  · show size bs (pop_back bs (push_back bs s.c v)) = size bs s.c
    rw [size_of_content bs _ p1 _ hp2 (by rw [List.length_map]; omega), List.length_map, hs]
  · intro hne
    have hpos : 0 < xs.length := List.length_pos.2 hne
    show back bs (pop_back bs (push_back bs s.c v)) = back bs s.c
    rw [back_of_content bs _ p1 xs hp2 hpos, back_of_content bs _ hw xs hc hpos]

/-- C11 witness: a stack over a seven-element deque with one-element blocks whose
last block sits in the last map slot, so that the push reallocates the map. -/
theorem stack_push_pop_witness :
    WF 1 (push_back 1 (Deque.fill 1 6 (0 : Nat)) 0) ∧
    Stack.top 1 (Stack.push 1 ⟨push_back 1 (Deque.fill 1 6 (0 : Nat)) 0⟩ 9) = some 9 ∧
    content 1 (Stack.pop 1 (Stack.push 1 ⟨push_back 1 (Deque.fill 1 6 (0 : Nat)) 0⟩ 9)).c
      = [0, 0, 0, 0, 0, 0, 0].map some :=
  ⟨(push_back_spec 1 _ (WF.fill 1 (by decide) 6 0) 0).1,
    (stack_push_pop 1 ⟨push_back 1 (Deque.fill 1 6 (0 : Nat)) 0⟩ [0, 0, 0, 0, 0, 0, 0] 9
      (push_back_spec 1 _ (WF.fill 1 (by decide) 6 0) 0).1 (by decide) (by decide)).1,
    (stack_push_pop 1 ⟨push_back 1 (Deque.fill 1 6 (0 : Nat)) 0⟩ [0, 0, 0, 0, 0, 0, 0] 9
      (push_back_spec 1 _ (WF.fill 1 (by decide) 6 0) 0).1 (by decide) (by decide)).2.2.2.2.1⟩

/-- C12: for `buffer_size >= 1`, an iterator at slot `s` and offset `o` with
`0 <= o < buffer_size`, and any integer `n`: `(it + n) - n` has the slot and the
offset of `it` (and is `it` itself when its block pointer is the one in its
slot), and `(it + n) - it`, computed as slot difference times `buffer_size` plus
offset difference, is `n`. -/
theorem iter_add_sub_round_trip (bs : Nat) (map : Int → Option Nat) (it : Iter) (n : Int)
    (hbs : 0 < bs) (h0 : 0 ≤ it.off) (h1 : it.off < (bs : Int)) :
    (Iter.sub bs map (Iter.add bs map it n) n).node = it.node ∧
    (Iter.sub bs map (Iter.add bs map it n) n).off = it.off ∧
    Iter.diff bs (Iter.add bs map it n) it = n ∧
    (it.first = map it.node → Iter.sub bs map (Iter.add bs map it n) n = it) := by
  have hb : (0 : Int) < bs := by exact_mod_cast hbs
  obtain ⟨a1, a2⟩ := Iter.add_node_off bs hbs map it h0 h1 n
  obtain ⟨q1, q2, q3⟩ := parts_of_pos bs hb (Iter.pos bs it + n)
  have hpa : Iter.pos bs (Iter.add bs map it n) = Iter.pos bs it + n := by
    unfold Iter.pos
    rw [a1, a2]
    exact q1
  obtain ⟨b1, b2⟩ := Iter.add_node_off bs hbs map (Iter.add bs map it n)
    (by rw [a2]; exact q2) (by rw [a2]; exact q3) (-n)
  rw [hpa] at b1 b2
  have hp : Iter.pos bs it + n + -n = it.node * (bs : Int) + it.off := by
    unfold Iter.pos
    ring
  rw [hp] at b1 b2
  obtain ⟨e1, e2⟩ := ediv_emod_of_parts bs hb it.node it.off h0 h1
  refine ⟨?_, ?_, ?_, ?_⟩
  · unfold Iter.sub
    rw [b1, e1]
  · unfold Iter.sub
    rw [b2, e2]
  · rw [Iter.diff_eq_pos, hpa]
    ring
  · intro hf
    rw [Iter.add_eq_mk_at bs hbs map it ⟨hf, h0, h1⟩, Iter.sub_mk_at bs hbs,
      add_sub_cancel_right]
    exact (Iter.eq_mk_at bs hbs map it ⟨hf, h0, h1⟩).symm

/-- C12 witness: `buffer_size` 128 and the jumps `3 * 128 + 2` and
`-(3 * 128 + 2)` from slot 5, offset 7. -/
theorem iter_add_sub_round_trip_witness :
    (0 < 128 ∧ (0 : Int) ≤ 7 ∧ (7 : Int) < 128) ∧
    Iter.diff 128 (Iter.add 128 (fun _ => none) ⟨5, none, 7⟩ (3 * 128 + 2)) ⟨5, none, 7⟩
      = 3 * 128 + 2 ∧
    Iter.sub 128 (fun _ => none) (Iter.add 128 (fun _ => none) ⟨5, none, 7⟩ (-(3 * 128 + 2)))
      (-(3 * 128 + 2)) = ⟨5, none, 7⟩ :=
  ⟨⟨by decide, by decide, by decide⟩,
    (iter_add_sub_round_trip 128 (fun _ => none) ⟨5, none, 7⟩ (3 * 128 + 2) (by decide)
      (by decide) (by decide)).2.2.1,
    (iter_add_sub_round_trip 128 (fun _ => none) ⟨5, none, 7⟩ (-(3 * 128 + 2)) (by decide)
      (by decide) (by decide)).2.2.2 rfl⟩

/-- C13: on a deque with `0 <= start.node <= finish.node < map_size`, after
`reverse_map_at_back(n)` at least `n` map slots follow `finish.node`, after
`reverse_map_at_front(n)` at least `n` map slots precede `start.node`, and in
both cases the live slot range is inside `[0, map_size)`; so the slots
`finish.node + 1` and `start.node - 1` written by `push_back_aux` and
`push_front_aux` are inside the map. -/
theorem reverse_map_spare {α : Type} (d : Deque α) (n : Nat) (h0 : 0 ≤ d.start.node)
    (hle : d.start.node ≤ d.finish.node) (h1 : d.finish.node < (d.map_size : Int)) :
    ((n : Int) ≤ ((reverse_map_at_back d n).map_size : Int)
        - ((reverse_map_at_back d n).finish.node + 1) ∧
      0 ≤ (reverse_map_at_back d n).start.node ∧
      (reverse_map_at_back d n).start.node ≤ (reverse_map_at_back d n).finish.node ∧
      (reverse_map_at_back d n).finish.node < ((reverse_map_at_back d n).map_size : Int)) ∧
    ((n : Int) ≤ (reverse_map_at_front d n).start.node ∧
      0 ≤ (reverse_map_at_front d n).start.node ∧
      (reverse_map_at_front d n).start.node ≤ (reverse_map_at_front d n).finish.node ∧
      (reverse_map_at_front d n).finish.node < ((reverse_map_at_front d n).map_size : Int)) ∧
    (0 ≤ (reverse_map_at_back d 1).finish.node + 1 ∧
      (reverse_map_at_back d 1).finish.node + 1 < ((reverse_map_at_back d 1).map_size : Int)) ∧
    (0 ≤ (reverse_map_at_front d 1).start.node - 1 ∧
      (reverse_map_at_front d 1).start.node - 1 < ((reverse_map_at_front d 1).map_size : Int)) := by
  have back : ∀ k : Nat, (k : Int) ≤ ((reverse_map_at_back d k).map_size : Int)
        - ((reverse_map_at_back d k).finish.node + 1) ∧
      0 ≤ (reverse_map_at_back d k).start.node ∧
      (reverse_map_at_back d k).start.node ≤ (reverse_map_at_back d k).finish.node ∧
      (reverse_map_at_back d k).finish.node < ((reverse_map_at_back d k).map_size : Int) := by
    intro k
    unfold reverse_map_at_back
    split
    · obtain ⟨r1, r2, r3, _, r5, _⟩ := reallocate_map_bounds d k false h0 hle h1
      have := r5 rfl
      exact ⟨by omega, r1, by omega, r3⟩
    · exact ⟨by omega, h0, hle, h1⟩
  have front : ∀ k : Nat, (k : Int) ≤ (reverse_map_at_front d k).start.node ∧
      0 ≤ (reverse_map_at_front d k).start.node ∧
      (reverse_map_at_front d k).start.node ≤ (reverse_map_at_front d k).finish.node ∧
      (reverse_map_at_front d k).finish.node < ((reverse_map_at_front d k).map_size : Int) := by
    intro k
    unfold reverse_map_at_front
    split
    · obtain ⟨r1, r2, r3, r4, _⟩ := reallocate_map_bounds d k true h0 hle h1
      exact ⟨r4 rfl, r1, by omega, r3⟩
    · exact ⟨by omega, h0, hle, h1⟩
  refine ⟨back n, front n, ?_, ?_⟩
  · obtain ⟨b1, b2, b3, b4⟩ := back 1
    push_cast at b1
    omega
  · obtain ⟨f1, f2, f3, f4⟩ := front 1
    push_cast at f1
    omega

/-- C13 witness: a deque with one-element blocks whose last block sits in the last
map slot; `reverse_map_at_back(1)` reallocates the map. -/
theorem reverse_map_spare_witness :
    (push_back 1 (Deque.fill 1 6 (0 : Nat)) 0).finish.node + 1
      = ((push_back 1 (Deque.fill 1 6 (0 : Nat)) 0).map_size : Int) ∧
    (reverse_map_at_back (push_back 1 (Deque.fill 1 6 (0 : Nat)) 0) 1).finish.node + 1
      < ((reverse_map_at_back (push_back 1 (Deque.fill 1 6 (0 : Nat)) 0) 1).map_size : Int) :=
  ⟨by decide,
    (reverse_map_spare (push_back 1 (Deque.fill 1 6 (0 : Nat)) 0) 1 (by decide) (by decide)
      (by decide)).2.2.1.2⟩

/-- C14: on a well-formed deque with `used = finish.node - start.node + 1` live
slots, `reallocate_map(k, at_front)` (i) leaves the same block pointers in the
same order in the live slot range, touches no block, and keeps the logical
content and the element pointers `start.cur`, `finish.cur`; (ii) leaves
`map_size` unchanged exactly when `map_size > 2 * (used + k)`; (iii) otherwise
sets it to `map_size + max(map_size, k) + 2`. -/
theorem reallocate_map_keeps_blocks {α : Type} (bs : Nat) (d : Deque α) (k : Nat) (front : Bool)
    (hw : WF bs d) :
    ((∀ t : Int, 0 ≤ t → t ≤ d.finish.node - d.start.node →
        (reallocate_map d k front).map ((reallocate_map d k front).start.node + t)
          = d.map (d.start.node + t)) ∧
      (reallocate_map d k front).finish.node - (reallocate_map d k front).start.node
        = d.finish.node - d.start.node ∧
      (reallocate_map d k front).heap = d.heap ∧
      content bs (reallocate_map d k front) = content bs d ∧
      (reallocate_map d k front).start.first = d.start.first ∧
      (reallocate_map d k front).start.off = d.start.off ∧
      (reallocate_map d k front).finish.first = d.finish.first ∧
      (reallocate_map d k front).finish.off = d.finish.off) ∧
    ((reallocate_map d k front).map_size = d.map_size
      ↔ (d.map_size : Int) > 2 * (d.finish.node - d.start.node + 1 + (k : Int))) ∧
    (¬ (d.map_size : Int) > 2 * (d.finish.node - d.start.node + 1 + (k : Int)) →
      (reallocate_map d k front).map_size = d.map_size + max d.map_size k + 2) := by
  have hle := hw.node_le
  obtain ⟨δ, hsh, _⟩ := reallocate_map_shifted bs d hw k front
  obtain ⟨_, _, _, _, _, _, r7, r8⟩ :=
    reallocate_map_bounds d k front hw.start_lo hle hw.finish_hi
  have hcont := content_of_shifted hw hsh
  obtain ⟨a1, a2, a3, a4, a5, a6, a7, a8, a9⟩ := hsh
  refine ⟨⟨?_, ?_, a1, hcont, ?_, a4, ?_, a7⟩, r7, r8⟩
  · intro t t0 t1
    rw [a3, ← a9 (d.start.node + t) (by omega) (by omega)]
    congr 1
    ring
  · rw [a3, a6]
    ring
  · rw [a5, a3, a9 _ (le_refl _) hle]
    exact hw.start_ok.1.symm
  · rw [a8, a6, a9 _ hle (le_refl _)]
    exact hw.finish_ok.1.symm

/-- C14 witness: an in-place recentring with overlapping source and destination
ranges (the two live slots 2 and 3 of an eight-slot map moved to slots 3 and 4,
`map_size` kept) and a reallocation (eight live slots of a nine-slot map,
`map_size` 9 + 9 + 2). -/
theorem reallocate_map_keeps_blocks_witness :
    WF 1 (push_front 1 (Deque.new Nat 1) 5) ∧
    (push_front 1 (Deque.new Nat 1) 5).start.node = 2 ∧
    (reallocate_map (push_front 1 (Deque.new Nat 1) 5) 1 true).start.node = 3 ∧
    (reallocate_map (push_front 1 (Deque.new Nat 1) 5) 1 true).map_size = 8 ∧
    content 1 (reallocate_map (push_front 1 (Deque.new Nat 1) 5) 1 true)
      = content 1 (push_front 1 (Deque.new Nat 1) 5) ∧
    (reallocate_map (push_back 1 (Deque.fill 1 6 (0 : Nat)) 0) 1 false).map_size = 20 ∧
    content 1 (reallocate_map (push_back 1 (Deque.fill 1 6 (0 : Nat)) 0) 1 false)
      = content 1 (push_back 1 (Deque.fill 1 6 (0 : Nat)) 0) :=
  ⟨(push_front_spec 1 _ (WF.new Nat 1 (by decide)) 5).1, by decide, by decide, by decide,
    (reallocate_map_keeps_blocks 1 (push_front 1 (Deque.new Nat 1) 5) 1 true
      (push_front_spec 1 _ (WF.new Nat 1 (by decide)) 5).1).1.2.2.2.1,
    by decide,
    (reallocate_map_keeps_blocks 1 (push_back 1 (Deque.fill 1 6 (0 : Nat)) 0) 1 false
      (push_back_spec 1 _ (WF.fill 1 (by decide) 6 0) 0).1).1.2.2.2.1⟩

/-- C15 (counterexample): from `deque(11, 0)` with buffer_size 2 (six blocks in
slots 1 to 6 of an eight-slot map) one `push_back` leaves `finish.node` in the last
map slot and one `push_front` leaves `start.node` in slot 0: no unused slot
remains after, respectively before, the live range. -/
theorem no_spare_slot_after_push :
    (push_back 2 (Deque.fill 2 11 (0 : Nat)) 0).finish.node
      = ((push_back 2 (Deque.fill 2 11 (0 : Nat)) 0).map_size : Int) - 1 ∧
    (push_front 2 (Deque.fill 2 11 (0 : Nat)) 0).start.node = 0 := by
  decide

/-- C15 (amended): in every state reachable from `deque()` or `deque(n, v)`
through `push_back`, `push_front`, `pop_back`, `clear` and `erase(first, last)`,
the live slot range is inside the map: `0 <= start.node <= finish.node <=
map_size - 1`; right after construction one unused slot at least lies before
`start.node` and one after `finish.node`. -/
theorem live_slots_inside_map {α : Type} (bs : Nat) (d : Deque α) (n : Nat) (v : α)
    (hbs : 0 < bs) (hr : Reachable bs d) :
    (0 ≤ d.start.node ∧ d.start.node ≤ d.finish.node ∧
      d.finish.node ≤ (d.map_size : Int) - 1) ∧
    (1 ≤ (Deque.fill bs n v).start.node ∧
      (Deque.fill bs n v).finish.node ≤ ((Deque.fill bs n v).map_size : Int) - 2) := by
  have hw := hr.wf hbs
  obtain ⟨l1, l2, l3⟩ := fill_layout bs hbs n v
  refine ⟨⟨hw.start_lo, hw.node_le, by have := hw.finish_hi; omega⟩, ?_, ?_⟩
  · rw [l1]
    have : n / bs + 1 + 2 ≤ max initial_map_size (n / bs + 1 + 2) := le_max_right _ _
    omega
  · rw [l2, l1, l3]
    have : n / bs + 1 + 2 ≤ max initial_map_size (n / bs + 1 + 2) := le_max_right _ _
    omega

/-- C15 witness: the state of the counterexample, reached by a constructor and one
`push_back`. -/
theorem live_slots_inside_map_witness :
    0 < 2 ∧ Reachable 2 (push_back 2 (Deque.fill 2 11 (0 : Nat)) 0) ∧
    (0 ≤ (push_back 2 (Deque.fill 2 11 (0 : Nat)) 0).start.node ∧
      (push_back 2 (Deque.fill 2 11 (0 : Nat)) 0).start.node
        ≤ (push_back 2 (Deque.fill 2 11 (0 : Nat)) 0).finish.node ∧
      (push_back 2 (Deque.fill 2 11 (0 : Nat)) 0).finish.node
        ≤ ((push_back 2 (Deque.fill 2 11 (0 : Nat)) 0).map_size : Int) - 1) :=
  ⟨by decide, Reachable.push_back _ 0 (Reachable.ctor 11 0),
    (live_slots_inside_map 2 (push_back 2 (Deque.fill 2 11 (0 : Nat)) 0) 11 0 (by decide)
      (Reachable.push_back _ 0 (Reachable.ctor 11 0))).1⟩

/-- C16: centring.  After `create_map_and_nodes(n)` the unused slots before the
used range number `floor(d / 2)` and those after it `ceil(d / 2)`, with
`d = map_size - used`; after `reallocate_map(k, side)`, counting the `k` requested
slots on that side as used, the same holds; so the two numbers differ by at most
one. -/
theorem map_centering {α : Type} (bs : Nat) (d : Deque α) (n k : Nat) (front : Bool)
    (hbs : 0 < bs) (h0 : 0 ≤ d.start.node) (hle : d.start.node ≤ d.finish.node)
    (h1 : d.finish.node < (d.map_size : Int)) :
    ((create_map_and_nodes bs (Deque.init α) n).start.node
        = (((create_map_and_nodes bs (Deque.init α) n).map_size : Int) - ((n / bs + 1 : Nat) : Int)) / 2 ∧
      ((create_map_and_nodes bs (Deque.init α) n).map_size : Int)
          - ((create_map_and_nodes bs (Deque.init α) n).finish.node + 1)
        = (((create_map_and_nodes bs (Deque.init α) n).map_size : Int) - ((n / bs + 1 : Nat) : Int))
          - (((create_map_and_nodes bs (Deque.init α) n).map_size : Int)
              - ((n / bs + 1 : Nat) : Int)) / 2) ∧
    ((reallocate_map d k front).start.node - (if front = true then (k : Int) else 0)
        = (((reallocate_map d k front).map_size : Int)
            - (d.finish.node - d.start.node + 1 + (k : Int))) / 2 ∧
      ((reallocate_map d k front).map_size : Int)
          - ((reallocate_map d k front).finish.node + 1 + (if front = true then 0 else (k : Int)))
        = (((reallocate_map d k front).map_size : Int)
            - (d.finish.node - d.start.node + 1 + (k : Int)))
          - (((reallocate_map d k front).map_size : Int)
              - (d.finish.node - d.start.node + 1 + (k : Int))) / 2 ∧
      0 ≤ ((reallocate_map d k front).map_size : Int)
            - (d.finish.node - d.start.node + 1 + (k : Int))) := by
  constructor
  · obtain ⟨_, _, _, c4, c5, c6, _⟩ := @create_map_and_nodes_wf α bs hbs n
    have hm : n / bs + 1 + 2 ≤ max initial_map_size (n / bs + 1 + 2) := le_max_right _ _
    rw [c4, c5, c6]
    generalize max initial_map_size (n / bs + 1 + 2) = M at hm
    generalize n / bs = q at hm
    constructor <;> omega
  · obtain ⟨r1, r2, r3, r4, r5, r6, _⟩ := reallocate_map_bounds d k front h0 hle h1
    refine ⟨r6.symm, ?_, ?_⟩
    · cases front with
      | true =>
        simp only [if_true] at r6 ⊢
        omega
      | false =>
        simp only [Bool.false_eq_true, if_false] at r6 ⊢
        omega
    · cases front with
      | true =>
        have := r4 rfl
        simp only [if_true] at r6
        omega
      | false =>
        have := r5 rfl
        simp only [Bool.false_eq_true, if_false] at r6
        omega

/-- C16 witness: `create_map_and_nodes(0)` with eight map slots (front spare 3,
back spare 4) and the reallocation of a full nine-slot map. -/
theorem map_centering_witness :
    (create_map_and_nodes 128 (Deque.init Nat) 0).start.node = 3 ∧
    ((create_map_and_nodes 128 (Deque.init Nat) 0).map_size : Int)
      - ((create_map_and_nodes 128 (Deque.init Nat) 0).finish.node + 1) = 4 ∧
    (create_map_and_nodes 128 (Deque.init Nat) 0).start.node
      = (((create_map_and_nodes 128 (Deque.init Nat) 0).map_size : Int)
          - ((0 / 128 + 1 : Nat) : Int)) / 2 :=
  ⟨by decide, by decide,
    (map_centering 128 (push_back 1 (Deque.fill 1 6 (0 : Nat)) 0) 0 1 false (by decide)
      (by decide) (by decide) (by decide)).1.1⟩

/-- C17 (counterexample): after `push_front(1)` on a fresh `deque<int>` and then
`clear()`, `start` and `finish` are both at offset 127 of the retained block, not
at its first position. -/
theorem clear_keeps_start_offset :
    (clear 128 (push_front 128 (Deque.new Nat 128) 1)).start.off = 127 ∧
    (clear 128 (push_front 128 (Deque.new Nat 128) 1)).finish.off = 127 := by
  decide

/-- C17 (amended): after `clear()` both `start` and `finish` are the `start` of
before the call: same map slot, same block, same in-block offset (which is 0 only
if it was 0 before). -/
theorem clear_start_finish {α : Type} (bs : Nat) (d : Deque α) :
    (clear bs d).start = d.start ∧ (clear bs d).finish = d.start :=
  clear_cursors bs d

/-- C18: on a well-formed deque (whose allocated blocks are exactly those in the
map slots from `start.node` to `finish.node`) and a range `begin() + i`,
`begin() + j` with `i <= j <= size()`, after `erase(first, last)` the allocated
blocks are again exactly those in the slots from the new `start.node` to the new
`finish.node`: each of these slots holds an allocated block, and the block of
every old live slot outside the new range has been released. -/
theorem erase_range_block_ownership {α : Type} (bs : Nat) (d : Deque α) (i j : Nat)
    (hw : WF bs d) (hij : i ≤ j) (hj : (j : Int) ≤ Iter.diff bs d.finish d.start) :
    (∀ h, ((erase_range bs d (begin_add bs d i) (begin_add bs d j)).1.heap h).isSome = true ↔
      ∃ t, (erase_range bs d (begin_add bs d i) (begin_add bs d j)).1.start.node ≤ t ∧
        t ≤ (erase_range bs d (begin_add bs d i) (begin_add bs d j)).1.finish.node ∧
        (erase_range bs d (begin_add bs d i) (begin_add bs d j)).1.map t = some h) ∧
    (∀ t, (erase_range bs d (begin_add bs d i) (begin_add bs d j)).1.start.node ≤ t →
      t ≤ (erase_range bs d (begin_add bs d i) (begin_add bs d j)).1.finish.node →
      ∃ h, (erase_range bs d (begin_add bs d i) (begin_add bs d j)).1.map t = some h ∧
        ((erase_range bs d (begin_add bs d i) (begin_add bs d j)).1.heap h).isSome = true) ∧
    (∀ t h, d.start.node ≤ t → t ≤ d.finish.node →
      (t < (erase_range bs d (begin_add bs d i) (begin_add bs d j)).1.start.node ∨
        (erase_range bs d (begin_add bs d i) (begin_add bs d j)).1.finish.node < t) →
      d.map t = some h →
      (erase_range bs d (begin_add bs d i) (begin_add bs d j)).1.heap h = none) ∧
    d.start.node ≤ (erase_range bs d (begin_add bs d i) (begin_add bs d j)).1.start.node ∧
    (erase_range bs d (begin_add bs d i) (begin_add bs d j)).1.finish.node ≤ d.finish.node ∧
    WF bs (erase_range bs d (begin_add bs d i) (begin_add bs d j)).1 := by
  obtain ⟨w, m, _⟩ := erase_range_wf bs d hw i j hij hj
  obtain ⟨n1, n2⟩ := erase_range_nodes bs d hw i j hij hj
  generalize (erase_range bs d (begin_add bs d i) (begin_add bs d j)).1 = r at w m n1 n2 ⊢
  refine ⟨?_, w.live, ?_, n1, n2, w⟩
  · intro h
    constructor
    · exact w.owned h
    · intro ⟨t, t1, t2, t3⟩
      obtain ⟨h2, e1, e2⟩ := w.live t t1 t2
      rw [t3] at e1
      rw [Option.some.inj e1]
      exact e2
  · intro t h t1 t2 t3 t4
    cases hc : r.heap h with
    | none => rfl
    | some b =>
      exfalso
      obtain ⟨t5, g1, g2, g3⟩ := w.owned h (by rw [hc]; rfl)
      rw [m] at g3
      have := hw.inj t t5 h t1 t2 (by omega) (by omega) t4 g3
      omega

/-- C18 witness: erasing the range `[1, 4)` of five elements in blocks of two
releases the last block and keeps the first two. -/
theorem erase_range_block_ownership_witness :
    WF 2 (Deque.fill 2 5 (7 : Nat)) ∧
    (erase_range 2 (Deque.fill 2 5 (7 : Nat)) (begin_add 2 (Deque.fill 2 5 (7 : Nat)) 1)
      (begin_add 2 (Deque.fill 2 5 (7 : Nat)) 4)).1.finish.node + 1
      = (Deque.fill 2 5 (7 : Nat)).finish.node ∧
    WF 2 (erase_range 2 (Deque.fill 2 5 (7 : Nat)) (begin_add 2 (Deque.fill 2 5 (7 : Nat)) 1)
      (begin_add 2 (Deque.fill 2 5 (7 : Nat)) 4)).1 :=
  ⟨WF.fill 2 (by decide) 5 7, by decide,
    (erase_range_block_ownership 2 (Deque.fill 2 5 (7 : Nat)) 1 4 (WF.fill 2 (by decide) 5 7)
      (by decide) (by decide)).2.2.2.2.2⟩

/-- C19: in every state reachable from `deque()` or `deque(n, v)` through
`push_back`, `push_front`, `pop_back`, `clear` and `erase(first, last)` the
in-block offsets of `start` and `finish` lie in `[0, buffer_size)`; a `push_back`
on such a state with `finish` at the last cell of its block allocates one fresh
block and leaves `finish` in the next slot at offset 0; and the deque obtained
from `deque()` by `push_back` of the `n` elements of a list spans
`n / buffer_size + 1` slots and has exactly `n / buffer_size + 1` allocated
blocks. -/
theorem cursor_offsets_in_block {α : Type} [Inhabited α] (bs : Nat) (d : Deque α) (v : α)
    (l : List α) (hbs : 0 < bs) (hr : Reachable bs d) :
    (0 ≤ d.start.off ∧ d.start.off < (bs : Int) ∧ 0 ≤ d.finish.off ∧ d.finish.off < (bs : Int)) ∧
    (d.finish.off = (bs : Int) - 1 →
      (push_back bs d v).finish.off = 0 ∧
      (push_back bs d v).finish.node - (push_back bs d v).start.node
        = d.finish.node - d.start.node + 1 ∧
      (push_back bs d v).next = d.next + 1 ∧
      (∀ h, ((push_back bs d v).heap h).isSome = true
        ↔ ((d.heap h).isSome = true ∨ h = d.next)) ∧
      d.heap d.next = none) ∧
    ((l.foldl (push_back bs) (Deque.new α bs)).finish.off = ((l.length % bs : Nat) : Int) ∧
      (l.foldl (push_back bs) (Deque.new α bs)).finish.node
        - (l.foldl (push_back bs) (Deque.new α bs)).start.node + 1
        = ((l.length / bs + 1 : Nat) : Int) ∧
      (∀ h, ((l.foldl (push_back bs) (Deque.new α bs)).heap h).isSome = true
        ↔ h < l.length / bs + 1) ∧
      WF bs (l.foldl (push_back bs) (Deque.new α bs))) := by
  have hw := hr.wf hbs
  obtain ⟨_, _, p3⟩ := push_back_alloc bs d hw v
  obtain ⟨q1, _, q3, q4, _, q6⟩ := pushed_back_blocks bs hbs l
  refine ⟨⟨hw.start_ok.2.1, hw.start_ok.2.2, hw.finish_ok.2.1, hw.finish_ok.2.2⟩, ?_,
    q3, ?_, q6, q1⟩
  · intro hf
    obtain ⟨a1, a2, a3, a4⟩ := p3 hf
    exact ⟨a3, a4, a1, a2, hw.fresh _ (le_refl _)⟩
  · rw [q4]
    push_cast
    ring

/-- C19 witness: a state reached by a constructor, a `push_back` and a `pop_back`,
with blocks of two. -/
theorem cursor_offsets_in_block_witness :
    0 < 2 ∧ Reachable 2 (pop_back 2 (push_back 2 (Deque.fill 2 3 (0 : Nat)) 1)) ∧
    (0 ≤ (pop_back 2 (push_back 2 (Deque.fill 2 3 (0 : Nat)) 1)).start.off ∧
      (pop_back 2 (push_back 2 (Deque.fill 2 3 (0 : Nat)) 1)).start.off < ((2 : Nat) : Int) ∧
      0 ≤ (pop_back 2 (push_back 2 (Deque.fill 2 3 (0 : Nat)) 1)).finish.off ∧
      (pop_back 2 (push_back 2 (Deque.fill 2 3 (0 : Nat)) 1)).finish.off < ((2 : Nat) : Int)) :=
  ⟨by decide,
    Reachable.pop_back _ (Reachable.push_back _ 1 (Reachable.ctor 3 0)) (by decide),
    (cursor_offsets_in_block 2 (pop_back 2 (push_back 2 (Deque.fill 2 3 (0 : Nat)) 1)) 0
      [1, 2, 3] (by decide)
      (Reachable.pop_back _ (Reachable.push_back _ 1 (Reachable.ctor 3 0)) (by decide))).1⟩

/-- C20: on a well-formed deque with content `xs` and a position `begin() + i`
with `0 <= i <= size()` (front, back or interior, in either half),
`insert(pos, v)` increases `size()` by one and the returned iterator dereferences
to `v`. -/
theorem insert_size_and_result {α : Type} (bs : Nat) (d : Deque α) (xs : List α) (i : Nat)
    (v : α) (hw : WF bs d) (hc : content bs d = xs.map some) (hi : i ≤ xs.length)
    (hfit : xs.length + 1 < 2 ^ 64) :
    size bs (insert bs d (begin_add bs d i) v).1 = size bs d + 1 ∧
    deref (insert bs d (begin_add bs d i) v).1 (insert bs d (begin_add bs d i) v).2 = some v := by
  obtain ⟨e1, e2⟩ := insert_spec bs d xs i v hw hc hi
  have hd := diff_of_content bs d hw _ hc
  rw [List.length_map] at hd
  refine ⟨?_, e2⟩
  unfold size
  rw [e1, hd, to_size_t_of_lt _ (by omega) (by omega), to_size_t_of_lt _ (by omega) (by omega)]
  omega

/-- C20 witness: the interior position 1 of `[0,1,2,3,4]`, which takes the front
branch of `insert_aux`. -/
theorem insert_size_and_result_witness :
    content 128 (pushed_back 128 [0, 1, 2, 3, 4]) = [0, 1, 2, 3, 4].map some ∧
    size 128 (insert 128 (pushed_back 128 [0, 1, 2, 3, 4])
      (begin_add 128 (pushed_back 128 [0, 1, 2, 3, 4]) 1) 9).1
      = size 128 (pushed_back 128 [0, 1, 2, 3, 4]) + 1 ∧
    deref (insert 128 (pushed_back 128 [0, 1, 2, 3, 4])
        (begin_add 128 (pushed_back 128 [0, 1, 2, 3, 4]) 1) 9).1
      (insert 128 (pushed_back 128 [0, 1, 2, 3, 4])
        (begin_add 128 (pushed_back 128 [0, 1, 2, 3, 4]) 1) 9).2 = some 9 :=
  ⟨by decide,
    insert_size_and_result 128 (pushed_back 128 [0, 1, 2, 3, 4]) [0, 1, 2, 3, 4] 1 9
      (pushed_back_blocks 128 (by decide) [0, 1, 2, 3, 4]).1 (by decide) (by decide) (by decide)⟩

end MiniSTL
